import Mathlib

namespace PySeq

inductive JVal where
  | jnull
  | jbool (b : Bool)
  | jnum (q : ℚ)
  | jstr (s : String)
  | jarr (xs : List JVal)
  | jobj (kvs : List (String × JVal))
deriving Repr

mutual

def JVal.beq : JVal → JVal → Bool
  | .jnull, .jnull => true
  | .jbool a, .jbool b => a == b
  | .jnum a, .jnum b => a == b
  | .jstr a, .jstr b => a == b
  | .jarr xs, .jarr ys => JVal.beqList xs ys
  | .jobj xs, .jobj ys => JVal.beqKV xs ys
  | _, _ => false

def JVal.beqList : List JVal → List JVal → Bool
  | [], [] => true
  | x :: xs, y :: ys => JVal.beq x y && JVal.beqList xs ys
  | _, _ => false

def JVal.beqKV : List (String × JVal) → List (String × JVal) → Bool
  | [], [] => true
  | (k, x) :: xs, (l, y) :: ys => k == l && JVal.beq x y && JVal.beqKV xs ys
  | _, _ => false

end

end PySeq

namespace PySeq

mutual

theorem JVal.beq_refl : ∀ a : JVal, JVal.beq a a = true
  | .jnull => rfl
  | .jbool b => by simp [JVal.beq]
  | .jnum q => by simp [JVal.beq]
  | .jstr s => by simp [JVal.beq]
  | .jarr xs => by simp [JVal.beq, JVal.beqList_refl xs]
  | .jobj xs => by simp [JVal.beq, JVal.beqKV_refl xs]

theorem JVal.beqList_refl : ∀ xs : List JVal, JVal.beqList xs xs = true
  | [] => rfl
  | x :: xs => by simp [JVal.beqList, JVal.beq_refl x, JVal.beqList_refl xs]

theorem JVal.beqKV_refl : ∀ xs : List (String × JVal), JVal.beqKV xs xs = true
  | [] => rfl
  | (k, x) :: xs => by simp [JVal.beqKV, JVal.beq_refl x, JVal.beqKV_refl xs]

end

mutual

theorem JVal.eq_of_beq : ∀ a b : JVal, JVal.beq a b = true → a = b
  | .jnull, .jnull, _ => rfl
  | .jbool a, .jbool b, h => by simpa [JVal.beq] using h
  | .jnum a, .jnum b, h => by simpa [JVal.beq] using h
  | .jstr a, .jstr b, h => by simpa [JVal.beq] using h
  | .jarr xs, .jarr ys, h => by
      simp only [JVal.beq] at h
      exact congrArg JVal.jarr (JVal.eqList_of_beq xs ys h)
  | .jobj xs, .jobj ys, h => by
      simp only [JVal.beq] at h
      exact congrArg JVal.jobj (JVal.eqKV_of_beq xs ys h)
  | .jnull, .jbool _, h => by simp [JVal.beq] at h
  | .jnull, .jnum _, h => by simp [JVal.beq] at h
  | .jnull, .jstr _, h => by simp [JVal.beq] at h
  | .jnull, .jarr _, h => by simp [JVal.beq] at h
  | .jnull, .jobj _, h => by simp [JVal.beq] at h
  | .jbool _, .jnull, h => by simp [JVal.beq] at h
  | .jbool _, .jnum _, h => by simp [JVal.beq] at h
  | .jbool _, .jstr _, h => by simp [JVal.beq] at h
  | .jbool _, .jarr _, h => by simp [JVal.beq] at h
  | .jbool _, .jobj _, h => by simp [JVal.beq] at h
  | .jnum _, .jnull, h => by simp [JVal.beq] at h
  | .jnum _, .jbool _, h => by simp [JVal.beq] at h
  | .jnum _, .jstr _, h => by simp [JVal.beq] at h
  | .jnum _, .jarr _, h => by simp [JVal.beq] at h
  | .jnum _, .jobj _, h => by simp [JVal.beq] at h
  | .jstr _, .jnull, h => by simp [JVal.beq] at h
  | .jstr _, .jbool _, h => by simp [JVal.beq] at h
  | .jstr _, .jnum _, h => by simp [JVal.beq] at h
  | .jstr _, .jarr _, h => by simp [JVal.beq] at h
  | .jstr _, .jobj _, h => by simp [JVal.beq] at h
  | .jarr _, .jnull, h => by simp [JVal.beq] at h
  | .jarr _, .jbool _, h => by simp [JVal.beq] at h
  | .jarr _, .jnum _, h => by simp [JVal.beq] at h
  | .jarr _, .jstr _, h => by simp [JVal.beq] at h
  | .jarr _, .jobj _, h => by simp [JVal.beq] at h
  | .jobj _, .jnull, h => by simp [JVal.beq] at h
  | .jobj _, .jbool _, h => by simp [JVal.beq] at h
  | .jobj _, .jnum _, h => by simp [JVal.beq] at h
  | .jobj _, .jstr _, h => by simp [JVal.beq] at h
  | .jobj _, .jarr _, h => by simp [JVal.beq] at h

theorem JVal.eqList_of_beq : ∀ xs ys : List JVal, JVal.beqList xs ys = true → xs = ys
  | [], [], _ => rfl
  | x :: xs, y :: ys, h => by
      simp only [JVal.beqList, Bool.and_eq_true] at h
      rw [JVal.eq_of_beq x y h.1, JVal.eqList_of_beq xs ys h.2]
  | [], _ :: _, h => by simp [JVal.beqList] at h
  | _ :: _, [], h => by simp [JVal.beqList] at h

theorem JVal.eqKV_of_beq : ∀ xs ys : List (String × JVal), JVal.beqKV xs ys = true → xs = ys
  | [], [], _ => rfl
  | (k, x) :: xs, (l, y) :: ys, h => by
      simp only [JVal.beqKV, Bool.and_eq_true] at h
      obtain ⟨⟨hk, hx⟩, hxs⟩ := h
      rw [JVal.eq_of_beq x y hx, JVal.eqKV_of_beq xs ys hxs]
      simp only [beq_iff_eq] at hk
      rw [hk]
  | [], _ :: _, h => by simp [JVal.beqKV] at h
  | _ :: _, [], h => by simp [JVal.beqKV] at h

end

instance : DecidableEq JVal := fun a b =>
  if h : JVal.beq a b = true then
    .isTrue (JVal.eq_of_beq a b h)
  else
    .isFalse (fun he => h (he ▸ JVal.beq_refl a))

instance : BEq JVal := ⟨JVal.beq⟩

instance : LawfulBEq JVal where
  eq_of_beq := JVal.eq_of_beq _ _
  rfl := JVal.beq_refl _

end PySeq

namespace PySeq

/-- A JSON object / Python dict, modelled as an association list in insertion
order.  Keys are unique in every record produced by JSON parsing, so lookups
take the first binding. -/
abbrev Rec := List (String × JVal)

def Rec.find? (r : Rec) (k : String) : Option JVal :=
  (List.find? (fun kv => kv.1 == k) r).map (·.2)

/-- `rec.get(k)` in Python: `None` (here `jnull`) when the key is absent. -/
def Rec.getN (r : Rec) (k : String) : JVal :=
  (Rec.find? r k).getD .jnull

/-- `k in rec` in Python. -/
def Rec.hasKey (r : Rec) (k : String) : Bool :=
  (Rec.find? r k).isSome

/-- `rec[k] = v` in Python: replace the binding in place, else append. -/
def Rec.set (r : Rec) (k : String) (v : JVal) : Rec :=
  match r with
  | [] => [(k, v)]
  | (k', v') :: rest => if k' == k then (k, v) :: rest else (k', v') :: Rec.set rest k v

/-- Python truthiness of a JSON value. -/
def JVal.truthy : JVal → Bool
  | .jnull => false
  | .jbool b => b
  | .jnum q => q != 0
  | .jstr s => s != ""
  | .jarr xs => !xs.isEmpty
  | .jobj kvs => !kvs.isEmpty

/-- Python `a or b or ...`: first truthy value, else the last value. -/
def orChain : List JVal → JVal
  | [] => .jnull
  | [v] => v
  | v :: rest => if v.truthy then v else orChain rest

/-- Python `str(v)`.  Integral numbers render as their decimal digits; the
renderings of non-integral numbers and containers are stand-ins (no claim
depends on them, and none of them can collide with the `layer` / `3d solid`
category strings or a layer-name key built from strings). -/
def pyStr : JVal → String
  | .jnull => "None"
  | .jbool b => if b then "True" else "False"
  | .jnum q => if q.den = 1 then toString q.num else toString q
  | .jstr s => s
  | .jarr _ => "<arr>"
  | .jobj _ => "<obj>"

def natOfDigits (ds : List Char) : ℕ :=
  ds.foldl (fun n c => 10 * n + (c.toNat - '0'.toNat)) 0

/-- `str.strip()` on the character list (ASCII whitespace; kernel-reducible
replacement for `String.trim`, which is defined by byte-position loops that
the kernel cannot evaluate). -/
def myTrim (cs : List Char) : List Char :=
  ((cs.dropWhile Char.isWhitespace).reverse.dropWhile Char.isWhitespace).reverse

def myLower (cs : List Char) : List Char := cs.map Char.toLower

def myUpper (cs : List Char) : List Char := cs.map Char.toUpper

/-- `str.strip().lower()` (and `casefold`, which agrees on ASCII). -/
def trimLower (s : String) : String := String.mk (myLower (myTrim s.data))

/-- Code-point lexicographic `<` on strings (Python string comparison). -/
def myStrLt : List Char → List Char → Bool
  | [], [] => false
  | [], _ :: _ => true
  | _ :: _, [] => false
  | a :: as, b :: bs =>
      if a.toNat < b.toNat then true
      else if b.toNat < a.toNat then false
      else myStrLt as bs

/-- Kernel-reducible rational arithmetic.  The `Rat.add`/`sub`/`mul`/`inv`
operations behind `+`,`-`,`*`,`/` are `@[irreducible]`, so a witness could
never be checked by evaluation through them; these `mkRat` forms compute and
are proved equal to the standard operations below. -/
def qAdd (a b : ℚ) : ℚ := mkRat (a.num * b.den + b.num * a.den) (a.den * b.den)

def qSub (a b : ℚ) : ℚ := mkRat (a.num * b.den - b.num * a.den) (a.den * b.den)

def qMul (a b : ℚ) : ℚ := mkRat (a.num * b.num) (a.den * b.den)

def qInv (b : ℚ) : ℚ := mkRat (Int.sign b.num * b.den) b.num.natAbs

def qDiv (a b : ℚ) : ℚ := qMul a (qInv b)

def qAbs (q : ℚ) : ℚ := if q < 0 then mkRat (-q.num) q.den else q

def qOfNat (n : ℕ) : ℚ := mkRat (Int.ofNat n) 1

def qOfInt (z : ℤ) : ℚ := mkRat z 1

def qPowNat (a : ℚ) : ℕ → ℚ
  | 0 => 1
  | n + 1 => qMul (qPowNat a n) a

/-- `math.ceil` on an exact rational. -/
def pyCeil (q : ℚ) : ℤ := -((-q.num).fdiv q.den)

/-- Python `float(s)` on a string: optional sign, decimal digits with an
optional fraction and exponent, surrounded by optional whitespace.  (The
`inf`/`nan` spellings and `_` digit separators that CPython also accepts are
not modelled; no record in any theorem uses them.) -/
def parseFloat (s : String) : Option ℚ :=
  let cs0 := myLower (myTrim s.data)
  let sgn : ℚ := match cs0 with
    | '-' :: _ => -1
    | _ => 1
  let cs := match cs0 with
    | '-' :: r => r
    | '+' :: r => r
    | r => r
  let intPart := cs.takeWhile Char.isDigit
  let cs1 := cs.dropWhile Char.isDigit
  let fracPart := match cs1 with
    | '.' :: r => r.takeWhile Char.isDigit
    | _ => []
  let cs2 := match cs1 with
    | '.' :: r => r.dropWhile Char.isDigit
    | r => r
  if intPart.isEmpty && fracPart.isEmpty then none
  else
    let mant : ℚ := qMul sgn (qAdd (qOfNat (natOfDigits intPart))
      (qDiv (qOfNat (natOfDigits fracPart)) (qPowNat 10 fracPart.length)))
    match cs2 with
    | [] => some mant
    | 'e' :: r =>
        let esgn : ℤ := match r with
          | '-' :: _ => -1
          | _ => 1
        let r' := match r with
          | '-' :: r2 => r2
          | '+' :: r2 => r2
          | r2 => r2
        let eds := r'.takeWhile Char.isDigit
        if eds.isEmpty || !(r'.dropWhile Char.isDigit).isEmpty then none
        else
          let e : ℤ := esgn * (natOfDigits eds : ℤ)
          some (if 0 ≤ e then qMul mant (qPowNat 10 e.toNat)
            else qDiv mant (qPowNat 10 (-e).toNat))
    | _ => none

/-- Membership of `needle` in `hay` as Python's `in` on strings. -/
def subSearch (needle : List Char) : List Char → Bool
  | [] => needle.isEmpty
  | c :: cs => needle.isPrefixOf (c :: cs) || subSearch needle cs

def containsSub (hay needle : String) : Bool :=
  subSearch needle.data hay.data

/-- Replace each maximal run of characters satisfying `p` by the single
character `sep` (the effect of `re.sub(r"[...]+", sep, s)`); the flag records
whether the previous character was inside a run. -/
def collapseAux (sep : Char) (p : Char → Bool) : Bool → List Char → List Char
  | _, [] => []
  | inRun, c :: cs =>
      if p c then
        if inRun then collapseAux sep p true cs
        else sep :: collapseAux sep p true cs
      else c :: collapseAux sep p false cs

def isUscoreOrWs (c : Char) : Bool := c == '_' || c.isWhitespace

/-- `re.sub(r"[_\s]+", "_", s.strip())` from the Duration stage. -/
def normUnderscore (s : String) : String :=
  String.mk (collapseAux '_' isUscoreOrWs false (myTrim s.data))

/-- `re.sub(r"[_\s]+", " ", s)` from the CWA extractor (no strip). -/
def normSpace (s : String) : String :=
  String.mk (collapseAux ' ' isUscoreOrWs false s.data)

/-- The Clean join key: `str(s).strip().lower()`, then `\s+ -> _`,
then `_+ -> _`. -/
def normKeyStr (s : String) : String :=
  String.mk (collapseAux '_' (· == '_') false
    (collapseAux '_' Char.isWhitespace false (myLower (myTrim s.data))))

/-- Stable insertion sort by a boolean `≤` test (Python `list.sort`). -/
def insertBy (le : α → α → Bool) (x : α) : List α → List α
  | [] => [x]
  | y :: ys => if le x y then x :: y :: ys else y :: insertBy le x ys

def sortBy (le : α → α → Bool) (l : List α) : List α :=
  l.foldr (insertBy le) []

end PySeq

namespace PySeq

def optToJ : Option ℚ → JVal
  | none => .jnull
  | some q => .jnum q

def JVal.isObj : JVal → Bool
  | .jobj _ => true
  | _ => false

def JVal.asObj : JVal → Rec
  | .jobj kv => kv
  | _ => []

/-- Word characters for the `\b` boundary and the `[A-Za-z0-9_]` classes of
the source regexes (ASCII; the inputs in play are ASCII). -/
def isWordChar (c : Char) : Bool := c.isAlphanum || c == '_'

/-- Case-insensitive literal match at the head: returns the rest on success. -/
def matchLit : List Char → List Char → Option (List Char)
  | [], cs => some cs
  | _ :: _, [] => none
  | l :: ls, c :: cs => if c.toLower == l then matchLit ls cs else none

def skipWs (cs : List Char) : List Char := cs.dropWhile Char.isWhitespace

/-- Clean service, `_to_float`: `float(str(val).strip())` under try/except.
`float(str(x))` round-trips for numbers; non-numeric strings fail. -/
def cleanToFloat : JVal → Option ℚ
  | .jnull => none
  | .jnum q => some q
  | v => parseFloat (pyStr v)

/-- Tail of `\bCWA\b\s*ASU\s*-\s*([A-Za-z0-9]+)` from the position where
`CWA` starts (the leading boundary is checked by the scanner). -/
def matchCwaPat (cs : List Char) : Option String :=
  match matchLit ['c', 'w', 'a'] cs with
  | none => none
  | some rest =>
      if (rest.head?.map isWordChar).getD false then none
      else
        match matchLit ['a', 's', 'u'] (skipWs rest) with
        | none => none
        | some r2 =>
            match skipWs r2 with
            | '-' :: r3 =>
                let cap := (skipWs r3).takeWhile Char.isAlphanum
                if cap.isEmpty then none else some (String.mk cap)
            | _ => none

/-- Tail of `\bASU\s*-\s*([A-Za-z0-9]+)` from the position where `ASU`
starts. -/
def matchAsuPat (cs : List Char) : Option String :=
  match matchLit ['a', 's', 'u'] cs with
  | none => none
  | some rest =>
      match skipWs rest with
      | '-' :: r3 =>
          let cap := (skipWs r3).takeWhile Char.isAlphanum
          if cap.isEmpty then none else some (String.mk cap)
      | _ => none

/-- `re.search` with a pattern starting at a `\b` boundary: try every
position whose previous character is not a word character (leftmost wins). -/
def scanB (pat : List Char → Option String) : Bool → List Char → Option String
  | _, [] => none
  | prevWord, c :: cs =>
      match (if prevWord then none else pat (c :: cs)) with
      | some r => some r
      | none => scanB pat (isWordChar c) cs

/-- Clean service, `_extract_cwa`. -/
def extractCwa (text : JVal) : Option String :=
  if !text.truthy then none
  else
    let sn := (normSpace (pyStr text)).data
    match scanB matchCwaPat false sn with
    | some c => some c
    | none => scanB matchAsuPat false sn

/-- Clean service, `_layer_key_from_record`. -/
def layerKeyFromRecord (r : Rec) : JVal :=
  orChain [r.getN "Item.Layer", r.getN "General.Layer", r.getN "Item.Name",
    r.getN "General.Name", r.getN "Element Name"]

/-- Clean service, `_norm_key`: `None` stays `None`, otherwise the join key. -/
def normKeyOpt (v : JVal) : Option String :=
  if v == .jnull then none else some (normKeyStr (pyStr v))

def AUTO_GEOM_PREFIX : String := "AutoCAD Geometry."

def geomNumericParts : List String :=
  ["position x", "position y", "position z", "height", "length", "width"]

/-- Clean service, `_collect_geometry`. -/
def collectGeometry (r : Rec) : Rec :=
  r.foldl (fun geom kv =>
    if List.isPrefixOf AUTO_GEOM_PREFIX.data kv.1.data then
      let short := String.mk (kv.1.data.drop AUTO_GEOM_PREFIX.data.length)
      let shortL := String.mk (myLower short.data)
      if List.isPrefixOf "solid type".data shortL.data || List.isPrefixOf "rotation".data shortL.data then geom
      else if geomNumericParts.any (fun part => containsSub shortL part) then
        Rec.set geom short (optToJ (cleanToFloat kv.2))
      else Rec.set geom short kv.2
    else geom) []

/-- `str(rec.get("Category/Class", "")).strip().lower() == what`. -/
def catClassIs (r : Rec) (what : String) : Bool :=
  trimLower (pyStr ((Rec.find? r "Category/Class").getD (.jstr ""))) == what

/-- `m.setdefault(k, []).append(x)` over an insertion-ordered dict. -/
def groupAdd (m : List (String × List α)) (k : String) (x : α) : List (String × List α) :=
  match m with
  | [] => [(k, [x])]
  | (k', l) :: rest => if k' == k then (k', l ++ [x]) :: rest else (k', l) :: groupAdd rest k x

def lookupGroup (m : List (String × List α)) (k : String) : List α :=
  ((m.find? (fun kv => kv.1 == k)).map (·.2)).getD []

/-- The fixed fields of a cleaned record: `Element Name`, `CWA`, `GUID`,
and the coerced coordinate fields, in code order. -/
def cleanBase (layer : Rec) (cwa : Option String) : Rec :=
  let out : Rec := []
  let out := if layer.hasKey "Element Name" then
      Rec.set out "Element Name" (layer.getN "Element Name") else out
  let out := Rec.set out "CWA" (match cwa with | some c => .jstr c | none => .jnull)
  let out := if layer.hasKey "GUID" then Rec.set out "GUID" (layer.getN "GUID") else out
  ["X Coordinate", "Y Coordinate", "Z Coordinate"].foldl (fun o ck =>
      if layer.hasKey ck then Rec.set o ck (optToJ (cleanToFloat (layer.getN ck))) else o) out

/-- `Volume = Height * Length * Width` when all three geometry values are
numbers. -/
def volStep (firstGeom out : Rec) : Rec :=
  match Rec.getN firstGeom "Height", Rec.getN firstGeom "Length",
      Rec.getN firstGeom "Width" with
  | .jnum hq, .jnum lq, .jnum wq => Rec.set out "Volume" (.jnum (qMul (qMul hq lq) wq))
  | _, _, _ => out

/-- X bounding box centered on `Position X` with extent `Length`. -/
def xStep (firstGeom out : Rec) : Rec :=
  match Rec.getN firstGeom "Position X", Rec.getN firstGeom "Length" with
  | .jnum pq, .jnum lq =>
      Rec.set (Rec.set out "MinOfMinX" (.jnum (qSub pq (qDiv lq 2))))
        "MaxOfMaxX" (.jnum (qAdd pq (qDiv lq 2)))
  | _, _ => out

/-- Y bounding box centered on `Position Y` with extent `Width`. -/
def yStep (firstGeom out : Rec) : Rec :=
  match Rec.getN firstGeom "Position Y", Rec.getN firstGeom "Width" with
  | .jnum pq, .jnum wq =>
      Rec.set (Rec.set out "MinOfMinY" (.jnum (qSub pq (qDiv wq 2))))
        "MaxOfMaxY" (.jnum (qAdd pq (qDiv wq 2)))
  | _, _ => out

/-- Z bounding box sitting ON `Position Z` with extent `Height`. -/
def zStep (firstGeom out : Rec) : Rec :=
  match Rec.getN firstGeom "Position Z", Rec.getN firstGeom "Height" with
  | .jnum pq, .jnum hq =>
      Rec.set (Rec.set out "MinOfMinZ" (.jnum pq)) "MaxOfMaxZ" (.jnum (qAdd pq hq))
  | _, _ => out

/-- One layer's cleaned output record, given the list of solids matched to
its normalized layer key (the loop body of `clean_data`): base fields,
flattened geometry of the first solid with non-empty collected geometry,
then `Volume` and the bounding box. -/
def cleanLayerWith (layer : Rec) (matched : List Rec) : Rec :=
  let layerName := layerKeyFromRecord layer
  let cwa : Option String :=
    match extractCwa layerName with
    | some c => some c
    | none => extractCwa (layer.getN "Element Name")
  let firstGeom := ((matched.map collectGeometry).find? (fun g => !g.isEmpty)).getD []
  zStep firstGeom (yStep firstGeom (xStep firstGeom (volStep firstGeom
    (firstGeom.foldl (fun o kv => Rec.set o kv.1 kv.2) (cleanBase layer cwa)))))

/-- One layer's cleaned output record, looking its solids up in the
solids-by-normalized-key index. -/
def cleanLayer (solidsByLayer : List (String × List Rec)) (layer : Rec) : Rec :=
  cleanLayerWith layer
    (lookupGroup solidsByLayer ((normKeyOpt (layerKeyFromRecord layer)).getD ""))

/-- Clean service, `clean_data`.  (The try/except around Volume and the
bounding box can never fire here: the geometry values read are already
coerced numbers or null.) -/
def cleanData (records : List Rec) : List Rec :=
  let layers := records.filter (fun r => catClassIs r "layer")
  let solids := records.filter (fun r => catClassIs r "3d solid")
  let solidsByLayer := solids.foldl (fun m s =>
      match normKeyOpt (layerKeyFromRecord s) with
      | none => m
      | some key => if key == "" then m else groupAdd m key s) []
  layers.map (cleanLayer solidsByLayer)

end PySeq

namespace PySeq

/-- The working directory's `*_latest` artifacts (the timestamped archive
copies carry no cross-stage meaning and are omitted). -/
structure FS where
  cleanInput : Option JVal
  cleanOutput : Option JVal
  durationOutput : Option JVal
  depRules : Option JVal

/-- An HTTP error: status code and detail string. -/
structure HErr where
  status : ℕ
  detail : String
deriving DecidableEq

/-- Clean route, the nested-dictionary scan of `_coerce_payload`: first
record holding a dict under one of the five keys, first such key winning. -/
def scanDeps : List Rec → Option Rec
  | [] => none
  | r :: rest =>
      match ["dependencyRules", "DependencyRules", "dependencies",
             "dependency_rules", "dictionary"].findSome? (fun k =>
          match Rec.getN r k with
          | .jobj d => some d
          | _ => none) with
      | some d => some d
      | none => scanDeps rest

/-- Clean route, `_coerce_payload`. -/
def coercePayload (body : JVal) : Except HErr (List Rec × Option Rec) :=
  match body with
  | .jarr xs =>
      if xs.all JVal.isObj then .ok (xs.map JVal.asObj, none)
      else .error ⟨422, "Array must contain objects."⟩
  | .jobj b =>
      let data0 := Rec.getN b "activities"
      let data := if data0 == .jnull then Rec.getN b "data" else data0
      let recsE : Except HErr (List Rec) :=
        match data with
        | .jnull => .ok []
        | .jarr xs =>
            if xs.all JVal.isObj then .ok (xs.map JVal.asObj)
            else .error ⟨422, "Body dict 'activities' or 'data' field must be an array of objects."⟩
        | _ => .error ⟨422, "Body dict 'activities' or 'data' field must be an array of objects."⟩
      match recsE with
      | .error e => .error e
      | .ok records =>
          let dep := orChain [Rec.getN b "dependencies", Rec.getN b "dependency_rules",
            Rec.getN b "dictionary", Rec.getN b "dependencyRules"]
          let dep := if dep == .jnull then
              match scanDeps records with
              | some d => JVal.jobj d
              | none => .jnull
            else dep
          match dep with
          | .jnull => .ok (records, none)
          | .jobj d => .ok (records, some d)
          | _ => .error ⟨422, "Dependencies must be an object if provided."⟩
  | _ => .error ⟨422, "Unsupported body format."⟩

structure CleanResp where
  rows : ℕ
  result : List Rec
deriving DecidableEq

/-- Clean route, `clean_endpoint`: the raw body is saved to
`clean_input_latest.json` BEFORE coercion, so that write survives a 422. -/
def cleanEndpoint (fs : FS) (body : JVal) : Except HErr CleanResp × FS :=
  let fs1 : FS := { fs with cleanInput := some body }
  match coercePayload body with
  | .error e => (.error e, fs1)
  | .ok (records, deps) =>
      let cleaned := cleanData records
      let fs2 : FS := { fs1 with cleanOutput := some (.jarr (cleaned.map .jobj)) }
      let fs3 : FS := match deps with
        | some d => { fs2 with depRules := some (.jobj d) }
        | none => fs2
      (.ok ⟨cleaned.length, cleaned⟩, fs3)

end PySeq

namespace PySeq

/-- Case-sensitive literal match at the head. -/
def exactPrefix : List Char → List Char → Option (List Char)
  | [], cs => some cs
  | _ :: _, [] => none
  | l :: ls, c :: cs => if c == l then exactPrefix ls cs else none

/-- `re.search` of a literal with optional `\b` boundaries on either side
(case-sensitive; the haystacks are already uppercased). -/
def searchBddAux (needle : List Char) (bBefore bAfter : Bool) : Bool → List Char → Bool
  | _, [] => false
  | prevW, c :: cs =>
      (match (if bBefore && prevW then none else exactPrefix needle (c :: cs)) with
       | some rest => !bAfter || !((rest.head?.map isWordChar).getD false)
       | none => false) ||
      searchBddAux needle bBefore bAfter (isWordChar c) cs

def searchBdd (hay needle : String) (bBefore bAfter : Bool) : Bool :=
  searchBddAux needle.data bBefore bAfter false hay.data

/-- `(^|[-_])V\d+($|[-_])`: the flag says the previous character was the
start of the string, `-`, or `_`. -/
def valveVAux : Bool → List Char → Bool
  | _, [] => false
  | okPrev, c :: cs =>
      (okPrev && c == 'V' &&
        (let ds := cs.takeWhile Char.isDigit
         !ds.isEmpty &&
           (match cs.dropWhile Char.isDigit with
            | [] => true
            | d :: _ => d == '-' || d == '_'))) ||
      valveVAux (c == '-' || c == '_') cs

/-- `FV-\d+` / `PV-\d+`: a literal followed by at least one digit. -/
def searchLeadDigit (lead : List Char) : List Char → Bool
  | [] => false
  | c :: cs =>
      (match exactPrefix lead (c :: cs) with
       | some (d :: _) => d.isDigit
       | _ => false) || searchLeadDigit lead cs

/-- Leftmost case-insensitive `lit` followed by a non-empty `[A-Za-z0-9_]+`
capture (`_Install_(...)` / `_Set_(...)`). -/
def scanCapture (lit : List Char) : List Char → Option (List Char)
  | [] => none
  | c :: rest =>
      match matchLit lit (c :: rest) with
      | some after =>
          let cap := after.takeWhile isWordChar
          if cap.isEmpty then scanCapture lit rest else some cap
      | none => scanCapture lit rest

/-- Body of `(^|_)civil[_ ]works($|_)` at one position. -/
def civilAt (cs : List Char) : Bool :=
  match matchLit "civil".data cs with
  | some (c :: r2) =>
      (c == '_' || c == ' ') &&
      (match matchLit "works".data r2 with
       | some [] => true
       | some (d :: _) => d == '_'
       | none => false)
  | _ => false

def civilSearch : Bool → List Char → Bool
  | _, [] => false
  | okPrev, c :: cs => (okPrev && civilAt (c :: cs)) || civilSearch (c == '_') cs

/-- Duration service, `_extract_activity_type`. -/
def extractActivityType (name : JVal) : String :=
  if !name.truthy then ""
  else
    let sn := (normUnderscore (pyStr name)).data
    match scanCapture "_install_".data sn with
    | some cap => String.mk (myTrim (cap.map (fun c => if c == '_' then ' ' else c)))
    | none =>
        if civilSearch true sn then "Civil Works"
        else
          match scanCapture "_set_".data sn with
          | some _ => "Equipment"
          | none => ""

/-- Duration service, `_is_set_activity`. -/
def isSetActivity (name : JVal) : Bool :=
  if !name.truthy then false
  else (scanCapture "_set_".data (normUnderscore (pyStr name)).data).isSome

/-- Duration service, `_classify_module_subtype` (order is semantic). -/
def classifyModuleSubtype (name : JVal) : String :=
  if !name.truthy then "module_other"
  else
    let s := String.mk (myUpper (pyStr name).data)
    let cs := s.data
    if valveVAux true cs || searchLeadDigit "FV-".data cs || searchLeadDigit "PV-".data cs then
      "module_valve"
    else if searchBdd s "AHU" true true then "module_ahu"
    else if containsSub s "XFMER" || containsSub s "XFMR" || containsSub s "TRANSFORMER" then
      "module_transformer"
    else if containsSub s "SWITCHGEAR" || containsSub s "SWGR" || containsSub s "GEAR" ||
        containsSub s "MCC" || searchBdd s "PANEL" false true || searchBdd s "MV" true true ||
        searchBdd s "LV" true true then "module_switchgear"
    else if containsSub s "VAPORIZER" || containsSub s "VAPORIZOR" || containsSub s "HEATER" ||
        containsSub s "TRIM HEATER" || containsSub s "STEAM SPARGED" then "module_vaporizer_heater"
    else if containsSub s "COMPRESSOR" || containsSub s "BOOSTER" then "module_compressor"
    else if containsSub s "TANK" || containsSub s "STORAGE" || containsSub s "BUFFER" ||
        containsSub s "DUMP" then "module_tank"
    else if containsSub s "VESSEL" || containsSub s "ADSORBER" || searchBdd s "SILENCER" false true then
      "module_vessel"
    else if containsSub s "CRANE" then "module_crane"
    else if containsSub s "WEIGH" || containsSub s "SCALE" then "module_weighscale"
    else if containsSub s "MAC" || containsSub s "BAC" || containsSub s "PUMP" || containsSub s "FAN" then
      "module_motor_pump_fan"
    else if containsSub s "BUILDING" then "module_building_equipment"
    else "module_other"

/-- Duration/Sequence services, `_safe_float`: `float(v)` under try/except
(`float` of a bool is 0/1, of a parseable string its value). -/
def safeFloat : JVal → Option ℚ
  | .jnull => none
  | .jnum q => some q
  | .jbool b => some (if b then 1 else 0)
  | .jstr s => parseFloat s
  | _ => none

/-- Duration service, `_volume_for_record`. -/
def volumeForRecord (rec : Rec) : ℚ :=
  match safeFloat (rec.getN "Volume") with
  | some v => max 0 v
  | none =>
    match safeFloat (rec.getN "Height"), safeFloat (rec.getN "Length"),
        safeFloat (rec.getN "Width") with
    | some h, some l, some w => max 0 (qMul (qMul h l) w)
    | _, _, _ =>
      match safeFloat (rec.getN "MinOfMinX"), safeFloat (rec.getN "MaxOfMaxX"),
          safeFloat (rec.getN "MinOfMinY"), safeFloat (rec.getN "MaxOfMaxY"),
          safeFloat (rec.getN "MinOfMinZ"), safeFloat (rec.getN "MaxOfMaxZ") with
      | some x1, some x2, some y1, some y2, some z1, some z2 =>
          max 0 (qMul (qMul (max 0 (qSub x2 x1)) (max 0 (qSub y2 y1))) (max 0 (qSub z2 z1)))
      | _, _, _, _, _, _ => 0

/-- Duration service, `_run_length_for_record` (`_safe_float(..) or 0.0`). -/
def runLengthForRecord (rec : Rec) : ℚ :=
  max ((safeFloat (rec.getN "Length")).getD 0) ((safeFloat (rec.getN "Width")).getD 0)

/-- Duration service, `_plan_area_for_record`. -/
def planAreaForRecord (rec : Rec) : ℚ :=
  max 0 (qMul ((safeFloat (rec.getN "Length")).getD 0) ((safeFloat (rec.getN "Width")).getD 0))

/-- Duration service, `_height_for_record`. -/
def heightForRecord (rec : Rec) : ℚ :=
  (safeFloat (rec.getN "Height")).getD 0

/-- Duration service, `_median` (the input lists hold no `None`). -/
def median (values : List ℚ) : ℚ :=
  let vals := sortBy (fun a b => decide (a ≤ b)) values
  let n := vals.length
  if n == 0 then 0
  else if n % 2 == 1 then vals.getD (n / 2) 0
  else qMul (mkRat 1 2) (qAdd (vals.getD (n / 2 - 1) 0) (vals.getD (n / 2) 0))

def INSTALL_EXPONENTS : List (String × ℚ) :=
  [("Concrete", mkRat 9 10), ("Grout", mkRat 8 10), ("Piling", mkRat 8 10),
   ("Cable Tray", mkRat 6 10), ("Electrical", mkRat 5 10), ("Instrumentation", mkRat 5 10),
   ("Piping", mkRat 7 10), ("Piping Insulation", mkRat 65 100), ("UG Conduit", mkRat 7 10),
   ("Transformer", mkRat 5 10), ("Civil Works", mkRat 9 10)]

def INSTALL_BASE_DAYS : List (String × ℚ) :=
  [("Concrete", 3), ("Grout", mkRat 1 2), ("Piling", 2), ("Cable Tray", 3), ("Electrical", 5),
   ("Instrumentation", 4), ("Piping", 4), ("Piping Insulation", 3), ("UG Conduit", 3),
   ("Transformer", mkRat 3 2), ("Civil Works", 3)]

def EQUIP_SUBTYPE_BASE_DAYS : List (String × ℚ) :=
  [("module_valve", mkRat 1 2), ("module_motor_pump_fan", mkRat 3 2), ("module_ahu", mkRat 3 2),
   ("module_transformer", mkRat 3 2), ("module_switchgear", 2), ("module_vessel", 2),
   ("module_tank", mkRat 5 2), ("module_vaporizer_heater", 2), ("module_compressor", mkRat 5 2),
   ("module_crane", 1), ("module_weighscale", 1), ("module_building_equipment", 3),
   ("module_other", mkRat 3 2)]

def EQUIP_SUBTYPE_EXPONENT : List (String × ℚ) :=
  [("module_valve", mkRat 4 10), ("module_motor_pump_fan", mkRat 5 10), ("module_ahu", mkRat 5 10),
   ("module_transformer", mkRat 5 10), ("module_switchgear", mkRat 6 10),
   ("module_vessel", mkRat 6 10), ("module_tank", mkRat 6 10),
   ("module_vaporizer_heater", mkRat 6 10), ("module_compressor", mkRat 6 10),
   ("module_crane", mkRat 4 10), ("module_weighscale", mkRat 4 10),
   ("module_building_equipment", mkRat 6 10), ("module_other", mkRat 5 10)]

def DURATION_BOUNDS : List (String × (ℚ × ℚ)) :=
  [("Concrete", (mkRat 1 2, 10)), ("Civil Works", (mkRat 1 2, 10)), ("Grout", (mkRat 1 4, 2)),
   ("Piling", (mkRat 1 2, 8)), ("Piping", (1, 10)), ("Piping Insulation", (mkRat 1 2, 8)),
   ("Cable Tray", (mkRat 1 2, 8)), ("UG Conduit", (1, 8)), ("Electrical", (1, 12)),
   ("Instrumentation", (1, 10)), ("Transformer", (mkRat 1 2, 5))]

def tLookup (tbl : List (String × α)) (k : String) : Option α :=
  (tbl.find? (fun kv => kv.1 == k)).map (·.2)

/-- The per-type metric chain shared verbatim by both passes of
`compute_durations`. -/
def installMetric (t : String) (rec : Rec) (v : ℚ) : ℚ :=
  if ["Concrete", "Grout", "Civil Works", "Transformer"].contains t then v
  else if ["Piping", "Piping Insulation", "Cable Tray", "UG Conduit"].contains t then
    runLengthForRecord rec
  else if ["Electrical", "Instrumentation"].contains t then planAreaForRecord rec
  else if t == "Piling" then heightForRecord rec
  else v

/-- A CPython float-typed intermediate: `x ** y` with a negative base and a
non-integral exponent silently yields a `complex`, which only explodes later
when compared by `min`/`max`. -/
inductive PyNum where
  | real (q : ℚ)
  | cplx
deriving DecidableEq

/-- `x ** beta` on floats, with the exact values of the defined cases
supplied by the oracle `rpow` (only facts such as `rpow 1 b = 1`, true of
IEEE `pow`, are ever assumed of it). -/
def pypow (rpow : ℚ → ℚ → ℚ) (x beta : ℚ) : PyNum :=
  if x < 0 && beta.den != 1 then .cplx else .real (rpow x beta)

def pymul (b : ℚ) : PyNum → PyNum
  | .real q => .real (qMul b q)
  | .cplx => .cplx

inductive DurErr where
  | attrError
  | missingExp (t : String)
  | typeError
deriving DecidableEq

/-- `max(min_d, min(duration_days, max_d))`: comparing a complex raises
`TypeError`. -/
def clampDur (lo hi : ℚ) : PyNum → Except DurErr ℚ
  | .real q => .ok (max lo (min q hi))
  | .cplx => .error .typeError

/-- First pass of `compute_durations`: collect per-type metric lists (in
insertion order) and the Set volumes; a non-object element raises. -/
def durPass1 (acc : List (String × List ℚ) × List ℚ) :
    List JVal → Except DurErr (List (String × List ℚ) × List ℚ)
  | [] => .ok acc
  | .jobj rec :: rest =>
      let name := Rec.getN rec "Element Name"
      let v := volumeForRecord rec
      if isSetActivity name then durPass1 (acc.1, acc.2 ++ [v]) rest
      else
        let t := extractActivityType name
        if t != "" then durPass1 (groupAdd acc.1 t (installMetric t rec v), acc.2) rest
        else durPass1 acc rest
  | _ :: _ => .error .attrError

def removeKeys (r : Rec) (ks : List String) : Rec :=
  ks.foldl (fun r k => r.filter (fun kv => kv.1 != k)) r

/-- Second pass of `compute_durations`, one record. -/
def durationFor (rpow : ℚ → ℚ → ℚ) (typeToMedian : List (String × ℚ)) (setMedian : ℚ) :
    JVal → Except DurErr Rec
  | .jobj rec =>
      let name := Rec.getN rec "Element Name"
      let actType := extractActivityType name
      let v := volumeForRecord rec
      let clamped : Except DurErr ℚ :=
        if isSetActivity name then
          let subtype := classifyModuleSubtype name
          let beta := (tLookup EQUIP_SUBTYPE_EXPONENT subtype).getD (mkRat 5 10)
          let baseDays := (tLookup EQUIP_SUBTYPE_BASE_DAYS subtype).getD (mkRat 3 2)
          let denom := if setMedian > 0 then setMedian else 1
          clampDur (mkRat 1 4) 7
            (pymul baseDays (if denom > 0 then pypow rpow (qDiv v denom) beta else .real 1))
        else
          match tLookup INSTALL_EXPONENTS actType with
          | none => .error (.missingExp (if actType == "" then "UNKNOWN" else actType))
          | some beta =>
              let baseDays := (tLookup INSTALL_BASE_DAYS actType).getD 1
              let metric := installMetric actType rec v
              let denom0 := (tLookup typeToMedian actType).getD 0
              let denom := if denom0 > 0 then denom0 else 1
              let bounds := (tLookup DURATION_BOUNDS actType).getD (mkRat 1 4, 15)
              clampDur bounds.1 bounds.2
                (pymul baseDays (if denom > 0 then pypow rpow (qDiv metric denom) beta else .real 1))
      match clamped with
      | .error e => .error e
      | .ok d0 =>
          let d1 := if actType == "Concrete" then qMul d0 (mkRat 1 2) else d0
          let duration : ℤ := pyCeil (max 1 (qMul d1 (mkRat 3 2)))
          .ok (Rec.set (Rec.set
            (removeKeys rec ["X Coordinate", "Y Coordinate", "Z Coordinate",
              "Position X", "Position Y", "Position Z"])
            "Type" (.jstr actType)) "Duration" (.jnum (qOfInt duration)))
  | _ => .error .attrError

def durPass2 (rpow : ℚ → ℚ → ℚ) (typeToMedian : List (String × ℚ)) (setMedian : ℚ) :
    List JVal → Except DurErr (List Rec)
  | [] => .ok []
  | v :: rest =>
      match durationFor rpow typeToMedian setMedian v with
      | .error e => .error e
      | .ok r =>
          match durPass2 rpow typeToMedian setMedian rest with
          | .error e => .error e
          | .ok rs => .ok (r :: rs)

/-- Duration service, `compute_durations` (the hardcoded `K = 1.0` and the
computed-but-unused quartiles are dropped: neither influences any output). -/
def computeDurations (rpow : ℚ → ℚ → ℚ) (cleanedRecords : List JVal) :
    Except DurErr (List Rec) :=
  match durPass1 ([], []) cleanedRecords with
  | .error e => .error e
  | .ok (typeVals, setVols) =>
      let typeToMedian := typeVals.map (fun kv => (kv.1, median kv.2))
      let setMedian := median setVols
      durPass2 rpow typeToMedian setMedian cleanedRecords

inductive DJErr where
  | notFound
  | notList
  | missingDuration
  | dur (e : DurErr)
deriving DecidableEq

/-- Duration service, `run_duration_job` over the modelled filesystem. -/
def runDurationJob (rpow : ℚ → ℚ → ℚ) (fs : FS) : Except DJErr (ℕ × List Rec × FS) :=
  match fs.cleanOutput with
  | none => .error .notFound
  | some v =>
      match v with
      | .jarr xs =>
          match computeDurations rpow xs with
          | .error e => .error (.dur e)
          | .ok enriched =>
              let missing := enriched.filter (fun r =>
                !(r.hasKey "Duration") || r.getN "Duration" == .jnull)
              if !missing.isEmpty then .error .missingDuration
              else .ok (enriched.length, enriched,
                { fs with durationOutput := some (.jarr (enriched.map .jobj)) })
      | _ => .error .notList

/-- Duration route: `FileNotFoundError -> 404`, `ValueError -> 422`,
anything else `-> 500`.  The complex-duration `TypeError` and the
non-object `AttributeError` fall in the 500 bucket. -/
def durationStatus : DJErr → ℕ
  | .notFound => 404
  | .notList => 422
  | .missingDuration => 422
  | .dur (.missingExp _) => 422
  | .dur .attrError => 500
  | .dur .typeError => 500

end PySeq

namespace PySeq

/-- Sequence service, `_norm_type` on a string: `str(s or "").strip().casefold()`
(casefold modelled as lowercasing; the names in play are ASCII). -/
def normTypeS (s : String) : String := trimLower s

/-- Sequence service, `_norm_type` on an arbitrary value. -/
def normType (v : JVal) : String :=
  trimLower (pyStr (orChain [v, .jstr ""]))

structure Box where
  xmin : ℚ
  xmax : ℚ
  ymin : ℚ
  ymax : ℚ
deriving DecidableEq

/-- Sequence service, `_get_box`. -/
def getBox (rec : Rec) : Option Box :=
  match safeFloat (Rec.getN rec "MinOfMinX"), safeFloat (Rec.getN rec "MaxOfMaxX"),
      safeFloat (Rec.getN rec "MinOfMinY"), safeFloat (Rec.getN rec "MaxOfMaxY") with
  | some x1, some x2, some y1, some y2 => some ⟨x1, x2, y1, y2⟩
  | _, _, _, _ => none

/-- Sequence service, `_area_overlap_ratio`: the larger of the two
overlap-to-area ratios. -/
def areaOverlapRatio (b1 b2 : Box) : ℚ :=
  let ox := max 0 (qSub (min b1.xmax b2.xmax) (max b1.xmin b2.xmin))
  let oy := max 0 (qSub (min b1.ymax b2.ymax) (max b1.ymin b2.ymin))
  let oa := qMul ox oy
  let a1 := max 0 (qMul (qSub b1.xmax b1.xmin) (qSub b1.ymax b1.ymin))
  let a2 := max 0 (qMul (qSub b2.xmax b2.xmin) (qSub b2.ymax b2.ymin))
  if a1 ≤ 0 || a2 ≤ 0 then 0 else max (qDiv oa a1) (qDiv oa a2)

/-- Sequence service, `_has_vertical_dependency`. -/
def hasVerticalDependency (predMaxZ currMinZ : Option ℚ) (th1 th2 : ℚ) : Bool :=
  match predMaxZ, currMinZ with
  | some pz, some cz => cz > qSub pz th1 && cz < qAdd pz th2
  | _, _ => false

/-- One predecessor rule: allowed type, horizontal overlap threshold,
optional vertical threshold pair. -/
structure SRule where
  type : String
  horiz : Option ℚ
  vert : Option (ℚ × ℚ)
deriving DecidableEq

/-- Sequence service, the `default_rules` table of `_sequence_group`. -/
def defaultRules : List (String × List SRule) :=
  [("Equipment",
    [⟨"Concrete", some (mkRat 8 10), some (mkRat 1 2, mkRat 2 10)⟩,
     ⟨"Piling", some (mkRat 8 10), some (mkRat 1 2, mkRat 2 10)⟩,
     ⟨"Civil Works", some (mkRat 8 10), some (mkRat 1 2, mkRat 2 10)⟩]),
   ("Grout", [⟨"Concrete", some (mkRat 8 10), some (mkRat 2 10, mkRat 2 10)⟩]),
   ("Piling", []),
   ("Concrete", []),
   ("Piping", [⟨"Concrete", some (mkRat 8 10), some (mkRat 1 2, mkRat 2 10)⟩]),
   ("Piping Insulation", [⟨"Piping", some (mkRat 8 10), none⟩]),
   ("Cable Tray", [⟨"Concrete", some (mkRat 8 10), some (mkRat 1 2, mkRat 2 10)⟩]),
   ("Electrical", [⟨"Cable Tray", some (mkRat 6 10), none⟩,
     ⟨"UG Conduit", some (mkRat 6 10), none⟩]),
   ("Instrumentation", [⟨"Piping", some (mkRat 6 10), none⟩]),
   ("UG Conduit", [⟨"Civil Works", some (mkRat 6 10), none⟩]),
   ("Transformer", [⟨"Concrete", some (mkRat 8 10), some (mkRat 1 2, mkRat 2 10)⟩]),
   ("Civil Works", [])]

/-- Sequence service, `_default_rule_pair`: scan keys case-insensitively,
then the rule list of each matching key. -/
def defaultRulePair (cur : JVal) (pred : String) : Option SRule :=
  defaultRules.findSome? (fun kl =>
    if normTypeS kl.1 == normType cur then
      kl.2.find? (fun r => normTypeS r.type == normTypeS pred)
    else none)

/-- The user-rule predecessor list, normalised and deduplicated by
case-insensitive name, first occurrence kept. -/
def dedupPreds (ps : List JVal) : List String :=
  (ps.foldl (fun (acc : List String × List String) p =>
    let pname := pyStr p
    let key := normTypeS pname
    if acc.1.contains key then acc
    else (acc.1 ++ [key], acc.2 ++ [pname])) ([], [])).2

/-- `default_rules.get(cur_type, [])`: an exact dict lookup. -/
def defaultGet (curType : JVal) : List SRule :=
  match curType with
  | .jstr s => ((defaultRules.find? (fun kv => kv.1 == s)).map (·.2)).getD []
  | _ => []

/-- First user-rules key matching the current type case-insensitively. -/
def scanNormRules (tr : Rec) (curType : JVal) : Option JVal :=
  (List.find? (fun kv => normTypeS kv.1 == normType curType) tr).map (·.2)

/-- Sequence service: the rule list chosen for one record's type (user
rules when a list is supplied for that type, else the defaults). -/
def ruleListFor (typeRules : Option Rec) (curType : JVal) : List SRule :=
  match typeRules with
  | none => defaultGet curType
  | some tr =>
      let desired : Option JVal :=
        match curType with
        | .jstr s =>
            match Rec.find? tr s with
            | some v => some v
            | none => scanNormRules tr curType
        | _ => scanNormRules tr curType
      match desired with
      | some (.jarr ps) =>
          (dedupPreds ps).map (fun pname =>
            match defaultRulePair curType pname with
            | some base => base
            | none => ⟨pname, some (mkRat 8 10), none⟩)
      | _ => defaultGet curType

/-- The two spatial checks of the candidate loop (the horizontal check also
demands both boxes). -/
def seqChecksPass (rule : SRule) (curBox candBox : Option Box)
    (curMinz candMaxz : Option ℚ) : Bool :=
  (match rule.horiz with
   | none => true
   | some th =>
       match curBox, candBox with
       | some b1, some b2 => !(areaOverlapRatio b1 b2 < th)
       | _, _ => false) &&
  (match rule.vert with
   | none => true
   | some tv => hasVerticalDependency candMaxz curMinz tv.1 tv.2)

/-- The candidate score: minus the vertical distance (when the rule has a
vertical pair and both elevations exist) plus the overlap ratio (when the
rule has a horizontal threshold and both boxes exist). -/
def seqScore (rule : SRule) (curBox candBox : Option Box)
    (curMinz candMaxz : Option ℚ) : ℚ :=
  qAdd
    (if rule.vert.isSome then
       match candMaxz, curMinz with
       | some mz, some cz => -(qAbs (qSub cz mz))
       | _, _ => 0
     else 0)
    (match rule.horiz, curBox, candBox with
     | some _, some b1, some b2 => areaOverlapRatio b1 b2
     | _, _, _ => 0)

/-- The best-candidate fold of `_sequence_group` for one rule: highest
score wins, earlier candidate wins ties. -/
def selectBest (idx : List (ℕ × Rec)) (i : ℕ) (curBox : Option Box)
    (curMinz : Option ℚ) (rule : SRule) : Option JVal :=
  (idx.foldl (fun (best : ℚ × Option JVal) jc =>
    if jc.1 == i then best
    else if normType (Rec.getN jc.2 "Type") != normTypeS rule.type then best
    else
      let candBox := getBox jc.2
      let candMaxz := safeFloat (Rec.getN jc.2 "MaxOfMaxZ")
      if !seqChecksPass rule curBox candBox curMinz candMaxz then best
      else
        let score := seqScore rule curBox candBox curMinz candMaxz
        if score > best.1 then (score, some (Rec.getN jc.2 "Element Name")) else best)
    (-1, none)).2

def mkEdge (curName predName : JVal) : Rec :=
  [("ScheduleActivityID", curName), ("Predecessor", predName),
   ("Rel", .jstr "FS"), ("TaskType", .jstr "Construct")]

/-- Sequence service, `_sequence_group`: one edge at most per rule, only
when the winner's name is truthy. -/
def seqGroup (records : List Rec) (typeRules : Option Rec) : List Rec :=
  let idx := records.enum
  idx.foldl (fun edges ir =>
    let curType := orChain [Rec.getN ir.2 "Type", .jstr ""]
    let curName := Rec.getN ir.2 "Element Name"
    let curBox := getBox ir.2
    let curMinz := safeFloat (Rec.getN ir.2 "MinOfMinZ")
    edges ++ (ruleListFor typeRules curType).filterMap (fun rule =>
      match selectBest idx ir.1 curBox curMinz rule with
      | some nm => if nm.truthy then some (mkEdge curName nm) else none
      | none => none)) []

/-- Sequence service, `compute_sequence`: group records by the stripped
string of their CWA (skipping empties), sequence each group. -/
def computeSequence (durationRecords : List Rec) (typeRules : Option Rec) : List Rec :=
  let byCwa := durationRecords.foldl (fun m rec =>
    let cwa := String.mk (myTrim (pyStr (orChain [Rec.getN rec "CWA", .jstr ""])).data)
    if cwa == "" then m else groupAdd m cwa rec) []
  byCwa.foldl (fun acc kg => acc ++ seqGroup kg.2 typeRules) []

end PySeq

namespace PySeq

def alistGet [BEq κ] (m : List (κ × α)) (k : κ) : Option α :=
  (List.find? (fun kv => kv.1 == k) m).map (·.2)

/-- Dict assignment: replace the binding in place, else append. -/
def alistSet [BEq κ] (m : List (κ × α)) (k : κ) (v : α) : List (κ × α) :=
  match m with
  | [] => [(k, v)]
  | kv :: rest => if kv.1 == k then (k, v) :: rest else kv :: alistSet rest k v

/-- The shared Kahn loop of `_build_activity_list_ordered` and `_toposort`:
pop the ready head, append it to the order, decrement successors, enqueue
those that hit zero, re-sort the ready list.  The fuel passed by the two
callers exceeds any possible iteration count, so the fuel-0 branch is
unreachable. -/
def kahnLoop [BEq κ] (srt : List κ → List κ) (adj : List (κ × List κ)) :
    ℕ → List κ → List (κ × ℤ) → List κ → List (κ × ℤ) × List κ
  | 0, _, indeg, ordered => (indeg, ordered)
  | _ + 1, [], indeg, ordered => (indeg, ordered)
  | fuel + 1, n :: rest, indeg, ordered =>
      let succs := (alistGet adj n).getD []
      let step := succs.foldl (fun (acc : List (κ × ℤ) × List κ) m =>
          let d := (alistGet acc.1 m).getD 0 - 1
          (alistSet acc.1 m d, if d == 0 then acc.2 ++ [m] else acc.2)) (indeg, [])
      kahnLoop srt adj fuel (srt (rest ++ step.2)) step.1 (ordered ++ [n])

/-- Sequence service: the first-appearance index and record per truthy
`Element Name`. -/
def buildIndex (durationRecords : List Rec) : List (JVal × ℕ) × List (JVal × Rec) :=
  durationRecords.enum.foldl (fun acc ir =>
    let name := Rec.getN ir.2 "Element Name"
    if !name.truthy then acc
    else if (alistGet acc.1 name).isSome then acc
    else (acc.1 ++ [(name, ir.1)], acc.2 ++ [(name, ir.2)])) ([], [])

/-- Sequence service: adjacency and indegree built from the edge list,
keeping only string-typed endpoints that are known activity names. -/
def seqGraph (keys : List JVal) (edges : List Rec) :
    List (JVal × List JVal) × List (JVal × ℤ) :=
  edges.foldl (fun acc e =>
    let cur := Rec.getN e "ScheduleActivityID"
    let pred := Rec.getN e "Predecessor"
    match cur, pred with
    | .jstr _, .jstr _ =>
        if (alistGet acc.1 pred).isSome && (alistGet acc.2 cur).isSome then
          (alistSet acc.1 pred ((alistGet acc.1 pred).getD [] ++ [cur]),
           alistSet acc.2 cur ((alistGet acc.2 cur).getD 0 + 1))
        else acc
    | _, _ => acc)
    (keys.map (fun n => (n, ([] : List JVal))), keys.map (fun n => (n, (0 : ℤ))))

def seqIdxOf (indexByName : List (JVal × ℕ)) (n : JVal) : ℕ :=
  (alistGet indexByName n).getD 1000000000

def seqSort (indexByName : List (JVal × ℕ)) (l : List JVal) : List JVal :=
  sortBy (fun a b => decide (seqIdxOf indexByName a ≤ seqIdxOf indexByName b)) l

/-- Sequence service, `_build_activity_list_ordered`. -/
def buildActivityListOrdered (durationRecords : List Rec) (edges : List Rec) : List Rec :=
  let ix := buildIndex durationRecords
  let indexByName := ix.1
  let recByName := ix.2
  let keys := indexByName.map (·.1)
  let g := seqGraph keys edges
  let ready0 := seqSort indexByName ((g.2.filter (fun kv => kv.2 == 0)).map (·.1))
  let fuel := keys.length + edges.length + 1
  let ordered := (kahnLoop (seqSort indexByName) g.1 fuel ready0 g.2 []).2
  let ordered := if ordered.length < keys.length then
      ordered ++ seqSort indexByName (keys.filter (fun n => !ordered.contains n))
    else ordered
  ordered.map (fun name =>
    let r := (alistGet recByName name).getD []
    [("ScheduleActivityID", name), ("Type", Rec.getN r "Type"),
     ("Duration", Rec.getN r "Duration"), ("CWA", Rec.getN r "CWA"),
     ("TaskType", .jstr "Construct")])

/-- Critical service: `rec.get("Predecessors") or []` (always a list after
normalisation). -/
def predsOf (r : Rec) : List JVal :=
  match Rec.getN r "Predecessors" with
  | .jarr xs => xs
  | _ => []

/-- Critical service: `float(t.get("Duration") or 0)` under try/except. -/
def coerceDur (v : JVal) : ℚ :=
  match orChain [v, .jnum 0] with
  | .jnum q => q
  | .jbool b => if b then 1 else 0
  | .jstr s => (parseFloat s).getD 0
  | _ => 0

/-- Critical service: the task dict keyed by string `ScheduleActivityID`
(key order is first occurrence, value the last record). -/
def cpmInit (tasksArr : List Rec) : List (String × Rec) :=
  tasksArr.foldl (fun m t =>
    match Rec.getN t "ScheduleActivityID" with
    | .jstr s => alistSet m s t
    | _ => m) []

/-- Critical service: coerce durations to numbers, normalise predecessor
lists. -/
def cpmNormalize (m : List (String × Rec)) : List (String × Rec) :=
  m.map (fun kv =>
    let r := Rec.set kv.2 "Duration" (.jnum (coerceDur (Rec.getN kv.2 "Duration")))
    match Rec.getN r "Predecessors" with
    | .jarr _ => (kv.1, r)
    | _ => (kv.1, Rec.set r "Predecessors" (.jarr [])))

def strLe (a b : String) : Bool := !(myStrLt b.data a.data)

def totalPredCount (tasks : List (String × Rec)) : ℕ :=
  (tasks.map (fun kv => (predsOf kv.2).length)).sum

/-- Critical service, `_toposort`: ready list kept sorted lexicographically,
remaining (cyclic) nodes appended sorted. -/
def cpmToposort (tasks : List (String × Rec)) : List String :=
  let keys := tasks.map (·.1)
  let g := tasks.foldl (fun (acc : List (String × List String) × List (String × ℤ)) kv =>
      (predsOf kv.2).foldl (fun acc2 p =>
        match p with
        | .jstr ps =>
            if keys.contains ps then
              (alistSet acc2.1 ps ((alistGet acc2.1 ps).getD [] ++ [kv.1]),
               alistSet acc2.2 kv.1 ((alistGet acc2.2 kv.1).getD 0 + 1))
            else acc2
        | _ => acc2) acc)
    (keys.map (fun n => (n, ([] : List String))), keys.map (fun n => (n, (0 : ℤ))))
  let ready0 := sortBy strLe ((g.2.filter (fun kv => kv.2 == 0)).map (·.1))
  let fuel := keys.length + totalPredCount tasks + 1
  let ordered := (kahnLoop (sortBy strLe) g.1 fuel ready0 g.2 []).2
  if ordered.length < tasks.length then
    ordered ++ sortBy strLe (keys.filter (fun n => !ordered.contains n))
  else ordered

def numOr0 (v : JVal) : ℚ :=
  match v with
  | .jnum q => q
  | _ => 0

/-- Critical service, forward pass for one node:
`ES = max over known preds of (EF or 0), EF = ES + Duration`. -/
def cpmForwardStep (tasks : List (String × Rec)) (k : String) : List (String × Rec) :=
  match alistGet tasks k with
  | none => tasks
  | some t =>
      let es := (predsOf t).foldl (fun es p =>
        match p with
        | .jstr ps =>
            match alistGet tasks ps with
            | some tp => max es (numOr0 (Rec.getN tp "EF"))
            | none => es
        | _ => es) 0
      let d := numOr0 (Rec.getN t "Duration")
      alistSet tasks k (Rec.set (Rec.set t "ES" (.jnum es)) "EF" (.jnum (qAdd es d)))

def cpmForward (tasks : List (String × Rec)) (order : List String) : List (String × Rec) :=
  order.foldl cpmForwardStep tasks

/-- Critical service: `max((tasks[k].get("EF") or 0.0) for k in order)`,
0 for an empty order. -/
def cpmFinish (tasks : List (String × Rec)) (order : List String) : ℚ :=
  match order.map (fun k =>
    match alistGet tasks k with
    | some t => numOr0 (Rec.getN t "EF")
    | none => 0) with
  | [] => 0
  | x :: xs => xs.foldl max x

/-- Critical service, backward pass for one node.  (When a node has
successors they all carry an `ES` from the forward pass, so the `min` of
the present values is total; CPython would raise on an empty generator.) -/
def cpmBackwardStep (finish : ℚ) (tasks : List (String × Rec)) (k : String) :
    List (String × Rec) :=
  match alistGet tasks k with
  | none => tasks
  | some t =>
      let succEs : List (Option ℚ) := tasks.filterMap (fun kv =>
        if (predsOf kv.2).contains (.jstr k) then
          some (match Rec.getN kv.2 "ES" with | .jnum q => some q | _ => none)
        else none)
      let lf := if succEs.isEmpty then finish
        else match succEs.filterMap id with
          | [] => 0
          | x :: xs => xs.foldl min x
      let d := numOr0 (Rec.getN t "Duration")
      let ls := qSub lf d
      let fl : JVal := match Rec.getN t "ES" with
        | .jnum e => .jnum (qSub ls e)
        | _ => .jnull
      let crit : Bool := qAbs (numOr0 fl) < mkRat 1 1000000000
      alistSet tasks k (Rec.set (Rec.set (Rec.set (Rec.set t
        "LF" (.jnum lf)) "LS" (.jnum ls)) "Float" fl) "Critical" (.jbool crit))

def cpmBackward (finish : ℚ) (tasks : List (String × Rec)) (order : List String) :
    List (String × Rec) :=
  order.reverse.foldl (cpmBackwardStep finish) tasks

/-- Critical service, `_cpm` (the manual fallback branch; the optional
`pycritical` import path is taken only when that third-party package is
importable and is not part of this repository). -/
def cpm (tasksArr : List Rec) : List Rec :=
  let tasks0 := cpmNormalize (cpmInit tasksArr)
  let order := cpmToposort tasks0
  let fwd := cpmForward tasks0 order
  let finish := cpmFinish fwd order
  let bwd := cpmBackward finish fwd order
  order.filterMap (fun k => alistGet bwd k)

end PySeq

namespace PySeq

theorem Rec.find?_set_self (r : Rec) (k : String) (v : JVal) :
    Rec.find? (Rec.set r k v) k = some v := by
  induction r with
  | nil => simp [Rec.set, Rec.find?, List.find?]
  | cons kv rest ih =>
      by_cases hk : kv.1 = k
      · simp [Rec.set, hk, Rec.find?, List.find?]
      · have hb : (kv.1 == k) = false := beq_eq_false_iff_ne.2 hk
        simpa [Rec.set, hk, Rec.find?, List.find?, hb] using ih

theorem Rec.find?_set_ne (r : Rec) (k v k') (h : k' ≠ k) :
    Rec.find? (Rec.set r k v) k' = Rec.find? r k' := by
  have hb : (k == k') = false := beq_eq_false_iff_ne.2 (Ne.symm h)
  induction r with
  | nil => simp [Rec.set, Rec.find?, List.find?, hb]
  | cons kv rest ih =>
      by_cases hk : kv.1 = k
      · simp [Rec.set, hk, Rec.find?, List.find?, hb]
      · by_cases hk' : kv.1 = k'
        · simp [Rec.set, hk, Rec.find?, List.find?, hk', h]
        · have hb1 : (kv.1 == k') = false := beq_eq_false_iff_ne.2 hk'
          simpa [Rec.set, hk, Rec.find?, List.find?, hb1] using ih

theorem Rec.getN_set_self (r : Rec) (k v) : Rec.getN (Rec.set r k v) k = v := by
  simp [Rec.getN, Rec.find?_set_self]

theorem Rec.getN_set_ne (r : Rec) (k v k') (h : k' ≠ k) :
    Rec.getN (Rec.set r k v) k' = Rec.getN r k' := by
  simp [Rec.getN, Rec.find?_set_ne r k v k' h]

end PySeq
namespace PySeq

theorem qAdd_eq (a b : ℚ) : qAdd a b = a + b := by
  have ha : (a.den : ℚ) ≠ 0 := Nat.cast_ne_zero.2 a.den_nz
  have hb : (b.den : ℚ) ≠ 0 := Nat.cast_ne_zero.2 b.den_nz
  rw [qAdd, Rat.mkRat_eq_div]
  conv_rhs => rw [← Rat.num_div_den a, ← Rat.num_div_den b, div_add_div _ _ ha hb]
  push_cast
  ring_nf

theorem qSub_eq (a b : ℚ) : qSub a b = a - b := by
  have ha : (a.den : ℚ) ≠ 0 := Nat.cast_ne_zero.2 a.den_nz
  have hb : (b.den : ℚ) ≠ 0 := Nat.cast_ne_zero.2 b.den_nz
  rw [qSub, Rat.mkRat_eq_div]
  conv_rhs => rw [← Rat.num_div_den a, ← Rat.num_div_den b, div_sub_div _ _ ha hb]
  push_cast
  ring_nf

theorem qMul_eq (a b : ℚ) : qMul a b = a * b := by
  rw [qMul, Rat.mkRat_eq_div]
  conv_rhs => rw [← Rat.num_div_den a, ← Rat.num_div_den b, div_mul_div_comm]
  push_cast
  ring_nf

theorem qInv_eq (b : ℚ) : qInv b = b⁻¹ := by
  rw [Rat.inv_def', Rat.divInt_eq_div, qInv, Rat.mkRat_eq_div]
  rcases lt_trichotomy b.num 0 with hn | hn | hn
  · rw [Int.sign_eq_neg_one_of_neg hn]
    have h1 : ((b.num.natAbs : ℕ) : ℚ) = -(b.num : ℚ) := by
      rw [Int.cast_natAbs]
      exact_mod_cast abs_of_neg hn
    rw [h1]
    push_cast
    rw [neg_one_mul, neg_div_neg_eq]
  · rw [hn]
    simp
  · rw [Int.sign_eq_one_of_pos hn]
    have h1 : ((b.num.natAbs : ℕ) : ℚ) = (b.num : ℚ) := by
      rw [Int.cast_natAbs]
      exact_mod_cast abs_of_pos hn
    rw [h1]
    push_cast
    rw [one_mul]

theorem qDiv_eq (a b : ℚ) : qDiv a b = a / b := by
  rw [qDiv, qMul_eq, qInv_eq, div_eq_mul_inv]

theorem qAbs_eq (q : ℚ) : qAbs q = |q| := by
  by_cases h : q < 0
  · rw [qAbs, if_pos h, abs_of_neg h, Rat.mkRat_eq_div]
    conv_rhs => rw [← Rat.num_div_den q]
    push_cast
    rw [neg_div]
  · rw [qAbs, if_neg h, abs_of_nonneg (not_lt.1 h)]

theorem qOfNat_eq (n : ℕ) : qOfNat n = (n : ℚ) := by
  rw [qOfNat, Rat.mkRat_eq_div]
  simp

theorem qOfInt_eq (z : ℤ) : qOfInt z = (z : ℚ) := by
  rw [qOfInt, Rat.mkRat_eq_div]
  simp

theorem qPowNat_eq (a : ℚ) (n : ℕ) : qPowNat a n = a ^ n := by
  induction n with
  | zero => rfl
  | succ n ih => rw [qPowNat, qMul_eq, ih, pow_succ]

theorem pyCeil_eq (q : ℚ) : pyCeil q = ⌈q⌉ := by
  have h1 : ⌈q⌉ = -⌊-q⌋ := by
    conv_lhs => rw [← neg_neg q]
    rw [Int.ceil_neg]
  rw [pyCeil, h1, Rat.floor_def, Rat.num_neg_eq_neg_num, Rat.den_neg_eq_den]
  congr 1
  exact Int.fdiv_eq_ediv _ (by positivity)

end PySeq

namespace PySeq

instance {ε : Type u} {α : Type v} [DecidableEq ε] [DecidableEq α] :
    DecidableEq (Except ε α) := fun a b =>
  match a, b with
  | .ok x, .ok y =>
      if h : x = y then .isTrue (by rw [h]) else .isFalse (fun he => h (Except.ok.inj he))
  | .error x, .error y =>
      if h : x = y then .isTrue (by rw [h]) else .isFalse (fun he => h (Except.error.inj he))
  | .ok _, .error _ => .isFalse (fun he => Except.noConfusion he)
  | .error _, .ok _ => .isFalse (fun he => Except.noConfusion he)

end PySeq

namespace PySeq

def c3rec1 : Rec := [("Element Name", .jstr "A_Install_Concrete-1"), ("Volume", .jnum 1)]
def c3rec2 : Rec := [("Element Name", .jstr "B_Install_Concrete-2"), ("Volume", .jnum 8)]
def c3rec3 : Rec := [("Element Name", .jstr "C_Install_Concrete-3"), ("Volume", .jnum 27)]
def c3recs : List JVal := [.jobj c3rec1, .jobj c3rec2, .jobj c3rec3]

/-- C3: for exactly three Concrete activities with volumes 1, 8 and 27, the
median metric is 8 and the `Duration` emitted for the volume-8 activity is
3 days (raw 3·(8/8)^0.9 = 3, clamped to [0.5,10], halved post-clamp for
Concrete to 1.5, times 1.5 gives 2.25, and `ceil(max(1, 2.25)) = 3`).  The
power oracle is only assumed to satisfy `1 ** 0.9 = 1`, which is exact in
IEEE-754 `pow`. -/
theorem duration_median_concrete_c3 (rpow : ℚ → ℚ → ℚ) (h : rpow 1 (mkRat 9 10) = 1) :
    median [1, 8, 27] = 8 ∧
    ((computeDurations rpow c3recs).toOption.bind fun out =>
      (out.get? 1).map fun r => Rec.getN r "Duration") = some (.jnum 3) := by
  refine ⟨by decide, ?_⟩
  obtain ⟨r1, e1⟩ : ∃ r, durationFor rpow [("Concrete", 8)] 0 (.jobj c3rec1) = .ok r := ⟨_, rfl⟩
  obtain ⟨r3, e3⟩ : ∃ r, durationFor rpow [("Concrete", 8)] 0 (.jobj c3rec3) = .ok r := ⟨_, rfl⟩
  have e2 : durationFor rpow [("Concrete", 8)] 0 (.jobj c3rec2) =
      .ok [("Element Name", .jstr "B_Install_Concrete-2"), ("Volume", .jnum 8),
           ("Type", .jstr "Concrete"), ("Duration", .jnum 3)] := by
    have f1 : isSetActivity (Rec.getN c3rec2 "Element Name") = false := by decide
    have f2 : extractActivityType (Rec.getN c3rec2 "Element Name") = "Concrete" := by decide
    have f3 : volumeForRecord c3rec2 = 8 := by decide
    have f9 : qDiv 8 8 = (1 : ℚ) := by decide
    have f4 : tLookup INSTALL_EXPONENTS "Concrete" = some (mkRat 9 10) := by decide
    have f5 : tLookup INSTALL_BASE_DAYS "Concrete" = some 3 := by decide
    have f6 : installMetric "Concrete" c3rec2 8 = 8 := by decide
    have f7 : tLookup [("Concrete", (8 : ℚ))] "Concrete" = some 8 := by decide
    have f12 : tLookup DURATION_BOUNDS "Concrete" = some (mkRat 1 2, 10) := by decide
    have f8 : ((8 : ℚ) > 0) := by decide
    simp only [durationFor, f1, f2, f3, Bool.false_eq_true, if_false, f4, f5, f6, f7, f12,
      Option.getD_some, if_pos f8, pypow]
    rw [f9, h]
    decide
  have hp1 : durPass1 ([], []) c3recs = .ok ([("Concrete", [1, 8, 27])], []) := by decide
  have hmed : List.map (fun kv => (kv.1, median kv.2)) [("Concrete", [(1:ℚ), 8, 27])] =
      [("Concrete", 8)] := by decide
  have hm0 : median [] = 0 := by decide
  simp only [computeDurations, hp1, hmed, hm0]
  simp only [c3recs, durPass2, e1, e2, e3]
  rfl

/-- Witness for C3 at the constant-1 power oracle. -/
theorem duration_median_concrete_c3_witness :
    median [1, 8, 27] = 8 ∧
    ((computeDurations (fun _ _ => 1) c3recs).toOption.bind fun out =>
      (out.get? 1).map fun r => Rec.getN r "Duration") = some (.jnum 3) :=
  duration_median_concrete_c3 (fun _ _ => 1) rfl

end PySeq
namespace PySeq

def dedupStep (acc : List String × List String) (p : JVal) : List String × List String :=
  let pname := pyStr p
  let key := normTypeS pname
  if acc.1.contains key then acc else (acc.1 ++ [key], acc.2 ++ [pname])

theorem dedupPreds_eq_foldl (ps : List JVal) :
    dedupPreds ps = (ps.foldl dedupStep ([], [])).2 := rfl

theorem contains_mem {l : List String} {a : String} (h : l.contains a = true) : a ∈ l := by
  simpa using h

theorem mem_contains {l : List String} {a : String} (h : a ∈ l) : l.contains a = true := by
  simpa using h

theorem dedup_aux (ps : List JVal) :
    ∀ seen out : List String, seen = out.map normTypeS →
    (seen.Nodup) →
    ((((ps.foldl dedupStep (seen, out)).2).map normTypeS).Nodup ∧
    (∀ p ∈ ps, normTypeS (pyStr p) ∈ ((ps.foldl dedupStep (seen, out)).2).map normTypeS) ∧
    (∃ tail, (ps.foldl dedupStep (seen, out)).2 = out ++ tail ∧ tail.Sublist (ps.map pyStr)) ∧
    (∀ x ∈ (ps.foldl dedupStep (seen, out)).2, x ∈ out ∨ (normTypeS x ∉ seen ∧
      List.find? (fun y => normTypeS y == normTypeS x) (ps.map pyStr) = some x))) := by
  induction ps with
  | nil =>
      intro seen out hso hnd
      refine ⟨?_, by simp, ⟨[], by simp⟩, ?_⟩
      · simpa [← hso] using hnd
      · intro x hx
        exact Or.inl hx
  | cons p rest ih =>
      intro seen out hso hnd
      by_cases hc : seen.contains (normTypeS (pyStr p)) = true
      · have hstep : dedupStep (seen, out) p = (seen, out) := by
          simp [dedupStep, contains_mem hc]
        simp only [List.foldl_cons, hstep]
        obtain ⟨c1, c2, c3, c4⟩ := ih seen out hso hnd
        refine ⟨c1, ?_, ?_, ?_⟩
        · intro q hq
          rcases List.mem_cons.1 hq with hq1 | hq1
          · subst hq1
            have hkey : normTypeS (pyStr q) ∈ seen := contains_mem hc
            obtain ⟨tail, htail, _⟩ := c3
            rw [htail]
            rw [hso] at hkey
            rw [List.map_append]
            exact List.mem_append_left _ hkey
          · exact c2 q hq1
        · obtain ⟨tail, htail, hsub⟩ := c3
          exact ⟨tail, htail, hsub.cons _⟩
        · intro x hx
          rcases c4 x hx with h1 | ⟨h2a, h2b⟩
          · exact Or.inl h1
          · refine Or.inr ⟨h2a, ?_⟩
            have hne : (normTypeS (pyStr p) == normTypeS x) = false := by
              rw [beq_eq_false_iff_ne]
              intro he
              rw [he] at hc
              exact h2a (contains_mem hc)
            simpa [List.find?, hne] using h2b
      · have hcm : normTypeS (pyStr p) ∉ seen := fun hm => hc (mem_contains hm)
        have hstep : dedupStep (seen, out) p =
            (seen ++ [normTypeS (pyStr p)], out ++ [pyStr p]) := by
          simp [dedupStep, hcm]
        simp only [List.foldl_cons, hstep]
        have hso' : seen ++ [normTypeS (pyStr p)] = (out ++ [pyStr p]).map normTypeS := by
          simp [hso]
        have hnd' : (seen ++ [normTypeS (pyStr p)]).Nodup := by
          rw [List.nodup_append]
          refine ⟨hnd, List.nodup_singleton _, ?_⟩
          intro a ha hb
          simp at hb
          subst hb
          exact hcm ha
        obtain ⟨c1, c2, c3, c4⟩ := ih _ _ hso' hnd'
        refine ⟨c1, ?_, ?_, ?_⟩
        · intro q hq
          rcases List.mem_cons.1 hq with hq1 | hq1
          · subst hq1
            obtain ⟨tail, htail, _⟩ := c3
            rw [htail]
            rw [List.append_assoc] at htail ⊢
            rw [List.map_append]
            refine List.mem_append_right _ ?_
            simp
          · exact c2 q hq1
        · obtain ⟨tail, htail, hsub⟩ := c3
          refine ⟨pyStr p :: tail, by simpa using htail, ?_⟩
          exact List.Sublist.cons₂ _ hsub
        · intro x hx
          rcases c4 x hx with h1 | ⟨h2a, h2b⟩
          · rcases List.mem_append.1 h1 with h1a | h1b
            · exact Or.inl h1a
            · simp only [List.mem_singleton] at h1b
              subst h1b
              refine Or.inr ⟨hcm, ?_⟩
              simp [List.find?]
          · refine Or.inr ⟨fun hmem => h2a (List.mem_append_left _ hmem), ?_⟩
            have hne : (normTypeS (pyStr p) == normTypeS x) = false := by
              rw [beq_eq_false_iff_ne]
              intro he
              apply h2a
              rw [← he]
              simp
            simpa [List.find?, hne] using h2b

end PySeq

namespace PySeq

/-- C5 counterexample: `_norm_type` does NOT collapse internal whitespace
runs, so two type names differing only in an internal whitespace run
compare UNEQUAL under the stage's single normalization. -/
theorem norm_collapse_c5_counterexample :
    normType (.jstr "Cable Tray") ≠ normType (.jstr "Cable  Tray") := by decide

/-- C5 (amended): dependency-rules keys and predecessor-type names are
compared under the single normalization `_norm_type` = trim + casefold,
which does not collapse internal whitespace; user predecessor lists are
deduplicated by this normalization, keeping the first occurrence of each
normalization class in first-seen order (the kept list is a sublist of the
names in order, its normalizations are pairwise distinct and cover every
supplied name, and each kept name is the first with its normalization). -/
theorem norm_and_dedup_c5 :
    (∀ s : String, normType (.jstr s) = trimLower s ∧ normTypeS s = trimLower s) ∧
    (∀ ps : List JVal,
      ((dedupPreds ps).map normTypeS).Nodup ∧
      (∀ p ∈ ps, normTypeS (pyStr p) ∈ (dedupPreds ps).map normTypeS) ∧
      (dedupPreds ps).Sublist (ps.map pyStr) ∧
      (∀ x ∈ dedupPreds ps,
        List.find? (fun y => normTypeS y == normTypeS x) (ps.map pyStr) = some x)) := by
  constructor
  · intro s
    refine ⟨?_, rfl⟩
    by_cases h : s = ""
    · subst h
      rfl
    · simp [normType, orChain, JVal.truthy, pyStr, h]
  · intro ps
    obtain ⟨c1, c2, c3, c4⟩ := dedup_aux ps [] [] rfl List.nodup_nil
    rw [dedupPreds_eq_foldl]
    refine ⟨c1, c2, ?_, ?_⟩
    · obtain ⟨tail, htail, hsub⟩ := c3
      simpa [htail] using hsub
    · intro x hx
      rcases c4 x hx with h1 | ⟨_, h2⟩
      · cases h1
      · exact h2

/-- Witness for C5 at concrete inputs: the normalization of an upper-case,
padded name, and the first-seen dedup of a three-element predecessor list. -/
theorem norm_and_dedup_c5_witness :
    normType (.jstr " Cable TRAY ") = trimLower " Cable TRAY " ∧
    List.find? (fun y => normTypeS y == normTypeS "Concrete")
      (List.map pyStr [JVal.jstr "Concrete", JVal.jstr "CONCRETE", JVal.jstr "Grout"]) =
      some "Concrete" :=
  ⟨(norm_and_dedup_c5.1 " Cable TRAY ").1,
   (norm_and_dedup_c5.2 [JVal.jstr "Concrete", JVal.jstr "CONCRETE", JVal.jstr "Grout"]).2.2.2
     "Concrete" (by decide)⟩

end PySeq
namespace PySeq

/-- C8 counterexample: a malformed Clean body (a bare number) is rejected
with 422, yet `clean_input_latest.json` surviving from the prior
successful run has already been overwritten with the raw body: the claim
that all `*_latest` artifacts, including `clean_input_latest.json`, are
left unchanged on error is false. -/
theorem clean_error_overwrites_input_c8_counterexample :
    (cleanEndpoint ⟨some (.jstr "old-input"), some (.jstr "old-output"), none, none⟩
        (.jnum 5)).1 = .error ⟨422, "Unsupported body format."⟩ ∧
    (cleanEndpoint ⟨some (.jstr "old-input"), some (.jstr "old-output"), none, none⟩
        (.jnum 5)).2.cleanInput = some (.jnum 5) ∧
    (some (JVal.jnum 5) ≠ some (JVal.jstr "old-input")) := by
  refine ⟨rfl, rfl, by decide⟩

/-- C8 (amended): when the Clean stage fails, the output artifacts
(`clean_output_latest.json`, `duration_output_latest.json`,
`dependency_rules.json`) of a prior successful run are left unchanged, but
`clean_input_latest.json` is overwritten with the raw body before
validation; the stage never mutates its in-memory input records (it builds
fresh records). -/
theorem clean_error_preserves_outputs_c8 (fs : FS) (body : JVal) (e : HErr)
    (h : (cleanEndpoint fs body).1 = .error e) :
    (cleanEndpoint fs body).2.cleanOutput = fs.cleanOutput ∧
    (cleanEndpoint fs body).2.durationOutput = fs.durationOutput ∧
    (cleanEndpoint fs body).2.depRules = fs.depRules ∧
    (cleanEndpoint fs body).2.cleanInput = some body := by
  unfold cleanEndpoint at h ⊢
  cases hc : coercePayload body with
  | error e' => simp [hc]
  | ok val =>
      obtain ⟨records, deps⟩ := val
      rw [hc] at h
      cases deps <;> simp at h

/-- Witness for C8 at a concrete failing request. -/
theorem clean_error_preserves_outputs_c8_witness :
    (cleanEndpoint ⟨some (.jstr "i"), some (.jstr "o"), some (.jstr "d"), some (.jstr "r")⟩
        (.jnum 5)).2.cleanOutput = some (.jstr "o") ∧
    (cleanEndpoint ⟨some (.jstr "i"), some (.jstr "o"), some (.jstr "d"), some (.jstr "r")⟩
        (.jnum 5)).2.durationOutput = some (.jstr "d") ∧
    (cleanEndpoint ⟨some (.jstr "i"), some (.jstr "o"), some (.jstr "d"), some (.jstr "r")⟩
        (.jnum 5)).2.depRules = some (.jstr "r") ∧
    (cleanEndpoint ⟨some (.jstr "i"), some (.jstr "o"), some (.jstr "d"), some (.jstr "r")⟩
        (.jnum 5)).2.cleanInput = some (.jnum 5) :=
  clean_error_preserves_outputs_c8 _ _ ⟨422, "Unsupported body format."⟩ rfl

/-- C10 counterexample: a JSON object without `activities` or `data` can
still be rejected: a truthy non-object value under the `dictionary` key
yields 422, so the claim that every such object is accepted is false. -/
theorem clean_dict_value_rejected_c10_counterexample :
    Rec.hasKey [("dictionary", JVal.jnum 5)] "activities" = false ∧
    Rec.hasKey [("dictionary", JVal.jnum 5)] "data" = false ∧
    (cleanEndpoint ⟨none, none, none, none⟩ (.jobj [("dictionary", .jnum 5)])).1 =
      .error ⟨422, "Dependencies must be an object if provided."⟩ := by
  refine ⟨rfl, rfl, rfl⟩

/-- C10 (amended): a JSON object body with neither `activities` nor `data`
is accepted provided the value produced by the dependency-key `or`-chain
(`dependencies`, `dependency_rules`, `dictionary`, `dependencyRules`) is
null or an object: the record list coerces to empty, the call succeeds
with `rows = 0` and an empty result, and an empty cleaned-output artifact
is written.  A truthy non-object there is instead rejected with 422. -/
theorem clean_empty_object_ok_c10 (fs : FS) (b : Rec)
    (ha : Rec.getN b "activities" = .jnull)
    (hd : Rec.getN b "data" = .jnull)
    (hdep : orChain [Rec.getN b "dependencies", Rec.getN b "dependency_rules",
        Rec.getN b "dictionary", Rec.getN b "dependencyRules"] = .jnull ∨
      ∃ d, orChain [Rec.getN b "dependencies", Rec.getN b "dependency_rules",
        Rec.getN b "dictionary", Rec.getN b "dependencyRules"] = .jobj d) :
    ∃ resp, (cleanEndpoint fs (.jobj b)).1 = .ok resp ∧ resp.rows = 0 ∧ resp.result = [] ∧
      (cleanEndpoint fs (.jobj b)).2.cleanOutput = some (.jarr []) := by
  have hco : ∃ deps, coercePayload (.jobj b) = .ok ([], deps) := by
    rcases hdep with hdep | ⟨d, hdep⟩
    · refine ⟨none, ?_⟩
      simp only [coercePayload, ha, hd, hdep, beq_self_eq_true, if_true, scanDeps]
    · refine ⟨some d, ?_⟩
      have hne : (JVal.jobj d == JVal.jnull) = false := by
        rw [beq_eq_false_iff_ne]
        intro hcon
        cases hcon
      simp only [coercePayload, ha, hd, hdep, beq_self_eq_true, if_true, hne,
        Bool.false_eq_true, if_false]
  obtain ⟨deps, hco⟩ := hco
  unfold cleanEndpoint
  rw [hco]
  cases deps
  · exact ⟨⟨0, []⟩, rfl, rfl, rfl, rfl⟩
  · exact ⟨⟨0, []⟩, rfl, rfl, rfl, rfl⟩

/-- Witness for C10 at a concrete object body with an unrelated key. -/
theorem clean_empty_object_ok_c10_witness :
    ∃ resp, (cleanEndpoint ⟨none, none, none, none⟩ (.jobj [("foo", .jnum 1)])).1 = .ok resp ∧
      resp.rows = 0 ∧ resp.result = [] ∧
      (cleanEndpoint ⟨none, none, none, none⟩ (.jobj [("foo", .jnum 1)])).2.cleanOutput =
        some (.jarr []) :=
  clean_empty_object_ok_c10 _ _ rfl rfl (Or.inl rfl)

end PySeq
namespace PySeq

def NodupK (r : Rec) : Prop := (r.map Prod.fst).Nodup

theorem Rec.set_keys (r : Rec) (k : String) (v : JVal) :
    (Rec.set r k v).map Prod.fst =
      if k ∈ r.map Prod.fst then r.map Prod.fst else r.map Prod.fst ++ [k] := by
  induction r with
  | nil => simp [Rec.set]
  | cons kv rest ih =>
      by_cases hk : kv.1 = k
      · simp [Rec.set, hk]
      · have hk2 : (kv.1 == k) = false := beq_eq_false_iff_ne.2 hk
        by_cases hm : k ∈ rest.map Prod.fst
        · simp [Rec.set, hk2, ih, hm, Ne.symm hk]
        · simp [Rec.set, hk2, ih, hm, Ne.symm hk]

theorem nodupK_set {r : Rec} (k : String) (v : JVal) (h : NodupK r) :
    NodupK (Rec.set r k v) := by
  unfold NodupK at *
  rw [Rec.set_keys]
  by_cases hm : k ∈ r.map Prod.fst
  · simpa [hm] using h
  · simp only [hm, if_false]
    rw [List.nodup_append]
    refine ⟨h, List.nodup_singleton _, ?_⟩
    intro a ha hb
    rw [List.mem_singleton] at hb
    subst hb
    exact hm ha

theorem collectGeometry_nodupK (r : Rec) : NodupK (collectGeometry r) := by
  have main : ∀ (l : Rec) (acc : Rec), NodupK acc → NodupK (l.foldl (fun geom kv =>
      if List.isPrefixOf AUTO_GEOM_PREFIX.data kv.1.data then
        let short := String.mk (kv.1.data.drop AUTO_GEOM_PREFIX.data.length)
        let shortL := String.mk (myLower short.data)
        if List.isPrefixOf "solid type".data shortL.data ||
            List.isPrefixOf "rotation".data shortL.data then geom
        else if geomNumericParts.any (fun part => containsSub shortL part) then
          Rec.set geom short (optToJ (cleanToFloat kv.2))
        else Rec.set geom short kv.2
      else geom) acc) := by
    intro l
    induction l with
    | nil => intro acc h; exact h
    | cons kv rest ih =>
        intro acc h
        simp only [List.foldl_cons]
        split
        · split
          · exact ih acc h
          · split
            · exact ih _ (nodupK_set _ _ h)
            · exact ih _ (nodupK_set _ _ h)
        · exact ih acc h
  exact main r [] (by simp [NodupK])

theorem foldl_set_find? (g : Rec) : ∀ (acc : Rec) (k : String), NodupK g →
    Rec.find? (g.foldl (fun o kv => Rec.set o kv.1 kv.2) acc) k =
      match Rec.find? g k with
      | some v => some v
      | none => Rec.find? acc k := by
  induction g with
  | nil => intro acc k _; simp [Rec.find?]
  | cons kv rest ih =>
      intro acc k hg
      have hg' : NodupK rest := by
        unfold NodupK at hg ⊢
        exact (List.nodup_cons.1 hg).2
      simp only [List.foldl_cons]
      by_cases hk : kv.1 = k
      · subst hk
        have hnm : kv.1 ∉ rest.map Prod.fst := (List.nodup_cons.1 hg).1
        have hnone0 : List.find? (fun x => x.1 == kv.1) rest = none := by
          rw [List.find?_eq_none]
          intro x hx hbx
          exact hnm (beq_iff_eq.1 hbx ▸ List.mem_map_of_mem Prod.fst hx)
        have hnone : Rec.find? rest kv.1 = none := by
          simp [Rec.find?, hnone0]
        rw [ih _ _ hg', hnone, Rec.find?_set_self]
        simp [Rec.find?, List.find?]
      · have hk2 : (kv.1 == k) = false := beq_eq_false_iff_ne.2 hk
        have hcons : Rec.find? (kv :: rest) k = Rec.find? rest k := by
          simp [Rec.find?, List.find?, hk2]
        rw [ih _ _ hg', hcons]
        cases hfind : Rec.find? rest k with
        | none =>
            simp only
            exact Rec.find?_set_ne _ _ _ _ (Ne.symm hk)
        | some v => simp only

end PySeq
namespace PySeq

theorem find?_set_ite (r : Rec) (k : String) (v : JVal) (k' : String) :
    Rec.find? (Rec.set r k v) k' = if k' = k then some v else Rec.find? r k' := by
  by_cases h : k' = k
  · subst h
    simp [Rec.find?_set_self]
  · simp [h, Rec.find?_set_ne _ _ _ _ h]

theorem volStep_find?_other (g o : Rec) (k : String) (h : k ≠ "Volume") :
    Rec.find? (volStep g o) k = Rec.find? o k := by
  unfold volStep
  split <;> simp [find?_set_ite, h]

theorem xStep_find?_other (g o : Rec) (k : String)
    (h1 : k ≠ "MinOfMinX") (h2 : k ≠ "MaxOfMaxX") :
    Rec.find? (xStep g o) k = Rec.find? o k := by
  unfold xStep
  split <;> simp [find?_set_ite, h1, h2]

theorem yStep_find?_other (g o : Rec) (k : String)
    (h1 : k ≠ "MinOfMinY") (h2 : k ≠ "MaxOfMaxY") :
    Rec.find? (yStep g o) k = Rec.find? o k := by
  unfold yStep
  split <;> simp [find?_set_ite, h1, h2]

theorem zStep_find?_other (g o : Rec) (k : String)
    (h1 : k ≠ "MinOfMinZ") (h2 : k ≠ "MaxOfMaxZ") :
    Rec.find? (zStep g o) k = Rec.find? o k := by
  unfold zStep
  split <;> simp [find?_set_ite, h1, h2]

theorem cleanBase_find?_other (layer : Rec) (cwa : Option String) (k : String)
    (h1 : k ≠ "Element Name") (h2 : k ≠ "CWA") (h3 : k ≠ "GUID")
    (h4 : k ≠ "X Coordinate") (h5 : k ≠ "Y Coordinate") (h6 : k ≠ "Z Coordinate") :
    Rec.find? (cleanBase layer cwa) k = none := by
  unfold cleanBase
  simp only [List.foldl_cons, List.foldl_nil]
  split <;> split <;> split <;> split <;> split <;>
    (simp only [find?_set_ite, if_neg h1, if_neg h2, if_neg h3, if_neg h4, if_neg h5,
      if_neg h6]) <;> rfl

end PySeq

namespace PySeq

theorem xStep_applied (g o : Rec) (px l : ℚ)
    (hx : Rec.getN g "Position X" = .jnum px) (hl : Rec.getN g "Length" = .jnum l) :
    xStep g o = Rec.set (Rec.set o "MinOfMinX" (.jnum (qSub px (qDiv l 2))))
      "MaxOfMaxX" (.jnum (qAdd px (qDiv l 2))) := by
  unfold xStep
  rw [hx, hl]

theorem yStep_applied (g o : Rec) (py w : ℚ)
    (hy : Rec.getN g "Position Y" = .jnum py) (hw : Rec.getN g "Width" = .jnum w) :
    yStep g o = Rec.set (Rec.set o "MinOfMinY" (.jnum (qSub py (qDiv w 2))))
      "MaxOfMaxY" (.jnum (qAdd py (qDiv w 2))) := by
  unfold yStep
  rw [hy, hw]

theorem zStep_applied (g o : Rec) (pz h : ℚ)
    (hz : Rec.getN g "Position Z" = .jnum pz) (hh : Rec.getN g "Height" = .jnum h) :
    zStep g o = Rec.set (Rec.set o "MinOfMinZ" (.jnum pz)) "MaxOfMaxZ" (.jnum (qAdd pz h)) := by
  unfold zStep
  rw [hz, hh]

theorem firstGeom_nodupK (matched : List Rec) :
    NodupK (((matched.map collectGeometry).find? (fun g => !g.isEmpty)).getD []) := by
  cases hfg : (matched.map collectGeometry).find? (fun g => !g.isEmpty) with
  | none => simp [NodupK]
  | some g0 =>
      have hmem : g0 ∈ matched.map collectGeometry := List.mem_of_find?_eq_some hfg
      obtain ⟨s, _, hs⟩ := List.mem_map.1 hmem
      simpa [hs.symm] using collectGeometry_nodupK s

theorem cleanLayerWith_geom_find? (layer : Rec) (matched : List Rec) (k : String)
    (h1 : k ≠ "Element Name") (h2 : k ≠ "CWA") (h3 : k ≠ "GUID")
    (h4 : k ≠ "X Coordinate") (h5 : k ≠ "Y Coordinate") (h6 : k ≠ "Z Coordinate")
    (hv : k ≠ "Volume") (hx1 : k ≠ "MinOfMinX") (hx2 : k ≠ "MaxOfMaxX")
    (hy1 : k ≠ "MinOfMinY") (hy2 : k ≠ "MaxOfMaxY")
    (hz1 : k ≠ "MinOfMinZ") (hz2 : k ≠ "MaxOfMaxZ") :
    Rec.find? (cleanLayerWith layer matched) k =
      Rec.find? (((matched.map collectGeometry).find? (fun g => !g.isEmpty)).getD []) k := by
  unfold cleanLayerWith
  rw [zStep_find?_other _ _ _ hz1 hz2, yStep_find?_other _ _ _ hy1 hy2,
    xStep_find?_other _ _ _ hx1 hx2, volStep_find?_other _ _ _ hv,
    foldl_set_find? _ _ _ (firstGeom_nodupK matched)]
  cases hfk : Rec.find? (((matched.map collectGeometry).find? (fun g => !g.isEmpty)).getD []) k with
  | none =>
      simp only
      exact cleanBase_find?_other _ _ _ h1 h2 h3 h4 h5 h6
  | some v => simp only

end PySeq
namespace PySeq

theorem pipeline_x (fg P : Rec) (px l : ℚ)
    (hx : Rec.getN fg "Position X" = .jnum px) (hl : Rec.getN fg "Length" = .jnum l) :
    Rec.find? (zStep fg (yStep fg (xStep fg (volStep fg P)))) "MinOfMinX" =
      some (.jnum (qSub px (qDiv l 2))) ∧
    Rec.find? (zStep fg (yStep fg (xStep fg (volStep fg P)))) "MaxOfMaxX" =
      some (.jnum (qAdd px (qDiv l 2))) := by
  constructor
  · rw [zStep_find?_other _ _ _ (by decide) (by decide),
      yStep_find?_other _ _ _ (by decide) (by decide),
      xStep_applied _ _ px l hx hl, find?_set_ite,
      if_neg (by decide : ¬("MinOfMinX" = "MaxOfMaxX")), find?_set_ite, if_pos rfl]
  · rw [zStep_find?_other _ _ _ (by decide) (by decide),
      yStep_find?_other _ _ _ (by decide) (by decide),
      xStep_applied _ _ px l hx hl, find?_set_ite, if_pos rfl]

theorem pipeline_y (fg P : Rec) (py w : ℚ)
    (hy : Rec.getN fg "Position Y" = .jnum py) (hw : Rec.getN fg "Width" = .jnum w) :
    Rec.find? (zStep fg (yStep fg (xStep fg (volStep fg P)))) "MinOfMinY" =
      some (.jnum (qSub py (qDiv w 2))) ∧
    Rec.find? (zStep fg (yStep fg (xStep fg (volStep fg P)))) "MaxOfMaxY" =
      some (.jnum (qAdd py (qDiv w 2))) := by
  constructor
  · rw [zStep_find?_other _ _ _ (by decide) (by decide),
      yStep_applied _ _ py w hy hw, find?_set_ite,
      if_neg (by decide : ¬("MinOfMinY" = "MaxOfMaxY")), find?_set_ite, if_pos rfl]
  · rw [zStep_find?_other _ _ _ (by decide) (by decide),
      yStep_applied _ _ py w hy hw, find?_set_ite, if_pos rfl]

theorem pipeline_z (fg P : Rec) (pz h : ℚ)
    (hz : Rec.getN fg "Position Z" = .jnum pz) (hh : Rec.getN fg "Height" = .jnum h) :
    Rec.find? (zStep fg (yStep fg (xStep fg (volStep fg P)))) "MinOfMinZ" =
      some (.jnum pz) ∧
    Rec.find? (zStep fg (yStep fg (xStep fg (volStep fg P)))) "MaxOfMaxZ" =
      some (.jnum (qAdd pz h)) := by
  constructor
  · rw [zStep_applied _ _ pz h hz hh, find?_set_ite,
      if_neg (by decide : ¬("MinOfMinZ" = "MaxOfMaxZ")), find?_set_ite, if_pos rfl]
  · rw [zStep_applied _ _ pz h hz hh, find?_set_ite, if_pos rfl]

theorem cleanLayerWith_def (layer : Rec) (matched : List Rec) :
    cleanLayerWith layer matched =
      (fun fg => zStep fg (yStep fg (xStep fg (volStep fg
        (fg.foldl (fun o kv => Rec.set o kv.1 kv.2) (cleanBase layer
          (match extractCwa (layerKeyFromRecord layer) with
           | some c => some c
           | none => extractCwa (layer.getN "Element Name"))))))))
      (((matched.map collectGeometry).find? (fun g => !g.isEmpty)).getD []) := rfl

end PySeq
namespace PySeq

theorem cleanLayerWith_bbox_x (layer : Rec) (matched : List Rec) (px l : ℚ)
    (hpx : Rec.find? (cleanLayerWith layer matched) "Position X" = some (.jnum px))
    (hl : Rec.find? (cleanLayerWith layer matched) "Length" = some (.jnum l)) :
    Rec.find? (cleanLayerWith layer matched) "MinOfMinX" = some (.jnum (qSub px (qDiv l 2))) ∧
    Rec.find? (cleanLayerWith layer matched) "MaxOfMaxX" = some (.jnum (qAdd px (qDiv l 2))) := by
  rw [cleanLayerWith_geom_find? layer matched "Position X" (by decide) (by decide) (by decide)
    (by decide) (by decide) (by decide) (by decide) (by decide) (by decide) (by decide)
    (by decide) (by decide) (by decide)] at hpx
  rw [cleanLayerWith_geom_find? layer matched "Length" (by decide) (by decide) (by decide)
    (by decide) (by decide) (by decide) (by decide) (by decide) (by decide) (by decide)
    (by decide) (by decide) (by decide)] at hl
  have hx : Rec.getN (((matched.map collectGeometry).find? (fun g => !g.isEmpty)).getD [])
      "Position X" = .jnum px := by unfold Rec.getN; rw [hpx]; rfl
  have hlg : Rec.getN (((matched.map collectGeometry).find? (fun g => !g.isEmpty)).getD [])
      "Length" = .jnum l := by unfold Rec.getN; rw [hl]; rfl
  rw [cleanLayerWith_def]
  exact pipeline_x _ _ px l hx hlg

theorem cleanLayerWith_bbox_y (layer : Rec) (matched : List Rec) (py w : ℚ)
    (hpy : Rec.find? (cleanLayerWith layer matched) "Position Y" = some (.jnum py))
    (hw : Rec.find? (cleanLayerWith layer matched) "Width" = some (.jnum w)) :
    Rec.find? (cleanLayerWith layer matched) "MinOfMinY" = some (.jnum (qSub py (qDiv w 2))) ∧
    Rec.find? (cleanLayerWith layer matched) "MaxOfMaxY" = some (.jnum (qAdd py (qDiv w 2))) := by
  rw [cleanLayerWith_geom_find? layer matched "Position Y" (by decide) (by decide) (by decide)
    (by decide) (by decide) (by decide) (by decide) (by decide) (by decide) (by decide)
    (by decide) (by decide) (by decide)] at hpy
  rw [cleanLayerWith_geom_find? layer matched "Width" (by decide) (by decide) (by decide)
    (by decide) (by decide) (by decide) (by decide) (by decide) (by decide) (by decide)
    (by decide) (by decide) (by decide)] at hw
  have hy : Rec.getN (((matched.map collectGeometry).find? (fun g => !g.isEmpty)).getD [])
      "Position Y" = .jnum py := by unfold Rec.getN; rw [hpy]; rfl
  have hwg : Rec.getN (((matched.map collectGeometry).find? (fun g => !g.isEmpty)).getD [])
      "Width" = .jnum w := by unfold Rec.getN; rw [hw]; rfl
  rw [cleanLayerWith_def]
  exact pipeline_y _ _ py w hy hwg

theorem cleanLayerWith_bbox_z (layer : Rec) (matched : List Rec) (pz h : ℚ)
    (hpz : Rec.find? (cleanLayerWith layer matched) "Position Z" = some (.jnum pz))
    (hh : Rec.find? (cleanLayerWith layer matched) "Height" = some (.jnum h)) :
    Rec.find? (cleanLayerWith layer matched) "MinOfMinZ" = some (.jnum pz) ∧
    Rec.find? (cleanLayerWith layer matched) "MaxOfMaxZ" = some (.jnum (qAdd pz h)) := by
  rw [cleanLayerWith_geom_find? layer matched "Position Z" (by decide) (by decide) (by decide)
    (by decide) (by decide) (by decide) (by decide) (by decide) (by decide) (by decide)
    (by decide) (by decide) (by decide)] at hpz
  rw [cleanLayerWith_geom_find? layer matched "Height" (by decide) (by decide) (by decide)
    (by decide) (by decide) (by decide) (by decide) (by decide) (by decide) (by decide)
    (by decide) (by decide) (by decide)] at hh
  have hz : Rec.getN (((matched.map collectGeometry).find? (fun g => !g.isEmpty)).getD [])
      "Position Z" = .jnum pz := by unfold Rec.getN; rw [hpz]; rfl
  have hhg : Rec.getN (((matched.map collectGeometry).find? (fun g => !g.isEmpty)).getD [])
      "Height" = .jnum h := by unfold Rec.getN; rw [hh]; rfl
  rw [cleanLayerWith_def]
  exact pipeline_z _ _ pz h hz hhg

def c6layer : Rec := [("Category/Class", .jstr "Layer"), ("Item.Layer", .jstr "L1")]

def c6solid : Rec := [("Category/Class", .jstr "3D Solid"), ("Item.Layer", .jstr "L1"),
  ("AutoCAD Geometry.Position X", .jstr "10"), ("AutoCAD Geometry.Length", .jstr "4"),
  ("AutoCAD Geometry.Position Y", .jstr "5"), ("AutoCAD Geometry.Width", .jstr "2"),
  ("AutoCAD Geometry.Position Z", .jstr "0"), ("AutoCAD Geometry.Height", .jstr "1")]

def c6recs : List Rec := [c6layer, c6solid]

def c6out : Rec := (cleanData c6recs).headD []

end PySeq

namespace PySeq

/-- C6: for every record emitted by the Clean stage whose `Position X` and
`Length` (resp. `Position Y`/`Width`, `Position Z`/`Height`) fields are
numbers, the bounding-box fields satisfy `MinOfMinX = Position X - Length/2`
and `MaxOfMaxX = Position X + Length/2` (so `MaxOfMaxX - MinOfMinX = Length`
exactly, hence certainly to within `1e-9`), symmetrically for Y with `Width`,
while Z is asymmetric: `MinOfMinZ = Position Z` and
`MaxOfMaxZ = Position Z + Height`. -/
theorem clean_bbox_c6 (records : List Rec) (out : Rec) (hout : out ∈ cleanData records) :
    (∀ px l : ℚ, Rec.find? out "Position X" = some (.jnum px) →
      Rec.find? out "Length" = some (.jnum l) →
      Rec.find? out "MinOfMinX" = some (.jnum (px - l / 2)) ∧
      Rec.find? out "MaxOfMaxX" = some (.jnum (px + l / 2)) ∧
      |(px + l / 2) - (px - l / 2) - l| < 1 / 1000000000) ∧
    (∀ py w : ℚ, Rec.find? out "Position Y" = some (.jnum py) →
      Rec.find? out "Width" = some (.jnum w) →
      Rec.find? out "MinOfMinY" = some (.jnum (py - w / 2)) ∧
      Rec.find? out "MaxOfMaxY" = some (.jnum (py + w / 2)) ∧
      |(py + w / 2) - (py - w / 2) - w| < 1 / 1000000000) ∧
    (∀ pz h : ℚ, Rec.find? out "Position Z" = some (.jnum pz) →
      Rec.find? out "Height" = some (.jnum h) →
      Rec.find? out "MinOfMinZ" = some (.jnum pz) ∧
      Rec.find? out "MaxOfMaxZ" = some (.jnum (pz + h)) ∧
      |(pz + h) - pz - h| < 1 / 1000000000) := by
  simp only [cleanData] at hout
  obtain ⟨layer, -, hlay⟩ := List.mem_map.1 hout
  rw [← hlay]
  refine ⟨?_, ?_, ?_⟩
  · intro px l hpx hl
    have h := cleanLayerWith_bbox_x layer _ px l hpx hl
    rw [qSub_eq, qDiv_eq, qAdd_eq] at h
    refine ⟨h.1, h.2, ?_⟩
    have hz : (px + l / 2) - (px - l / 2) - l = 0 := by ring
    rw [hz]
    norm_num
  · intro py w hpy hw
    have h := cleanLayerWith_bbox_y layer _ py w hpy hw
    rw [qSub_eq, qDiv_eq, qAdd_eq] at h
    refine ⟨h.1, h.2, ?_⟩
    have hz : (py + w / 2) - (py - w / 2) - w = 0 := by ring
    rw [hz]
    norm_num
  · intro pz hq hpz hh
    have h := cleanLayerWith_bbox_z layer _ pz hq hpz hh
    rw [qAdd_eq] at h
    refine ⟨h.1, h.2, ?_⟩
    have hz : (pz + hq) - pz - hq = 0 := by ring
    rw [hz]
    norm_num

theorem clean_bbox_c6_witness :
    ((10 : ℚ) + 4 / 2) - (10 - 4 / 2) = 4 ∧
    Rec.find? c6out "MinOfMinX" = some (.jnum ((10 : ℚ) - 4 / 2)) ∧
    Rec.find? c6out "MaxOfMaxX" = some (.jnum ((10 : ℚ) + 4 / 2)) ∧
    Rec.find? c6out "MinOfMinY" = some (.jnum ((5 : ℚ) - 2 / 2)) ∧
    Rec.find? c6out "MaxOfMaxY" = some (.jnum ((5 : ℚ) + 2 / 2)) ∧
    Rec.find? c6out "MinOfMinZ" = some (.jnum (0 : ℚ)) ∧
    Rec.find? c6out "MaxOfMaxZ" = some (.jnum ((0 : ℚ) + 1)) := by
  have hx := (clean_bbox_c6 c6recs c6out (by decide)).1 10 4 (by decide) (by decide)
  have hy := (clean_bbox_c6 c6recs c6out (by decide)).2.1 5 2 (by decide) (by decide)
  have hz := (clean_bbox_c6 c6recs c6out (by decide)).2.2 0 1 (by decide) (by decide)
  exact ⟨by norm_num, hx.1, hx.2.1, hy.1, hy.2.1, hz.1, hz.2.1⟩

end PySeq
namespace PySeq

/-- Spec-side description of the solids matched to a layer: the solids, in
input order, whose normalized layer key is non-empty and equals the layer's
normalized key. -/
def matchedSolidsSpec (solids : List Rec) (key : String) : List Rec :=
  solids.filter (fun s =>
    match normKeyOpt (layerKeyFromRecord s) with
    | none => false
    | some k => !(k == "") && k == key)

theorem lookupGroup_groupAdd (m : List (String × List α)) (k : String) (x : α) (key : String) :
    lookupGroup (groupAdd m k x) key =
      if key == k then lookupGroup m key ++ [x] else lookupGroup m key := by
  induction m with
  | nil =>
      by_cases h : key = k
      · subst h
        simp [lookupGroup, groupAdd]
      · simp [lookupGroup, groupAdd, h, Ne.symm h]
  | cons kv rest ih =>
      obtain ⟨k', l⟩ := kv
      by_cases h1 : k' = k
      · subst h1
        by_cases h2 : key = k'
        · subst h2
          simp [lookupGroup, groupAdd]
        · simp [lookupGroup, groupAdd, h2, Ne.symm h2]
      · have hskip : ∀ (m' : List (String × List α)),
            lookupGroup ((k', l) :: m') key = if key = k' then l else lookupGroup m' key := by
          intro m'
          by_cases h2 : key = k'
          · subst h2
            simp [lookupGroup]
          · simp [lookupGroup, Ne.symm h2, h2]
        simp only [groupAdd, if_neg (by simpa using h1 : ¬(k' == k) = true)]
        rw [hskip, hskip]
        by_cases h2 : key = k'
        · subst h2
          rw [if_pos rfl, if_pos rfl, if_neg (by simpa using h1)]
        · rw [if_neg h2, if_neg h2, ih]

theorem lookupGroup_buildIndex (solids : List Rec) :
    ∀ (m : List (String × List Rec)) (key : String),
    lookupGroup (solids.foldl (fun m s =>
        match normKeyOpt (layerKeyFromRecord s) with
        | none => m
        | some k => if k == "" then m else groupAdd m k s) m) key =
      lookupGroup m key ++ matchedSolidsSpec solids key := by
  induction solids with
  | nil => intro m key; simp [matchedSolidsSpec]
  | cons s rest ih =>
      intro m key
      rw [List.foldl_cons]
      cases hk : normKeyOpt (layerKeyFromRecord s) with
      | none =>
          simp only [hk]
          rw [ih]
          simp only [matchedSolidsSpec, List.filter_cons, hk]
          rfl
      | some k =>
          by_cases hke : k = ""
          · subst hke
            simp only [hk]
            rw [if_pos (by simp), ih]
            simp only [matchedSolidsSpec, List.filter_cons, hk]
            norm_num
          · simp only [hk]
            rw [if_neg (by simpa using hke), ih, lookupGroup_groupAdd]
            have hdrop : ∀ b, (if b = true then lookupGroup m key ++ [s] else lookupGroup m key)
                = lookupGroup m key ++ (if b = true then [s] else []) := by
              intro b
              cases b <;> simp
            by_cases hkey : key = k
            · subst hkey
              rw [if_pos (by simp)]
              simp only [matchedSolidsSpec, List.filter_cons, hk]
              rw [if_pos (by simp [hke])]
              simp [matchedSolidsSpec]
            · rw [if_neg (by simpa using hkey)]
              simp only [matchedSolidsSpec, List.filter_cons, hk]
              rw [if_neg (by simp [hke]; exact fun h => hkey h.symm)]

end PySeq
namespace PySeq

/-- C4 (amended): every cleaned record is the layer record paired with the
list of ALL solids whose non-empty normalized layer key equals the layer's,
in input order; the flattened geometry fields come from the FIRST solid of
that list whose collected geometry is non-empty (not necessarily the first
matching solid). -/
theorem clean_first_nonempty_solid_c4 (records : List Rec) (out : Rec)
    (hout : out ∈ cleanData records) :
    ∃ layer ∈ records.filter (fun r => catClassIs r "layer"),
      out = cleanLayerWith layer (matchedSolidsSpec
        (records.filter (fun r => catClassIs r "3d solid"))
        ((normKeyOpt (layerKeyFromRecord layer)).getD "")) ∧
      ∀ k : String, k ∉ (["Element Name", "CWA", "GUID", "X Coordinate", "Y Coordinate",
          "Z Coordinate", "Volume", "MinOfMinX", "MaxOfMaxX", "MinOfMinY", "MaxOfMaxY",
          "MinOfMinZ", "MaxOfMaxZ"] : List String) →
        Rec.find? out k = Rec.find? ((((matchedSolidsSpec
          (records.filter (fun r => catClassIs r "3d solid"))
          ((normKeyOpt (layerKeyFromRecord layer)).getD "")).map collectGeometry).find?
            (fun g => !g.isEmpty)).getD []) k := by
  simp only [cleanData] at hout
  obtain ⟨layer, hmem, hlay⟩ := List.mem_map.1 hout
  have hrw : out = cleanLayerWith layer (matchedSolidsSpec
      (records.filter (fun r => catClassIs r "3d solid"))
      ((normKeyOpt (layerKeyFromRecord layer)).getD "")) := by
    rw [← hlay]
    unfold cleanLayer
    rw [lookupGroup_buildIndex]
    rfl
  refine ⟨layer, hmem, hrw, ?_⟩
  intro k hk
  have hne : ∀ s ∈ (["Element Name", "CWA", "GUID", "X Coordinate", "Y Coordinate",
      "Z Coordinate", "Volume", "MinOfMinX", "MaxOfMaxX", "MinOfMinY", "MaxOfMaxY",
      "MinOfMinZ", "MaxOfMaxZ"] : List String), k ≠ s := fun s hs h => hk (h ▸ hs)
  rw [hrw]
  exact cleanLayerWith_geom_find? layer _ k
    (hne _ (by simp)) (hne _ (by simp)) (hne _ (by simp)) (hne _ (by simp))
    (hne _ (by simp)) (hne _ (by simp)) (hne _ (by simp)) (hne _ (by simp))
    (hne _ (by simp)) (hne _ (by simp)) (hne _ (by simp)) (hne _ (by simp))
    (hne _ (by simp))

def c4layer : Rec := [("Category/Class", .jstr "Layer"), ("Item.Layer", .jstr "L1")]

/-- A solid whose only geometry-prefixed key is the excluded `Solid Type`,
so its collected geometry is empty. -/
def c4solid1 : Rec := [("Category/Class", .jstr "3D Solid"), ("Item.Layer", .jstr "L1"),
  ("AutoCAD Geometry.Solid Type", .jstr "3D Solid")]

def c4solid2 : Rec := [("Category/Class", .jstr "3D Solid"), ("Item.Layer", .jstr "L1"),
  ("AutoCAD Geometry.Length", .jstr "4")]

def c4recs : List Rec := [c4layer, c4solid1, c4solid2]

theorem clean_first_solid_c4_counterexample :
    matchedSolidsSpec [c4solid1, c4solid2] ((normKeyOpt (layerKeyFromRecord c4layer)).getD "")
      = [c4solid1, c4solid2] ∧
    collectGeometry c4solid1 = [] ∧
    Rec.find? ((cleanData c4recs).headD []) "Length" = some (.jnum 4) := by
  decide

theorem clean_first_nonempty_solid_c4_witness :
    ∃ layer ∈ List.filter (fun r => catClassIs r "layer") c4recs,
      (cleanData c4recs).headD [] = cleanLayerWith layer (matchedSolidsSpec
        (List.filter (fun r => catClassIs r "3d solid") c4recs)
        ((normKeyOpt (layerKeyFromRecord layer)).getD "")) ∧
      ∀ k : String, k ∉ (["Element Name", "CWA", "GUID", "X Coordinate", "Y Coordinate",
          "Z Coordinate", "Volume", "MinOfMinX", "MaxOfMaxX", "MinOfMinY", "MaxOfMaxY",
          "MinOfMinZ", "MaxOfMaxZ"] : List String) →
        Rec.find? ((cleanData c4recs).headD []) k = Rec.find? ((((matchedSolidsSpec
          (List.filter (fun r => catClassIs r "3d solid") c4recs)
          ((normKeyOpt (layerKeyFromRecord layer)).getD "")).map collectGeometry).find?
            (fun g => !g.isEmpty)).getD []) k :=
  clean_first_nonempty_solid_c4 c4recs _ (by decide)

end PySeq
namespace PySeq

def strippedCwa (r : Rec) : String :=
  String.mk (myTrim (pyStr (orChain [Rec.getN r "CWA", .jstr ""])).data)

def curTypeOf (r : Rec) : JVal := orChain [Rec.getN r "Type", .jstr ""]

/-- The at-most-one edge a record contributes for one rule. -/
def edgeForRule (idx : List (ℕ × Rec)) (ir : ℕ × Rec) (rule : SRule) : Option Rec :=
  match selectBest idx ir.1 (getBox ir.2) (safeFloat (Rec.getN ir.2 "MinOfMinZ")) rule with
  | some nm => if nm.truthy then some (mkEdge (Rec.getN ir.2 "Element Name") nm) else none
  | none => none

theorem foldl_append_eq (f : β → List α) (l : List β) :
    ∀ acc : List α, l.foldl (fun a b => a ++ f b) acc = acc ++ l.flatMap f := by
  induction l with
  | nil => intro acc; simp
  | cons b rest ih => intro acc; simp [ih, List.flatMap_cons]

theorem mem_foldl_append {f : β → List α} {l : List β} {e : α} {acc : List α}
    (h : e ∈ l.foldl (fun a b => a ++ f b) acc) : e ∈ acc ∨ ∃ b ∈ l, e ∈ f b := by
  rw [foldl_append_eq] at h
  rcases List.mem_append.1 h with h | h
  · exact Or.inl h
  · obtain ⟨b, hb, he⟩ := List.mem_flatMap.1 h
    exact Or.inr ⟨b, hb, he⟩

theorem groupAdd_pres {P : String × List α → Prop} {m : List (String × List α)} {k : String} {x : α}
    (hm : ∀ kg ∈ m, P kg) (hnew : P (k, [x]))
    (hext : ∀ l, P (k, l) → P (k, l ++ [x])) :
    ∀ kg ∈ groupAdd m k x, P kg := by
  induction m with
  | nil =>
      intro kg hkg
      simp only [groupAdd, List.mem_singleton] at hkg
      exact hkg ▸ hnew
  | cons kv rest ih =>
      obtain ⟨k', l⟩ := kv
      intro kg hkg
      by_cases h1 : k' = k
      · subst h1
        simp only [groupAdd, beq_self_eq_true, if_true] at hkg
        rcases List.mem_cons.1 hkg with h | h
        · exact h ▸ hext l (hm _ (List.mem_cons_self _ _))
        · exact hm _ (List.mem_cons_of_mem _ h)
      · simp only [groupAdd, if_neg (by simpa using h1 : ¬(k' == k) = true)] at hkg
        rcases List.mem_cons.1 hkg with h | h
        · exact h ▸ hm _ (List.mem_cons_self _ _)
        · exact ih (fun kg' h' => hm _ (List.mem_cons_of_mem _ h')) kg h

/-- Every group built by `compute_sequence` has a non-empty key and holds
only input records whose stripped CWA string is that key. -/
theorem byCwa_good (rs : List Rec) :
    ∀ (l : List Rec) (m : List (String × List Rec)),
    (∀ x ∈ l, x ∈ rs) →
    (∀ kg ∈ m, kg.1 ≠ "" ∧ ∀ r ∈ kg.2, r ∈ rs ∧ strippedCwa r = kg.1) →
    ∀ kg ∈ l.foldl (fun m r0 =>
        if String.mk (myTrim (pyStr (orChain [Rec.getN r0 "CWA", .jstr ""])).data) == "" then m
        else groupAdd m (String.mk (myTrim (pyStr (orChain [Rec.getN r0 "CWA", .jstr ""])).data)) r0) m,
      kg.1 ≠ "" ∧ ∀ r ∈ kg.2, r ∈ rs ∧ strippedCwa r = kg.1 := by
  intro l
  induction l with
  | nil => intro m _ hm kg hkg; exact hm kg hkg
  | cons r0 rest ih =>
      intro m hl hm kg hkg
      rw [List.foldl_cons] at hkg
      refine ih _ (fun x hx => hl x (List.mem_cons_of_mem _ hx)) ?_ kg hkg
      show ∀ kg ∈ (if String.mk (myTrim (pyStr (orChain [Rec.getN r0 "CWA", .jstr ""])).data) == "" then m
          else groupAdd m (String.mk (myTrim (pyStr (orChain [Rec.getN r0 "CWA", .jstr ""])).data)) r0),
        kg.1 ≠ "" ∧ ∀ r ∈ kg.2, r ∈ rs ∧ strippedCwa r = kg.1
      by_cases hc : String.mk (myTrim (pyStr (orChain [Rec.getN r0 "CWA", .jstr ""])).data) = ""
      · rw [if_pos (by simpa using hc)]
        exact hm
      · rw [if_neg (by simpa using hc)]
        refine groupAdd_pres hm ⟨hc, ?_⟩ ?_
        · intro r hr
          rw [List.mem_singleton] at hr
          subst hr
          exact ⟨hl r (List.mem_cons_self _ _), rfl⟩
        · rintro gl ⟨hne, hall⟩
          refine ⟨hne, ?_⟩
          intro r hr
          rcases List.mem_append.1 hr with h | h
          · exact hall r h
          · rw [List.mem_singleton] at h
            subst h
            exact ⟨hl r (List.mem_cons_self _ _), rfl⟩

end PySeq
namespace PySeq

/-- The body of the best-candidate fold of `_sequence_group`. -/
def selectStep (i : ℕ) (curBox : Option Box) (curMinz : Option ℚ) (rule : SRule)
    (best : ℚ × Option JVal) (jc : ℕ × Rec) : ℚ × Option JVal :=
  if jc.1 == i then best
  else if normType (Rec.getN jc.2 "Type") != normTypeS rule.type then best
  else
    let candBox := getBox jc.2
    let candMaxz := safeFloat (Rec.getN jc.2 "MaxOfMaxZ")
    if !seqChecksPass rule curBox candBox curMinz candMaxz then best
    else
      let score := seqScore rule curBox candBox curMinz candMaxz
      if score > best.1 then (score, some (Rec.getN jc.2 "Element Name")) else best

theorem selectBest_eq (idx : List (ℕ × Rec)) (i : ℕ) (curBox : Option Box)
    (curMinz : Option ℚ) (rule : SRule) :
    selectBest idx i curBox curMinz rule =
      (idx.foldl (selectStep i curBox curMinz rule) (-1, none)).2 := rfl

theorem selectStep_cases (i : ℕ) (curBox : Option Box) (curMinz : Option ℚ) (rule : SRule)
    (best : ℚ × Option JVal) (jc : ℕ × Rec) :
    selectStep i curBox curMinz rule best jc = best ∨
    (jc.1 ≠ i ∧ normType (Rec.getN jc.2 "Type") = normTypeS rule.type ∧
     seqChecksPass rule curBox (getBox jc.2) curMinz (safeFloat (Rec.getN jc.2 "MaxOfMaxZ")) = true ∧
     selectStep i curBox curMinz rule best jc =
       (seqScore rule curBox (getBox jc.2) curMinz (safeFloat (Rec.getN jc.2 "MaxOfMaxZ")),
        some (Rec.getN jc.2 "Element Name"))) := by
  by_cases h1 : jc.1 = i
  · left
    simp [selectStep, h1]
  · by_cases h2 : normType (Rec.getN jc.2 "Type") = normTypeS rule.type
    · by_cases h3 : seqChecksPass rule curBox (getBox jc.2) curMinz
          (safeFloat (Rec.getN jc.2 "MaxOfMaxZ")) = true
      · by_cases h4 : seqScore rule curBox (getBox jc.2) curMinz
            (safeFloat (Rec.getN jc.2 "MaxOfMaxZ")) > best.1
        · right
          refine ⟨h1, h2, h3, ?_⟩
          simp [selectStep, h1, h2, h3, h4]
        · left
          simp [selectStep, h1, h2, h3, h4]
      · left
        simp [selectStep, h1, h2, h3]
    · left
      simp [selectStep, h1, h2]

theorem selectBest_fold_sound (i : ℕ) (curBox : Option Box) (curMinz : Option ℚ)
    (rule : SRule) (nm : JVal) :
    ∀ (l : List (ℕ × Rec)) (best : ℚ × Option JVal),
    (l.foldl (selectStep i curBox curMinz rule) best).2 = some nm →
    best.2 = some nm ∨ ∃ jc ∈ l, jc.1 ≠ i ∧
      normType (Rec.getN jc.2 "Type") = normTypeS rule.type ∧
      seqChecksPass rule curBox (getBox jc.2) curMinz (safeFloat (Rec.getN jc.2 "MaxOfMaxZ")) = true ∧
      nm = Rec.getN jc.2 "Element Name" := by
  intro l
  induction l with
  | nil => intro best h; exact Or.inl h
  | cons jc rest ih =>
      intro best h
      rw [List.foldl_cons] at h
      rcases ih _ h with h' | ⟨jc', hmem, hp⟩
      · rcases selectStep_cases i curBox curMinz rule best jc with hb | ⟨hne, hty, hck, hb⟩
        · rw [hb] at h'
          exact Or.inl h'
        · rw [hb] at h'
          simp only at h'
          refine Or.inr ⟨jc, List.mem_cons_self _ _, hne, hty, hck, ?_⟩
          exact (Option.some.inj h').symm
      · exact Or.inr ⟨jc', List.mem_cons_of_mem _ hmem, hp⟩

theorem selectBest_sound (idx : List (ℕ × Rec)) (i : ℕ) (curBox : Option Box)
    (curMinz : Option ℚ) (rule : SRule) (nm : JVal)
    (h : selectBest idx i curBox curMinz rule = some nm) :
    ∃ jc ∈ idx, jc.1 ≠ i ∧
      normType (Rec.getN jc.2 "Type") = normTypeS rule.type ∧
      seqChecksPass rule curBox (getBox jc.2) curMinz (safeFloat (Rec.getN jc.2 "MaxOfMaxZ")) = true ∧
      nm = Rec.getN jc.2 "Element Name" := by
  rw [selectBest_eq] at h
  rcases selectBest_fold_sound i curBox curMinz rule nm idx (-1, none) h with h' | hex
  · exact absurd h' (by simp)
  · exact hex

theorem findSome?_some {f : α → Option β} {b : β} :
    ∀ {l : List α}, l.findSome? f = some b → ∃ a ∈ l, f a = some b := by
  intro l
  induction l with
  | nil => intro h; simp [List.findSome?] at h
  | cons a rest ih =>
      intro h
      rw [List.findSome?_cons] at h
      cases hf : f a with
      | some b' =>
          rw [hf] at h
          exact ⟨a, List.mem_cons_self _ _, hf.trans h⟩
      | none =>
          rw [hf] at h
          obtain ⟨a', ha', hfa⟩ := ih h
          exact ⟨a', List.mem_cons_of_mem _ ha', hfa⟩

theorem defaultRulePair_norm (cur : JVal) (pred : String) (r : SRule)
    (h : defaultRulePair cur pred = some r) : normTypeS r.type = normTypeS pred := by
  unfold defaultRulePair at h
  obtain ⟨kl, _, hkl⟩ := findSome?_some h
  by_cases hc : normTypeS kl.1 == normType cur
  · rw [if_pos hc] at hkl
    have := List.find?_some hkl
    simpa using this
  · rw [if_neg hc] at hkl
    exact absurd hkl (by simp)

theorem defaultRules_snd_pairwise :
    ∀ kv ∈ defaultRules, kv.2.Pairwise (fun r1 r2 => normTypeS r1.type ≠ normTypeS r2.type) := by
  decide

theorem defaultGet_pairwise (t : JVal) :
    (defaultGet t).Pairwise (fun r1 r2 => normTypeS r1.type ≠ normTypeS r2.type) := by
  cases t with
  | jstr s =>
      show List.Pairwise _ ((Option.map (fun x => x.2)
        (List.find? (fun kv => kv.1 == s) defaultRules)).getD [])
      cases hf : List.find? (fun kv => kv.1 == s) defaultRules with
      | none => simp
      | some kv =>
          simpa using defaultRules_snd_pairwise kv (List.mem_of_find?_eq_some hf)
  | jnull => exact List.Pairwise.nil
  | jbool b => exact List.Pairwise.nil
  | jnum q => exact List.Pairwise.nil
  | jarr l => exact List.Pairwise.nil
  | jobj o => exact List.Pairwise.nil

/-- The rule list chosen for any record type never names the same
normalized predecessor type twice. -/
theorem ruleListFor_pairwise (typeRules : Option Rec) (t : JVal) :
    (ruleListFor typeRules t).Pairwise (fun r1 r2 => normTypeS r1.type ≠ normTypeS r2.type) := by
  have hmap : ∀ ps : List JVal, ((dedupPreds ps).map (fun pname =>
      match defaultRulePair t pname with
      | some base => base
      | none => ⟨pname, some (mkRat 8 10), none⟩)).Pairwise
        (fun r1 r2 => normTypeS r1.type ≠ normTypeS r2.type) := by
    intro ps
    have hnd := (dedup_aux ps [] [] rfl List.nodup_nil).1
    rw [← dedupPreds_eq_foldl] at hnd
    rw [List.pairwise_map]
    have hpair : (dedupPreds ps).Pairwise (fun a b => normTypeS a ≠ normTypeS b) :=
      List.pairwise_map.1 hnd
    refine hpair.imp ?_
    intro a b hab
    have hnorm : ∀ c : String, normTypeS (match defaultRulePair t c with
        | some base => base
        | none => (⟨c, some (mkRat 8 10), none⟩ : SRule)).type = normTypeS c := by
      intro c
      cases hd : defaultRulePair t c with
      | some base => simpa using defaultRulePair_norm t c base hd
      | none => rfl
    rw [hnorm a, hnorm b]
    exact hab
  have hgen : ∀ d : Option JVal, List.Pairwise
      (fun (r1 r2 : SRule) => normTypeS r1.type ≠ normTypeS r2.type)
      (match d with
      | some (.jarr ps) => (dedupPreds ps).map (fun pname =>
          match defaultRulePair t pname with
          | some base => base
          | none => ⟨pname, some (mkRat 8 10), none⟩)
      | _ => defaultGet t) := by
    intro d
    rcases d with _ | v
    · exact defaultGet_pairwise t
    · cases v with
      | jarr ps => exact hmap ps
      | jnull => exact defaultGet_pairwise t
      | jbool b => exact defaultGet_pairwise t
      | jnum q => exact defaultGet_pairwise t
      | jstr s => exact defaultGet_pairwise t
      | jobj o => exact defaultGet_pairwise t
  cases typeRules with
  | none => exact defaultGet_pairwise t
  | some tr => exact hgen _

end PySeq
namespace PySeq

/-- `_sequence_group` emits, record by record, at most one edge per rule of
the record's rule list. -/
theorem seqGroup_eq (g : List Rec) (tr : Option Rec) :
    seqGroup g tr = g.enum.flatMap (fun ir =>
      (ruleListFor tr (curTypeOf ir.2)).filterMap (edgeForRule g.enum ir)) := by
  unfold seqGroup
  rw [foldl_append_eq]
  rfl

def c2recA : Rec := [("Element Name", .jstr "A"), ("CWA", .jstr " X"), ("Type", .jstr "CONCRETE"),
  ("MinOfMinX", .jnum 0), ("MaxOfMaxX", .jnum 10), ("MinOfMinY", .jnum 0), ("MaxOfMaxY", .jnum 10),
  ("MinOfMinZ", .jnum 0), ("MaxOfMaxZ", .jnum 10)]

def c2recB : Rec := [("Element Name", .jstr "B"), ("CWA", .jstr "X"), ("Type", .jstr "Grout"),
  ("MinOfMinX", .jnum 0), ("MaxOfMaxX", .jnum 10), ("MinOfMinY", .jnum 0), ("MaxOfMaxY", .jnum 10),
  ("MinOfMinZ", .jnum 10), ("MaxOfMaxZ", .jnum 20)]

/-- C2 (amended): every edge the Sequence stage emits joins two records of
one group keyed by the non-empty STRIPPED string form of their CWA values
(raw CWA values may differ); the predecessor's NORMALIZED type equals the
rule's normalized type (raw type names may differ from the allowed list);
the rule's spatial checks pass; the winner's name is truthy; the group's
edges are one `filterMap` per record over its rule list (so at most one
edge per rule), and the rule list never repeats a normalized type. -/
theorem sequence_edges_c2 (durRecs : List Rec) (typeRules : Option Rec) (e : Rec)
    (he : e ∈ computeSequence durRecs typeRules) :
    ∃ (cwa : String) (g : List Rec), cwa ≠ "" ∧
      (∀ r ∈ g, r ∈ durRecs ∧ strippedCwa r = cwa) ∧
      seqGroup g typeRules = g.enum.flatMap (fun ir =>
        (ruleListFor typeRules (curTypeOf ir.2)).filterMap (edgeForRule g.enum ir)) ∧
      ∃ ip ∈ g.enum,
        (ruleListFor typeRules (curTypeOf ip.2)).Pairwise
          (fun r1 r2 => normTypeS r1.type ≠ normTypeS r2.type) ∧
        ∃ rule ∈ ruleListFor typeRules (curTypeOf ip.2),
        ∃ jp ∈ g.enum, jp.1 ≠ ip.1 ∧
          normType (Rec.getN jp.2 "Type") = normTypeS rule.type ∧
          seqChecksPass rule (getBox ip.2) (getBox jp.2)
            (safeFloat (Rec.getN ip.2 "MinOfMinZ")) (safeFloat (Rec.getN jp.2 "MaxOfMaxZ")) = true ∧
          (Rec.getN jp.2 "Element Name").truthy = true ∧
          e = mkEdge (Rec.getN ip.2 "Element Name") (Rec.getN jp.2 "Element Name") := by
  simp only [computeSequence] at he
  rcases mem_foldl_append he with h | ⟨kg, hkg, hein⟩
  · exact absurd h (List.not_mem_nil e)
  have hgood := byCwa_good durRecs durRecs [] (fun x hx => hx)
    (fun kg h => absurd h (List.not_mem_nil _)) kg hkg
  obtain ⟨hnek, hall⟩ := hgood
  rw [seqGroup_eq] at hein
  obtain ⟨ip, hip, hmem2⟩ := List.mem_flatMap.1 hein
  obtain ⟨rule, hrule, hedge⟩ := List.mem_filterMap.1 hmem2
  unfold edgeForRule at hedge
  cases hsel : selectBest kg.2.enum ip.1 (getBox ip.2)
      (safeFloat (Rec.getN ip.2 "MinOfMinZ")) rule with
  | none => rw [hsel] at hedge; exact absurd hedge (by simp)
  | some nm =>
      rw [hsel] at hedge
      have hedge2 : (if nm.truthy = true then some (mkEdge (Rec.getN ip.2 "Element Name") nm)
          else none) = some e := hedge
      by_cases htr : nm.truthy
      · rw [if_pos htr] at hedge2
        obtain ⟨jp, hjp, hnej, hty, hck, hnm⟩ := selectBest_sound _ _ _ _ _ _ hsel
        refine ⟨kg.1, kg.2, hnek, hall, seqGroup_eq kg.2 typeRules, ip, hip,
          ruleListFor_pairwise _ _, rule, hrule, jp, hjp, hnej, hty, hck, ?_, ?_⟩
        · rw [← hnm]; exact htr
        · rw [← hnm]
          exact (Option.some.inj hedge2).symm
      · rw [if_neg htr] at hedge2
        exact absurd hedge2 (by simp)

theorem sequence_raw_cwa_c2_counterexample :
    Rec.getN c2recA "CWA" ≠ Rec.getN c2recB "CWA" ∧
    Rec.getN c2recA "Type" = .jstr "CONCRETE" ∧
    (defaultGet (Rec.getN c2recB "Type")).map SRule.type = ["Concrete"] ∧
    computeSequence [c2recA, c2recB] none =
      [[("ScheduleActivityID", .jstr "B"), ("Predecessor", .jstr "A"),
        ("Rel", .jstr "FS"), ("TaskType", .jstr "Construct")]] := by
  decide

theorem sequence_edges_c2_witness :
    ∃ (cwa : String) (g : List Rec), cwa ≠ "" ∧
      (∀ r ∈ g, r ∈ [c2recA, c2recB] ∧ strippedCwa r = cwa) ∧
      seqGroup g none = g.enum.flatMap (fun ir =>
        (ruleListFor none (curTypeOf ir.2)).filterMap (edgeForRule g.enum ir)) ∧
      ∃ ip ∈ g.enum,
        (ruleListFor none (curTypeOf ip.2)).Pairwise
          (fun r1 r2 => normTypeS r1.type ≠ normTypeS r2.type) ∧
        ∃ rule ∈ ruleListFor none (curTypeOf ip.2),
        ∃ jp ∈ g.enum, jp.1 ≠ ip.1 ∧
          normType (Rec.getN jp.2 "Type") = normTypeS rule.type ∧
          seqChecksPass rule (getBox ip.2) (getBox jp.2)
            (safeFloat (Rec.getN ip.2 "MinOfMinZ")) (safeFloat (Rec.getN jp.2 "MaxOfMaxZ")) = true ∧
          (Rec.getN jp.2 "Element Name").truthy = true ∧
          ([("ScheduleActivityID", .jstr "B"), ("Predecessor", .jstr "A"),
            ("Rel", .jstr "FS"), ("TaskType", .jstr "Construct")] : Rec) =
            mkEdge (Rec.getN ip.2 "Element Name") (Rec.getN jp.2 "Element Name") :=
  sequence_edges_c2 [c2recA, c2recB] none _ (by decide)

end PySeq
namespace PySeq

theorem volumeForRecord_nonneg (rec : Rec) : 0 ≤ volumeForRecord rec := by
  unfold volumeForRecord
  split
  · exact le_max_left 0 _
  · split
    · exact le_max_left 0 _
    · split
      · exact le_max_left 0 _
      · exact le_refl 0

theorem pypow_nonneg (rpow : ℚ → ℚ → ℚ) (x beta : ℚ) (hx : 0 ≤ x) :
    pypow rpow x beta = .real (rpow x beta) := by
  unfold pypow
  rw [if_neg]
  have hd : decide (x < 0) = false := decide_eq_false (not_lt.2 hx)
  simp [hd]

theorem qDiv_nonneg (a b : ℚ) (ha : 0 ≤ a) (hb : 0 < b) : 0 ≤ qDiv a b := by
  rw [qDiv_eq]
  exact div_nonneg ha (le_of_lt hb)

theorem denom_pos (sm : ℚ) : (0:ℚ) < (if sm > 0 then sm else 1) := by
  split
  · assumption
  · norm_num

/-- Every record the second pass outputs carries a numeric `Duration`. -/
theorem durationFor_ok_duration (rpow : ℚ → ℚ → ℚ) (ttm : List (String × ℚ)) (sm : ℚ)
    (rec : Rec) (out : Rec) (h : durationFor rpow ttm sm (.jobj rec) = .ok out) :
    ∃ q, Rec.find? out "Duration" = some (.jnum q) := by
  simp only [durationFor] at h
  split at h
  · exact absurd h (by simp)
  · injection h with h2
    exact ⟨_, h2 ▸ Rec.find?_set_self _ _ _⟩

/-- One record of the second duration pass: with the nonnegative-metric
precondition it succeeds, except when a non-Set activity's type has no
install exponent. -/
theorem durationFor_cases (rpow : ℚ → ℚ → ℚ) (ttm : List (String × ℚ)) (sm : ℚ) (rec : Rec)
    (hmet : isSetActivity (Rec.getN rec "Element Name") = false →
      0 ≤ installMetric (extractActivityType (Rec.getN rec "Element Name")) rec
        (volumeForRecord rec)) :
    (∃ out, durationFor rpow ttm sm (.jobj rec) = .ok out) ∨
    (isSetActivity (Rec.getN rec "Element Name") = false ∧
     tLookup INSTALL_EXPONENTS (extractActivityType (Rec.getN rec "Element Name")) = none ∧
     durationFor rpow ttm sm (.jobj rec) = .error (.missingExp
       (if extractActivityType (Rec.getN rec "Element Name") == "" then "UNKNOWN"
        else extractActivityType (Rec.getN rec "Element Name")))) := by
  cases hset : isSetActivity (Rec.getN rec "Element Name") with
  | true =>
      left
      have hd := denom_pos sm
      have hx : 0 ≤ qDiv (volumeForRecord rec) (if sm > 0 then sm else 1) :=
        qDiv_nonneg _ _ (volumeForRecord_nonneg rec) hd
      simp only [durationFor, hset, if_true]
      split
      · rename_i e heq
        rw [if_pos hd, pypow_nonneg rpow _ _ hx] at heq
        simp [pymul, clampDur] at heq
      · exact ⟨_, rfl⟩
  | false =>
      cases hexp : tLookup INSTALL_EXPONENTS (extractActivityType (Rec.getN rec "Element Name")) with
      | none =>
          right
          refine ⟨rfl, rfl, ?_⟩
          simp only [durationFor, hset, Bool.false_eq_true, if_false, hexp]
      | some beta =>
          left
          have hd := denom_pos ((tLookup ttm (extractActivityType (Rec.getN rec "Element Name"))).getD 0)
          have hx : 0 ≤ qDiv (installMetric (extractActivityType (Rec.getN rec "Element Name")) rec
              (volumeForRecord rec))
              (if (tLookup ttm (extractActivityType (Rec.getN rec "Element Name"))).getD 0 > 0 then
                (tLookup ttm (extractActivityType (Rec.getN rec "Element Name"))).getD 0 else 1) :=
            qDiv_nonneg _ _ (hmet hset) hd
          simp only [durationFor, hset, Bool.false_eq_true, if_false, hexp]
          split
          · rename_i e heq
            rw [if_pos hd, pypow_nonneg rpow _ _ hx] at heq
            simp [pymul, clampDur] at heq
          · exact ⟨_, rfl⟩

end PySeq
namespace PySeq

theorem durPass1_ok (xs : List JVal) : ∀ acc, (∀ x ∈ xs, ∃ r, x = .jobj r) →
    ∃ res, durPass1 acc xs = .ok res := by
  induction xs with
  | nil => intro acc _; exact ⟨acc, rfl⟩
  | cons x rest ih =>
      intro acc hobj
      obtain ⟨r, rfl⟩ := hobj x (List.mem_cons_self _ _)
      simp only [durPass1]
      split
      · exact ih _ (fun y hy => hobj y (List.mem_cons_of_mem _ hy))
      · split
        · exact ih _ (fun y hy => hobj y (List.mem_cons_of_mem _ hy))
        · exact ih _ (fun y hy => hobj y (List.mem_cons_of_mem _ hy))

theorem durPass2_cases (rpow : ℚ → ℚ → ℚ) (ttm : List (String × ℚ)) (sm : ℚ) (xs : List JVal)
    (hobj : ∀ x ∈ xs, ∃ r, x = .jobj r)
    (hmet : ∀ r : Rec, .jobj r ∈ xs → isSetActivity (Rec.getN r "Element Name") = false →
      0 ≤ installMetric (extractActivityType (Rec.getN r "Element Name")) r (volumeForRecord r)) :
    (∃ outs, durPass2 rpow ttm sm xs = .ok outs ∧
       ∀ o ∈ outs, ∃ q, Rec.find? o "Duration" = some (.jnum q)) ∨
    (∃ r : Rec, .jobj r ∈ xs ∧ isSetActivity (Rec.getN r "Element Name") = false ∧
       tLookup INSTALL_EXPONENTS (extractActivityType (Rec.getN r "Element Name")) = none ∧
       durPass2 rpow ttm sm xs = .error (.missingExp
         (if extractActivityType (Rec.getN r "Element Name") == "" then "UNKNOWN"
          else extractActivityType (Rec.getN r "Element Name")))) := by
  induction xs with
  | nil => exact Or.inl ⟨[], rfl, by simp⟩
  | cons x rest ih =>
      obtain ⟨r, rfl⟩ := hobj x (List.mem_cons_self _ _)
      have hobj' : ∀ y ∈ rest, ∃ r, y = .jobj r :=
        fun y hy => hobj y (List.mem_cons_of_mem _ hy)
      have hmet' : ∀ r : Rec, .jobj r ∈ rest → isSetActivity (Rec.getN r "Element Name") = false →
          0 ≤ installMetric (extractActivityType (Rec.getN r "Element Name")) r (volumeForRecord r) :=
        fun r hr => hmet r (List.mem_cons_of_mem _ hr)
      rcases durationFor_cases rpow ttm sm r
          (hmet r (List.mem_cons_self _ _)) with ⟨out, hout⟩ | ⟨hs, he, herr⟩
      · rcases ih hobj' hmet' with ⟨outs, houts, hdur⟩ | ⟨r', hmem, hs', he', herr'⟩
        · left
          refine ⟨out :: outs, ?_, ?_⟩
          · simp only [durPass2, hout, houts]
          · intro o ho
            rcases List.mem_cons.1 ho with h | h
            · exact h ▸ durationFor_ok_duration rpow ttm sm r out hout
            · exact hdur o h
        · right
          exact ⟨r', List.mem_cons_of_mem _ hmem, hs', he',
            by simp only [durPass2, hout, herr']⟩
      · right
        exact ⟨r, List.mem_cons_self _ _, hs, he, by simp only [durPass2, herr]⟩

end PySeq
namespace PySeq

/-- C9 (amended): the Duration stage 404s exactly when the clean artifact is
absent; a present non-list artifact 422s; when every element is an object
and every non-Set activity's selected metric is nonnegative, the stage
either succeeds or 422s with a missing-exponent error naming the offending
extracted type (or UNKNOWN when extraction yields the empty string).
Outside these preconditions other errors (500-class) are possible. -/
theorem duration_status_c9 (rpow : ℚ → ℚ → ℚ) (fs : FS) :
    (runDurationJob rpow fs = .error .notFound ↔ fs.cleanOutput = none) ∧
    durationStatus .notFound = 404 ∧
    (∀ v, fs.cleanOutput = some v → (∀ xs, v ≠ .jarr xs) →
       runDurationJob rpow fs = .error .notList ∧ durationStatus .notList = 422) ∧
    (∀ xs, fs.cleanOutput = some (.jarr xs) →
      (∀ x ∈ xs, ∃ r, x = .jobj r) →
      (∀ r : Rec, .jobj r ∈ xs → isSetActivity (Rec.getN r "Element Name") = false →
        0 ≤ installMetric (extractActivityType (Rec.getN r "Element Name")) r
          (volumeForRecord r)) →
      ((∃ res, runDurationJob rpow fs = .ok res) ∨
       (∃ r : Rec, .jobj r ∈ xs ∧ isSetActivity (Rec.getN r "Element Name") = false ∧
          tLookup INSTALL_EXPONENTS (extractActivityType (Rec.getN r "Element Name")) = none ∧
          runDurationJob rpow fs = .error (.dur (.missingExp
            (if extractActivityType (Rec.getN r "Element Name") == "" then "UNKNOWN"
             else extractActivityType (Rec.getN r "Element Name")))) ∧
          durationStatus (.dur (.missingExp
            (if extractActivityType (Rec.getN r "Element Name") == "" then "UNKNOWN"
             else extractActivityType (Rec.getN r "Element Name")))) = 422))) := by
  refine ⟨?_, rfl, ?_, ?_⟩
  · cases hco : fs.cleanOutput with
    | none => simp [runDurationJob, hco]
    | some v =>
        unfold runDurationJob
        rw [hco]
        cases v with
        | jarr xs =>
            cases hcd : computeDurations rpow xs with
            | error e => simp [hcd]
            | ok enr =>
                simp only [hcd]
                split <;> simp
        | jnull => simp
        | jbool b => simp
        | jnum q => simp
        | jstr s => simp
        | jobj o => simp
  · intro v hco hnarr
    refine ⟨?_, rfl⟩
    unfold runDurationJob
    rw [hco]
    cases v with
    | jarr xs => exact absurd rfl (hnarr xs)
    | jnull => rfl
    | jbool b => rfl
    | jnum q => rfl
    | jstr s => rfl
    | jobj o => rfl
  · intro xs hco hobj hmet
    have hred : runDurationJob rpow fs =
        match computeDurations rpow xs with
        | .error e => .error (.dur e)
        | .ok enriched =>
            if !((enriched.filter (fun r =>
                !(r.hasKey "Duration") || Rec.getN r "Duration" == .jnull)).isEmpty)
            then .error .missingDuration
            else .ok (enriched.length, enriched,
              { fs with durationOutput := some (.jarr (enriched.map .jobj)) }) := by
      unfold runDurationJob
      rw [hco]
    obtain ⟨res, hres⟩ := durPass1_ok xs ([], []) hobj
    obtain ⟨tv, sv⟩ := res
    have hcd : computeDurations rpow xs =
        durPass2 rpow (tv.map (fun kv => (kv.1, median kv.2))) (median sv) xs := by
      unfold computeDurations
      rw [hres]
    rcases durPass2_cases rpow (tv.map (fun kv => (kv.1, median kv.2))) (median sv) xs hobj hmet
      with ⟨outs, houts, hdur⟩ | ⟨r, hmem, hs, he, herr⟩
    · left
      have hmiss : outs.filter (fun r =>
          !(r.hasKey "Duration") || Rec.getN r "Duration" == .jnull) = [] := by
        rw [List.filter_eq_nil_iff]
        intro o ho
        obtain ⟨q, hq⟩ := hdur o ho
        simp [Rec.hasKey, Rec.getN, hq]
      rw [hcd, houts] at hred
      have hred2 : runDurationJob rpow fs =
          (if !((outs.filter (fun r =>
              !(r.hasKey "Duration") || Rec.getN r "Duration" == .jnull)).isEmpty)
           then Except.error DJErr.missingDuration
           else Except.ok (outs.length, outs,
             { fs with durationOutput := some (.jarr (outs.map .jobj)) })) := hred
      rw [hmiss] at hred2
      exact ⟨_, hred2⟩
    · right
      rw [hcd, herr] at hred
      exact ⟨r, hmem, hs, he, hred.trans rfl, rfl⟩

def c9okRec : Rec := [("Element Name", .jstr "A_Install_Concrete-1"), ("Volume", .jnum 8)]

def c9fsOk : FS := ⟨none, some (.jarr [.jobj c9okRec]), none, none⟩

theorem duration_status_c9_witness :
    (∃ res, runDurationJob (fun _ _ => 1) c9fsOk = .ok res) ∨
    (∃ r : Rec, JVal.jobj r ∈ [JVal.jobj c9okRec] ∧
       isSetActivity (Rec.getN r "Element Name") = false ∧
       tLookup INSTALL_EXPONENTS (extractActivityType (Rec.getN r "Element Name")) = none ∧
       runDurationJob (fun _ _ => 1) c9fsOk = .error (.dur (.missingExp
         (if extractActivityType (Rec.getN r "Element Name") == "" then "UNKNOWN"
          else extractActivityType (Rec.getN r "Element Name")))) ∧
       durationStatus (.dur (.missingExp
         (if extractActivityType (Rec.getN r "Element Name") == "" then "UNKNOWN"
          else extractActivityType (Rec.getN r "Element Name")))) = 422) :=
  (duration_status_c9 (fun _ _ => 1) c9fsOk).2.2.2 [.jobj c9okRec] rfl
    (by intro x hx
        rw [List.mem_singleton] at hx
        exact ⟨c9okRec, hx⟩)
    (by intro r hr hset
        rw [List.mem_singleton] at hr
        injection hr with h2
        subst h2
        decide)

def c9attrFs : FS := ⟨none, some (.jarr [.jnum 5]), none, none⟩

def c9negRec : Rec := [("Element Name", .jstr "A_Install_Piling-1"), ("Volume", .jnum 1),
  ("Height", .jnum (-2))]

def c9negFs : FS := ⟨none, some (.jarr [.jobj c9negRec]), none, none⟩

instance : DecidableEq FS :=
  fun x y =>
    match x, y with
    | ⟨a, b, c, d⟩, ⟨a2, b2, c2, d2⟩ =>
      if h1 : a = a2 then
        if h2 : b = b2 then
          if h3 : c = c2 then
            if h4 : d = d2 then isTrue (by rw [h1, h2, h3, h4])
            else isFalse (fun h => h4 (congrArg FS.depRules h))
          else isFalse (fun h => h3 (congrArg FS.durationOutput h))
        else isFalse (fun h => h2 (congrArg FS.cleanOutput h))
      else isFalse (fun h => h1 (congrArg FS.cleanInput h))

instance : DecidableEq (Except DJErr (ℕ × List Rec × FS)) := fun a b =>
  match a, b with
  | .ok x, .ok y =>
      if h : x = y then .isTrue (by rw [h]) else .isFalse (fun he => h (Except.ok.inj he))
  | .error x, .error y =>
      if h : x = y then .isTrue (by rw [h]) else .isFalse (fun he => h (Except.error.inj he))
  | .ok _, .error _ => .isFalse (fun he => Except.noConfusion he)
  | .error _, .ok _ => .isFalse (fun he => Except.noConfusion he)

theorem duration_500_c9_counterexample :
    runDurationJob (fun _ _ => 1) c9attrFs = .error (.dur .attrError) ∧
    durationStatus (.dur .attrError) = 500 ∧
    runDurationJob (fun _ _ => 1) c9negFs = .error (.dur .typeError) ∧
    durationStatus (.dur .typeError) = 500 := by
  decide

end PySeq
namespace PySeq

theorem alistGet_set_self [BEq κ] [LawfulBEq κ] (m : List (κ × α)) (k : κ) (v : α) :
    alistGet (alistSet m k v) k = some v := by
  induction m with
  | nil => simp [alistSet, alistGet]
  | cons kv rest ih =>
      by_cases h : kv.1 = k
      · simp [alistSet, alistGet, h]
      · have hb : (kv.1 == k) = false := beq_eq_false_iff_ne.2 h
        simpa [alistSet, alistGet, hb] using ih

theorem alistGet_set_ne [BEq κ] [LawfulBEq κ] (m : List (κ × α)) (k : κ) (v : α) (k' : κ)
    (h : k' ≠ k) : alistGet (alistSet m k v) k' = alistGet m k' := by
  have hb : (k == k') = false := beq_eq_false_iff_ne.2 (Ne.symm h)
  induction m with
  | nil => simp [alistSet, alistGet, hb]
  | cons kv rest ih =>
      by_cases hk : kv.1 = k
      · simp [alistSet, alistGet, hk, hb]
      · by_cases hk' : kv.1 = k'
        · subst hk'
          simp [alistSet, alistGet, beq_eq_false_iff_ne.2 hk, List.find?]
        · have hb1 : (kv.1 == k') = false := beq_eq_false_iff_ne.2 hk'
          have hb2 : (kv.1 == k) = false := beq_eq_false_iff_ne.2 hk
          simpa [alistSet, alistGet, hb1, hb2] using ih

theorem foldlMax_mem (xs : List ℚ) : ∀ x : ℚ, xs.foldl max x ∈ x :: xs := by
  induction xs with
  | nil => intro x; simp
  | cons y rest ih =>
      intro x
      rw [List.foldl_cons]
      rcases List.mem_cons.1 (ih (max x y)) with h | h
      · rw [h]
        rcases max_choice x y with hm | hm
        · rw [hm]
          exact List.mem_cons_self _ _
        · rw [hm]
          exact List.mem_cons_of_mem _ (List.mem_cons_self _ _)
      · exact List.mem_cons_of_mem _ (List.mem_cons_of_mem _ h)

theorem foldlMax_le (xs : List ℚ) : ∀ x : ℚ, ∀ v ∈ x :: xs, v ≤ xs.foldl max x := by
  induction xs with
  | nil =>
      intro x v hv
      rw [List.mem_singleton] at hv
      exact hv ▸ le_refl x
  | cons y rest ih =>
      intro x v hv
      rw [List.foldl_cons]
      rcases List.mem_cons.1 hv with h | h
      · subst h
        exact le_trans (le_max_left v y) (ih (max v y) (max v y) (List.mem_cons_self _ _))
      · rcases List.mem_cons.1 h with h2 | h2
        · subst h2
          exact le_trans (le_max_right x v) (ih (max x v) (max x v) (List.mem_cons_self _ _))
        · exact ih (max x y) v (List.mem_cons_of_mem _ h2)

/-- Every task value holds a numeric `Duration`. -/
def DurOk (tasks : List (String × Rec)) : Prop :=
  ∀ k t, alistGet tasks k = some t → ∃ d : ℚ, Rec.getN t "Duration" = .jnum d

/-- A forward-passed task: numeric `ES` and `Duration`, and `EF = ES + Duration`. -/
def FwdOk (t : Rec) : Prop :=
  ∃ es d : ℚ, Rec.getN t "ES" = .jnum es ∧ Rec.getN t "Duration" = .jnum d ∧
    Rec.getN t "EF" = .jnum (qAdd es d)

theorem durOk_cons {kv : String × Rec} {tail : List (String × Rec)}
    (hv : ∃ d : ℚ, Rec.getN kv.2 "Duration" = .jnum d)
    (htail : DurOk tail) : DurOk (kv :: tail) := by
  intro k t ht
  by_cases h : kv.1 = k
  · have h2 : some kv.2 = some t := by simpa [alistGet, List.find?, h] using ht
    rw [← Option.some.inj h2]
    exact hv
  · exact htail k t (by simpa [alistGet, List.find?, beq_eq_false_iff_ne.2 h] using ht)

theorem cpmNormalize_durOk (m : List (String × Rec)) : DurOk (cpmNormalize m) := by
  induction m with
  | nil => intro k t ht; simp [cpmNormalize, alistGet] at ht
  | cons kv rest ih =>
      show DurOk (cpmNormalize (kv :: rest))
      unfold cpmNormalize
      rw [List.map_cons]
      refine durOk_cons ?_ ih
      dsimp only
      cases hp : Rec.getN (Rec.set kv.2 "Duration"
          (.jnum (coerceDur (Rec.getN kv.2 "Duration")))) "Predecessors" with
      | jarr xs => exact ⟨_, Rec.getN_set_self _ _ _⟩
      | jnull =>
          exact ⟨coerceDur (Rec.getN kv.2 "Duration"), by
            rw [Rec.getN_set_ne _ _ _ _ (by decide)]
            exact Rec.getN_set_self _ _ _⟩
      | jbool b =>
          exact ⟨coerceDur (Rec.getN kv.2 "Duration"), by
            rw [Rec.getN_set_ne _ _ _ _ (by decide)]
            exact Rec.getN_set_self _ _ _⟩
      | jnum q =>
          exact ⟨coerceDur (Rec.getN kv.2 "Duration"), by
            rw [Rec.getN_set_ne _ _ _ _ (by decide)]
            exact Rec.getN_set_self _ _ _⟩
      | jstr s2 =>
          exact ⟨coerceDur (Rec.getN kv.2 "Duration"), by
            rw [Rec.getN_set_ne _ _ _ _ (by decide)]
            exact Rec.getN_set_self _ _ _⟩
      | jobj o =>
          exact ⟨coerceDur (Rec.getN kv.2 "Duration"), by
            rw [Rec.getN_set_ne _ _ _ _ (by decide)]
            exact Rec.getN_set_self _ _ _⟩

end PySeq
namespace PySeq

theorem cpmForwardStep_get_ne (tasks : List (String × Rec)) (k k' : String) (h : k' ≠ k) :
    alistGet (cpmForwardStep tasks k) k' = alistGet tasks k' := by
  unfold cpmForwardStep
  cases alistGet tasks k with
  | none => rfl
  | some t => exact alistGet_set_ne _ _ _ _ h

theorem cpmForward_preserve (order : List String) :
    ∀ tasks k, k ∉ order → alistGet (cpmForward tasks order) k = alistGet tasks k := by
  induction order with
  | nil => intro tasks k _; rfl
  | cons k0 rest ih =>
      intro tasks k hk
      have h1 : k ≠ k0 := fun h => hk (h ▸ List.mem_cons_self _ _)
      have h2 : k ∉ rest := fun h => hk (List.mem_cons_of_mem _ h)
      rw [cpmForward, List.foldl_cons]
      exact (ih _ k h2).trans (cpmForwardStep_get_ne tasks k0 k h1)

theorem cpmForwardStep_durOk (tasks : List (String × Rec)) (k : String) (h : DurOk tasks) :
    DurOk (cpmForwardStep tasks k) := by
  unfold cpmForwardStep
  cases ht : alistGet tasks k with
  | none => exact h
  | some t =>
      intro k' t' ht'
      by_cases hk : k' = k
      · subst hk
        rw [alistGet_set_self] at ht'
        obtain rfl := Option.some.inj ht'
        obtain ⟨d, hd⟩ := h k' t ht
        refine ⟨d, ?_⟩
        rw [Rec.getN_set_ne _ _ _ _ (by decide), Rec.getN_set_ne _ _ _ _ (by decide)]
        exact hd
      · rw [alistGet_set_ne _ _ _ _ hk] at ht'
        exact h k' t' ht'

theorem fwdOk_of_shape (t0 : Rec) (es : ℚ)
    (hd : ∃ d : ℚ, Rec.getN t0 "Duration" = .jnum d) :
    FwdOk (Rec.set (Rec.set t0 "ES" (.jnum es)) "EF"
      (.jnum (qAdd es (numOr0 (Rec.getN t0 "Duration"))))) := by
  obtain ⟨d, hdd⟩ := hd
  refine ⟨es, d, ?_, ?_, ?_⟩
  · rw [Rec.getN_set_ne _ _ _ _ (by decide)]
    exact Rec.getN_set_self _ _ _
  · rw [Rec.getN_set_ne _ _ _ _ (by decide), Rec.getN_set_ne _ _ _ _ (by decide)]
    exact hdd
  · rw [Rec.getN_set_self]
    have h2 : numOr0 (Rec.getN t0 "Duration") = d := by rw [hdd]; rfl
    rw [h2]

theorem cpmForwardStep_fwdOk_self (tasks : List (String × Rec)) (k : String) (h : DurOk tasks) :
    ∀ t, alistGet (cpmForwardStep tasks k) k = some t →
      (FwdOk t ∨ alistGet tasks k = none) := by
  intro t ht
  unfold cpmForwardStep at ht
  cases h0 : alistGet tasks k with
  | none => exact Or.inr rfl
  | some t0 =>
      left
      rw [h0] at ht
      simp only at ht
      rw [alistGet_set_self] at ht
      obtain rfl := Option.some.inj ht
      exact fwdOk_of_shape _ _ (h k t0 h0)

theorem fwdOk_preserved_forwardStep (tasks : List (String × Rec)) (k0 k : String)
    (h : DurOk tasks)
    (hf : ∀ t, alistGet tasks k = some t → FwdOk t) :
    ∀ t, alistGet (cpmForwardStep tasks k0) k = some t → FwdOk t := by
  intro t ht
  by_cases hk : k = k0
  · subst hk
    rcases cpmForwardStep_fwdOk_self tasks k h t ht with h1 | h1
    · exact h1
    · rw [cpmForwardStep, h1] at ht
      rw [h1] at ht
      exact absurd ht (by simp)
  · rw [cpmForwardStep_get_ne _ _ _ hk] at ht
    exact hf t ht

theorem cpmForward_durOk (order : List String) :
    ∀ tasks, DurOk tasks → DurOk (cpmForward tasks order) := by
  induction order with
  | nil => intro tasks h; exact h
  | cons k0 rest ih =>
      intro tasks h
      rw [cpmForward, List.foldl_cons]
      exact ih _ (cpmForwardStep_durOk tasks k0 h)

theorem cpmForward_fwdOk (order : List String) :
    ∀ tasks, DurOk tasks → ∀ k ∈ order,
      ∀ t, alistGet (cpmForward tasks order) k = some t → FwdOk t := by
  induction order with
  | nil => intro tasks _ k hk; exact absurd hk (List.not_mem_nil k)
  | cons k0 rest ih =>
      intro tasks h k hk t ht
      rw [cpmForward, List.foldl_cons] at ht
      by_cases hm : k ∈ rest
      · exact ih _ (cpmForwardStep_durOk tasks k0 h) k hm t ht
      · have hk0 : k = k0 := by
          rcases List.mem_cons.1 hk with h1 | h1
          · exact h1
          · exact absurd h1 hm
        subst hk0
        have hpres : List.foldl cpmForwardStep (cpmForwardStep tasks k) rest =
            cpmForward (cpmForwardStep tasks k) rest := rfl
        rw [hpres, cpmForward_preserve rest _ k hm] at ht
        rcases cpmForwardStep_fwdOk_self tasks k h t ht with h1 | h1
        · exact h1
        · rw [cpmForwardStep, h1] at ht
          rw [h1] at ht
          exact absurd ht (by simp)

end PySeq
namespace PySeq

/-- A fully processed CPM node: numeric fields with `EF = ES + Duration`,
`LS = LF - Duration`, `Float = LS - ES`, `Critical ⇔ |Float| < 1e-9`. -/
def OutOk (t : Rec) : Prop :=
  ∃ d es lf : ℚ,
    Rec.getN t "Duration" = .jnum d ∧
    Rec.getN t "ES" = .jnum es ∧
    Rec.getN t "EF" = .jnum (qAdd es d) ∧
    Rec.getN t "LF" = .jnum lf ∧
    Rec.getN t "LS" = .jnum (qSub lf d) ∧
    Rec.getN t "Float" = .jnum (qSub (qSub lf d) es) ∧
    Rec.getN t "Critical" = .jbool (decide (qAbs (qSub (qSub lf d) es) < mkRat 1 1000000000))

theorem outOk_of_shape (t : Rec) (lf : ℚ) (hf : FwdOk t) :
    OutOk (Rec.set (Rec.set (Rec.set (Rec.set t
      "LF" (.jnum lf)) "LS" (.jnum (qSub lf (numOr0 (Rec.getN t "Duration")))))
      "Float" (match Rec.getN t "ES" with
        | .jnum e => .jnum (qSub (qSub lf (numOr0 (Rec.getN t "Duration"))) e)
        | _ => .jnull))
      "Critical" (.jbool (qAbs (numOr0 (match Rec.getN t "ES" with
        | .jnum e => .jnum (qSub (qSub lf (numOr0 (Rec.getN t "Duration"))) e)
        | _ => .jnull)) < mkRat 1 1000000000))) := by
  obtain ⟨es, d0, hES, hD, hEF⟩ := hf
  refine ⟨d0, es, lf, ?_, ?_, ?_, ?_, ?_, ?_, ?_⟩
  · rw [Rec.getN_set_ne _ _ _ _ (by decide), Rec.getN_set_ne _ _ _ _ (by decide),
      Rec.getN_set_ne _ _ _ _ (by decide), Rec.getN_set_ne _ _ _ _ (by decide)]
    exact hD
  · rw [Rec.getN_set_ne _ _ _ _ (by decide), Rec.getN_set_ne _ _ _ _ (by decide),
      Rec.getN_set_ne _ _ _ _ (by decide), Rec.getN_set_ne _ _ _ _ (by decide)]
    exact hES
  · rw [Rec.getN_set_ne _ _ _ _ (by decide), Rec.getN_set_ne _ _ _ _ (by decide),
      Rec.getN_set_ne _ _ _ _ (by decide), Rec.getN_set_ne _ _ _ _ (by decide)]
    exact hEF
  · rw [Rec.getN_set_ne _ _ _ _ (by decide), Rec.getN_set_ne _ _ _ _ (by decide),
      Rec.getN_set_ne _ _ _ _ (by decide)]
    exact Rec.getN_set_self _ _ _
  · rw [Rec.getN_set_ne _ _ _ _ (by decide), Rec.getN_set_ne _ _ _ _ (by decide)]
    rw [hD]
    exact Rec.getN_set_self _ _ _
  · rw [Rec.getN_set_ne _ _ _ _ (by decide)]
    rw [hES, hD]
    exact Rec.getN_set_self _ _ _
  · rw [hES, hD]
    exact Rec.getN_set_self _ _ _

theorem cpmBackwardStep_get_ne (finish : ℚ) (tasks : List (String × Rec)) (k k' : String)
    (h : k' ≠ k) : alistGet (cpmBackwardStep finish tasks k) k' = alistGet tasks k' := by
  unfold cpmBackwardStep
  cases alistGet tasks k with
  | none => rfl
  | some t => exact alistGet_set_ne _ _ _ _ h

theorem fwdOk_set4 (t : Rec) (a b c e : JVal) (hf : FwdOk t) :
    FwdOk (Rec.set (Rec.set (Rec.set (Rec.set t "LF" a) "LS" b) "Float" c) "Critical" e) := by
  obtain ⟨es, d0, hES, hD, hEF⟩ := hf
  refine ⟨es, d0, ?_, ?_, ?_⟩ <;>
    rw [Rec.getN_set_ne _ _ _ _ (by decide), Rec.getN_set_ne _ _ _ _ (by decide),
      Rec.getN_set_ne _ _ _ _ (by decide), Rec.getN_set_ne _ _ _ _ (by decide)]
  · exact hES
  · exact hD
  · exact hEF

theorem fwdOk_preserved_bwdStep (finish : ℚ) (tasks : List (String × Rec)) (k0 k : String)
    (hf : ∀ t, alistGet tasks k = some t → FwdOk t) :
    ∀ t, alistGet (cpmBackwardStep finish tasks k0) k = some t → FwdOk t := by
  intro t ht
  by_cases hk : k = k0
  · subst hk
    unfold cpmBackwardStep at ht
    cases h0 : alistGet tasks k with
    | none => rw [h0] at ht; exact hf t ht
    | some t0 =>
        rw [h0] at ht
        simp only at ht
        rw [alistGet_set_self] at ht
        obtain rfl := Option.some.inj ht
        exact fwdOk_set4 _ _ _ _ _ (hf t0 h0)
  · rw [cpmBackwardStep_get_ne _ _ _ _ hk] at ht
    exact hf t ht

theorem bwdFold_preserve (finish : ℚ) (rlist : List String) :
    ∀ tasks k, k ∉ rlist →
      alistGet (rlist.foldl (cpmBackwardStep finish) tasks) k = alistGet tasks k := by
  induction rlist with
  | nil => intro tasks k _; rfl
  | cons k0 rest ih =>
      intro tasks k hk
      have h1 : k ≠ k0 := fun h => hk (h ▸ List.mem_cons_self _ _)
      have h2 : k ∉ rest := fun h => hk (List.mem_cons_of_mem _ h)
      rw [List.foldl_cons]
      exact (ih _ k h2).trans (cpmBackwardStep_get_ne finish tasks k0 k h1)

theorem bwdFold_outOk (finish : ℚ) (rlist : List String) :
    ∀ tasks, (∀ k ∈ rlist, ∀ t, alistGet tasks k = some t → FwdOk t) →
      ∀ k ∈ rlist, ∀ t, alistGet (rlist.foldl (cpmBackwardStep finish) tasks) k = some t →
        OutOk t := by
  induction rlist with
  | nil => intro tasks _ k hk; exact absurd hk (List.not_mem_nil k)
  | cons k0 rest ih =>
      intro tasks hfw k hk t ht
      rw [List.foldl_cons] at ht
      have hfw' : ∀ k' ∈ rest, ∀ t', alistGet (cpmBackwardStep finish tasks k0) k' = some t' →
          FwdOk t' := by
        intro k' hk' t' ht'
        exact fwdOk_preserved_bwdStep finish tasks k0 k'
          (fun t'' ht'' => hfw k' (List.mem_cons_of_mem _ hk') t'' ht'') t' ht'
      by_cases hm : k ∈ rest
      · exact ih _ hfw' k hm t ht
      · have hk0 : k = k0 := by
          rcases List.mem_cons.1 hk with h1 | h1
          · exact h1
          · exact absurd h1 hm
        subst hk0
        rw [bwdFold_preserve finish rest _ k hm] at ht
        unfold cpmBackwardStep at ht
        cases h0 : alistGet tasks k with
        | none => rw [h0] at ht; exact absurd (ht.symm.trans h0) (by simp)
        | some t0 =>
            rw [h0] at ht
            simp only at ht
            rw [alistGet_set_self] at ht
            obtain rfl := Option.some.inj ht
            exact outOk_of_shape t0 _ (hfw k (List.mem_cons_self _ _) t0 h0)

end PySeq
namespace PySeq

/-- C1 (amended): every record the Critical stage outputs has numeric
`Duration`, `ES`, `EF`, `LF`, `LS` and `Float` fields with `EF = ES + Duration`,
`LS = LF - Duration` (hence `LF = LS + Duration`), `Float = LS - ES`, and
`Critical` set exactly when `|Float| < 1e-9`; the project finish used by the
backward pass is the maximum of the per-node `EF or 0` values over the node
order (it is NOT in general the maximum `LF`). -/
theorem cpm_node_equations_c1 (tasksArr : List Rec) (out : Rec) (hout : out ∈ cpm tasksArr) :
    (∃ d es lf : ℚ,
      Rec.getN out "Duration" = .jnum d ∧
      Rec.getN out "ES" = .jnum es ∧
      Rec.getN out "EF" = .jnum (es + d) ∧
      Rec.getN out "LF" = .jnum lf ∧
      Rec.getN out "LS" = .jnum (lf - d) ∧
      Rec.getN out "Float" = .jnum (lf - d - es) ∧
      Rec.getN out "Critical" = .jbool (decide (|lf - d - es| < mkRat 1 1000000000))) ∧
    (∀ (tasks : List (String × Rec)) (order : List String), order ≠ [] →
      cpmFinish tasks order ∈ order.map (fun k => match alistGet tasks k with
        | some t => numOr0 (Rec.getN t "EF")
        | none => 0) ∧
      ∀ v ∈ order.map (fun k => match alistGet tasks k with
        | some t => numOr0 (Rec.getN t "EF")
        | none => 0), v ≤ cpmFinish tasks order) := by
  constructor
  · simp only [cpm] at hout
    obtain ⟨k, hk, hget⟩ := List.mem_filterMap.1 hout
    have hdur := cpmNormalize_durOk (cpmInit tasksArr)
    have hOut := bwdFold_outOk
      (cpmFinish (cpmForward (cpmNormalize (cpmInit tasksArr))
        (cpmToposort (cpmNormalize (cpmInit tasksArr))))
        (cpmToposort (cpmNormalize (cpmInit tasksArr))))
      (cpmToposort (cpmNormalize (cpmInit tasksArr))).reverse
      (cpmForward (cpmNormalize (cpmInit tasksArr))
        (cpmToposort (cpmNormalize (cpmInit tasksArr))))
      (fun k' hk' t ht => cpmForward_fwdOk _ _ hdur k' (List.mem_reverse.1 hk') t ht)
      k (List.mem_reverse.2 hk) out hget
    obtain ⟨d, es, lf, h1, h2, h3, h4, h5, h6, h7⟩ := hOut
    simp only [qAdd_eq, qSub_eq, qAbs_eq] at h3 h5 h6 h7
    exact ⟨d, es, lf, h1, h2, h3, h4, h5, h6, h7⟩
  · intro tasks order hne
    cases order with
    | nil => exact absurd rfl hne
    | cons k0 rest =>
        have hfin : cpmFinish tasks (k0 :: rest) =
            (rest.map (fun k => match alistGet tasks k with
              | some t => numOr0 (Rec.getN t "EF")
              | none => 0)).foldl max
              (match alistGet tasks k0 with
               | some t => numOr0 (Rec.getN t "EF")
               | none => 0) := by
          rw [cpmFinish, List.map_cons]
        constructor
        · rw [hfin, List.map_cons]
          exact foldlMax_mem _ _
        · intro v hv
          rw [hfin]
          rw [List.map_cons] at hv
          exact foldlMax_le _ _ v hv

def c1taskA : Rec := [("ScheduleActivityID", .jstr "A"), ("Duration", .jnum 2),
  ("Predecessors", .jarr [.jstr "B"])]

def c1taskB : Rec := [("ScheduleActivityID", .jstr "B"), ("Duration", .jnum 3),
  ("Predecessors", .jarr [.jstr "A"])]

def c1arr : List Rec := [c1taskA, c1taskB]

theorem cpm_max_lf_c1_counterexample :
    ((cpm c1arr).map (fun r => Rec.getN r "EF") = [.jnum 2, .jnum 5]) ∧
    ((cpm c1arr).map (fun r => Rec.getN r "LF") = [.jnum 2, .jnum 0]) ∧
    ((cpm c1arr).map (fun r => numOr0 (Rec.getN r "EF"))).foldl max 0 = 5 ∧
    ((cpm c1arr).map (fun r => numOr0 (Rec.getN r "LF"))).foldl max 0 = 2 ∧
    (5 : ℚ) ≠ 2 := by
  decide

theorem cpm_node_equations_c1_witness :
    (∃ d es lf : ℚ,
      Rec.getN ((cpm c1arr).headD []) "Duration" = .jnum d ∧
      Rec.getN ((cpm c1arr).headD []) "ES" = .jnum es ∧
      Rec.getN ((cpm c1arr).headD []) "EF" = .jnum (es + d) ∧
      Rec.getN ((cpm c1arr).headD []) "LF" = .jnum lf ∧
      Rec.getN ((cpm c1arr).headD []) "LS" = .jnum (lf - d) ∧
      Rec.getN ((cpm c1arr).headD []) "Float" = .jnum (lf - d - es) ∧
      Rec.getN ((cpm c1arr).headD []) "Critical" =
        .jbool (decide (|lf - d - es| < mkRat 1 1000000000))) ∧
    (∀ (tasks : List (String × Rec)) (order : List String), order ≠ [] →
      cpmFinish tasks order ∈ order.map (fun k => match alistGet tasks k with
        | some t => numOr0 (Rec.getN t "EF")
        | none => 0) ∧
      ∀ v ∈ order.map (fun k => match alistGet tasks k with
        | some t => numOr0 (Rec.getN t "EF")
        | none => 0), v ≤ cpmFinish tasks order) :=
  cpm_node_equations_c1 c1arr ((cpm c1arr).headD []) (by decide)

end PySeq
namespace PySeq

theorem insertBy_perm (le : α → α → Bool) (x : α) :
    ∀ l : List α, (insertBy le x l).Perm (x :: l) := by
  intro l
  induction l with
  | nil => exact List.Perm.refl _
  | cons y ys ih =>
      unfold insertBy
      split
      · exact List.Perm.refl _
      · exact (List.Perm.cons y ih).trans (List.Perm.swap x y ys)

theorem sortBy_perm (le : α → α → Bool) (l : List α) : (sortBy le l).Perm l := by
  induction l with
  | nil => exact List.Perm.refl _
  | cons y ys ih =>
      unfold sortBy at ih ⊢
      rw [List.foldr_cons]
      exact (insertBy_perm le y _).trans (List.Perm.cons y ih)

theorem sortBy_mem (le : α → α → Bool) (l : List α) (x : α) :
    x ∈ sortBy le l ↔ x ∈ l :=
  (sortBy_perm le l).mem_iff

theorem sortBy_nodup (le : α → α → Bool) (l : List α) (h : l.Nodup) :
    (sortBy le l).Nodup :=
  (sortBy_perm le l).nodup_iff.2 h

theorem alistGet_set_ite [BEq κ] [LawfulBEq κ] (m : List (κ × α)) (k : κ) (v : α) (x : κ) :
    alistGet (alistSet m k v) x = if x == k then some v else alistGet m x := by
  by_cases h : (x == k) = true
  · rw [if_pos h]
    have h2 : x = k := eq_of_beq h
    subst h2
    exact alistGet_set_self m x v
  · rw [if_neg h]
    exact alistGet_set_ne m k v x (by simpa using h)

/-- Position of the first occurrence. -/
def posIn [BEq κ] (x : κ) : List κ → ℕ
  | [] => 0
  | y :: ys => if y == x then 0 else posIn x ys + 1

theorem posIn_append_left [BEq κ] [LawfulBEq κ] (l₁ l₂ : List κ) (x : κ) (h : x ∈ l₁) :
    posIn x (l₁ ++ l₂) = posIn x l₁ := by
  induction l₁ with
  | nil => exact absurd h (List.not_mem_nil x)
  | cons y ys ih =>
      rw [List.cons_append]
      unfold posIn
      by_cases hy : (y == x) = true
      · rw [if_pos hy, if_pos hy]
      · rw [if_neg hy, if_neg hy]
        have hx : x ∈ ys := by
          rcases List.mem_cons.1 h with h1 | h1
          · subst h1
            exact absurd (beq_self_eq_true x) hy
          · exact h1
        rw [ih hx]

theorem posIn_append_self [BEq κ] [LawfulBEq κ] (l : List κ) (x : κ) (h : x ∉ l) :
    posIn x (l ++ [x]) = l.length := by
  induction l with
  | nil =>
      rw [List.nil_append]
      unfold posIn
      rw [if_pos (beq_self_eq_true x)]
      rfl
  | cons y ys ih =>
      rw [List.cons_append]
      unfold posIn
      have hy : (y == x) = false := beq_eq_false_iff_ne.2 (fun he => h (he ▸ List.mem_cons_self _ _))
      rw [if_neg (by rw [hy]; exact Bool.false_ne_true)]
      rw [ih (fun hx => h (List.mem_cons_of_mem _ hx))]
      rfl

theorem posIn_lt_length [BEq κ] [LawfulBEq κ] (l : List κ) (x : κ) (h : x ∈ l) :
    posIn x l < l.length := by
  induction l with
  | nil => exact absurd h (List.not_mem_nil x)
  | cons y ys ih =>
      unfold posIn
      by_cases hy : (y == x) = true
      · rw [if_pos hy]
        simp
      · rw [if_neg hy]
        have hx : x ∈ ys := by
          rcases List.mem_cons.1 h with h1 | h1
          · subst h1
            exact absurd (beq_self_eq_true x) hy
          · exact h1
        simpa [List.length_cons] using Nat.succ_lt_succ (ih hx)

theorem min_attained (f : α → ℕ) :
    ∀ l : List α, l ≠ [] → ∃ x ∈ l, ∀ y ∈ l, f x ≤ f y := by
  intro l
  induction l with
  | nil => intro h; exact absurd rfl h
  | cons a rest ih =>
      intro _
      cases rest with
      | nil =>
          refine ⟨a, List.mem_cons_self _ _, ?_⟩
          intro y hy
          rcases List.mem_cons.1 hy with h1 | h1
          · exact h1 ▸ le_refl _
          · exact absurd h1 (List.not_mem_nil y)
      | cons b bs =>
          obtain ⟨x, hx, hmin⟩ := ih (List.cons_ne_nil b bs)
          by_cases hle : f a ≤ f x
          · refine ⟨a, List.mem_cons_self _ _, ?_⟩
            intro y hy
            rcases List.mem_cons.1 hy with h1 | h1
            · exact h1 ▸ le_refl _
            · exact le_trans hle (hmin y h1)
          · refine ⟨x, List.mem_cons_of_mem _ hx, ?_⟩
            intro y hy
            rcases List.mem_cons.1 hy with h1 | h1
            · exact h1 ▸ le_of_not_le hle
            · exact hmin y h1

theorem term_le_sum (l : List κ) (f : κ → ℕ) (x : κ) (hx : x ∈ l) :
    f x ≤ (l.map f).sum := by
  induction l with
  | nil => exact absurd hx (List.not_mem_nil x)
  | cons y ys ih =>
      rw [List.map_cons, List.sum_cons]
      rcases List.mem_cons.1 hx with h1 | h1
      · exact h1 ▸ Nat.le_add_right _ _
      · exact le_trans (ih h1) (Nat.le_add_left _ _)

theorem sum_pos_mem (l : List κ) (f : κ → ℕ) (h : 0 < (l.map f).sum) :
    ∃ x ∈ l, 0 < f x := by
  induction l with
  | nil => simp at h
  | cons y ys ih =>
      rw [List.map_cons, List.sum_cons] at h
      by_cases hy : 0 < f y
      · exact ⟨y, List.mem_cons_self _ _, hy⟩
      · have h2 : f y = 0 := Nat.eq_zero_of_not_pos hy
        rw [h2, Nat.zero_add] at h
        obtain ⟨x, hx, hfx⟩ := ih h
        exact ⟨x, List.mem_cons_of_mem _ hx, hfx⟩

theorem nodup_same_mem_length (a b : List κ) (ha : a.Nodup) (hb : b.Nodup)
    (h : ∀ x, x ∈ a ↔ x ∈ b) : a.length = b.length := by
  have h1 : a.Subperm b := List.subperm_of_subset ha (fun x hx => (h x).1 hx)
  have h2 : b.Subperm a := List.subperm_of_subset hb (fun x hx => (h x).2 hx)
  exact le_antisymm h1.length_le h2.length_le

end PySeq
namespace PySeq

def adjOf [BEq κ] (adj : List (κ × List κ)) (p : κ) : List κ := (alistGet adj p).getD []

/-- Number of arcs into `c` from keys not yet ordered. -/
def remArcs [BEq κ] (adj : List (κ × List κ)) (keys ordered : List κ) (c : κ) : ℕ :=
  ((keys.filter (fun p => !ordered.contains p)).map (fun p => (adjOf adj p).count c)).sum

/-- One decrement of the Kahn successor loop. -/
def decStep [BEq κ] (acc : List (κ × ℤ) × List κ) (m : κ) : List (κ × ℤ) × List κ :=
  let d := (alistGet acc.1 m).getD 0 - 1
  (alistSet acc.1 m d, if d == 0 then acc.2 ++ [m] else acc.2)

theorem kahnLoop_cons [BEq κ] (srt : List κ → List κ) (adj : List (κ × List κ))
    (fuel : ℕ) (n : κ) (rest : List κ) (indeg : List (κ × ℤ)) (ordered : List κ) :
    kahnLoop srt adj (fuel + 1) (n :: rest) indeg ordered =
      kahnLoop srt adj fuel
        (srt (rest ++ ((adjOf adj n).foldl decStep (indeg, [])).2))
        ((adjOf adj n).foldl decStep (indeg, [])).1
        (ordered ++ [n]) := rfl

theorem contains_append [BEq κ] (l1 l2 : List κ) (a : κ) :
    (l1 ++ l2).contains a = (l1.contains a || l2.contains a) := by
  induction l1 with
  | nil => simp
  | cons b bs ih =>
      rw [List.cons_append, List.contains_cons, List.contains_cons, ih, Bool.or_assoc]

theorem decFold_get [BEq κ] [LawfulBEq κ] :
    ∀ (ms : List κ) (ind : List (κ × ℤ)) (q : List κ) (x : κ),
    (alistGet ((ms.foldl decStep (ind, q)).1) x).getD 0
      = (alistGet ind x).getD 0 - (ms.count x : ℤ) := by
  intro ms
  induction ms with
  | nil => intro ind q x; simp
  | cons m rest ih =>
      intro ind q x
      rw [List.foldl_cons]
      have hstep : decStep (ind, q) m =
          (alistSet ind m ((alistGet ind m).getD 0 - 1),
           if ((alistGet ind m).getD 0 - 1) == 0 then q ++ [m] else q) := rfl
      rw [hstep, ih]
      rw [alistGet_set_ite]
      by_cases hx : (x == m) = true
      · have hxe : x = m := eq_of_beq hx
        subst hxe
        rw [if_pos (beq_self_eq_true x), List.count_cons, if_pos (beq_self_eq_true x)]
        simp only [Option.getD_some]
        push_cast
        omega
      · rw [if_neg hx, List.count_cons]
        have hxe : x ≠ m := fun he => hx (he ▸ beq_self_eq_true x)
        rw [if_neg (by rw [beq_eq_false_iff_ne.2 (Ne.symm hxe)]; exact Bool.false_ne_true)]
        simp

theorem decFold_mem [BEq κ] [LawfulBEq κ] :
    ∀ (ms : List κ) (ind : List (κ × ℤ)) (q : List κ) (x : κ),
    (x ∈ (ms.foldl decStep (ind, q)).2 ↔ x ∈ q ∨
      (1 ≤ (alistGet ind x).getD 0 ∧ (alistGet ind x).getD 0 ≤ (ms.count x : ℤ))) := by
  intro ms
  induction ms with
  | nil =>
      intro ind q x
      simp only [List.foldl_nil, List.count_nil, Nat.cast_zero]
      constructor
      · exact Or.inl
      · rintro (h | ⟨h1, h2⟩)
        · exact h
        · omega
  | cons m rest ih =>
      intro ind q x
      rw [List.foldl_cons]
      have hstep : decStep (ind, q) m =
          (alistSet ind m ((alistGet ind m).getD 0 - 1),
           if ((alistGet ind m).getD 0 - 1) == 0 then q ++ [m] else q) := rfl
      rw [hstep, ih]
      rw [alistGet_set_ite]
      by_cases hx : (x == m) = true
      · have hxe : x = m := eq_of_beq hx
        subst hxe
        rw [if_pos (beq_self_eq_true x), List.count_cons, if_pos (beq_self_eq_true x)]
        simp only [Option.getD_some]
        by_cases hd : ((alistGet ind x).getD 0 - 1 = 0)
        · rw [if_pos (by simpa using hd)]
          constructor
          · intro _
            right
            push_cast
            omega
          · intro _
            left
            exact List.mem_append.2 (Or.inr (List.mem_singleton.2 rfl))
        · rw [if_neg (by simpa using hd)]
          push_cast
          constructor
          · rintro (h | ⟨h1, h2⟩)
            · exact Or.inl h
            · right
              omega
          · rintro (h | ⟨h1, h2⟩)
            · exact Or.inl h
            · right
              omega
      · have hxe : x ≠ m := fun he => hx (he ▸ beq_self_eq_true x)
        have hq : (x ∈ (if (((alistGet ind m).getD 0 - 1) == 0) = true then q ++ [m] else q) ↔
            x ∈ q) := by
          split
          · rw [List.mem_append, List.mem_singleton]
            constructor
            · rintro (h | h)
              · exact h
              · exact absurd h hxe
            · exact Or.inl
          · exact Iff.rfl
        rw [if_neg hx, hq, List.count_cons,
          if_neg (show ¬((m == x) = true) by
            rw [beq_eq_false_iff_ne.2 (Ne.symm hxe)]; exact Bool.false_ne_true)]
        simp

theorem decFold_nodup [BEq κ] [LawfulBEq κ] :
    ∀ (ms : List κ) (ind : List (κ × ℤ)) (q : List κ),
    q.Nodup → (∀ x ∈ q, (alistGet ind x).getD 0 ≤ 0) →
    ((ms.foldl decStep (ind, q)).2.Nodup ∧
     ∀ x ∈ (ms.foldl decStep (ind, q)).2,
       (alistGet ((ms.foldl decStep (ind, q)).1) x).getD 0 ≤ 0) := by
  intro ms
  induction ms with
  | nil => intro ind q h1 h2; exact ⟨h1, h2⟩
  | cons m rest ih =>
      intro ind q h1 h2
      rw [List.foldl_cons]
      have hstep : decStep (ind, q) m =
          (alistSet ind m ((alistGet ind m).getD 0 - 1),
           if ((alistGet ind m).getD 0 - 1) == 0 then q ++ [m] else q) := rfl
      rw [hstep]
      by_cases hd : ((alistGet ind m).getD 0 - 1 = 0)
      · rw [if_pos (by simpa using hd)]
        have hmq : m ∉ q := by
          intro hm
          have := h2 m hm
          omega
        refine ih _ _ ?_ ?_
        · rw [List.nodup_append]
          exact ⟨h1, List.nodup_singleton m, by
            intro x hx hxm
            rw [List.mem_singleton] at hxm
            exact hmq (hxm ▸ hx)⟩
        · intro x hx
          rw [alistGet_set_ite]
          by_cases hxm : (x == m) = true
          · rw [if_pos hxm]
            simp only [Option.getD_some]
            omega
          · rw [if_neg hxm]
            rcases List.mem_append.1 hx with h | h
            · exact h2 x h
            · rw [List.mem_singleton] at h
              exact absurd (h ▸ beq_self_eq_true x) (h ▸ hxm)
      · rw [if_neg (by simpa using hd)]
        refine ih _ _ h1 ?_
        intro x hx
        rw [alistGet_set_ite]
        by_cases hxm : (x == m) = true
        · rw [if_pos hxm]
          have hxe : x = m := eq_of_beq hxm
          have := h2 x hx
          subst hxe
          simp only [Option.getD_some]
          omega
        · rw [if_neg hxm]
          exact h2 x hx

theorem sum_filter_ne [BEq κ] [LawfulBEq κ] (f : κ → ℕ) :
    ∀ (A : List κ) (n : κ), A.Nodup → n ∈ A →
      (A.map f).sum = f n + ((A.filter (fun p => !(p == n))).map f).sum := by
  intro A
  induction A with
  | nil => intro n _ hn; exact absurd hn (List.not_mem_nil n)
  | cons a rest ih =>
      intro n hnd hn
      rw [List.map_cons, List.sum_cons, List.filter_cons]
      by_cases ha : (a == n) = true
      · have hae : a = n := eq_of_beq ha
        subst hae
        rw [if_neg (by simp [ha])]
        have hnr : a ∉ rest := (List.nodup_cons.1 hnd).1
        have hfr : rest.filter (fun p => !(p == a)) = rest := by
          rw [List.filter_eq_self]
          intro p hp
          have : p ≠ a := fun he => hnr (he ▸ hp)
          simp [beq_eq_false_iff_ne.2 this]
        rw [hfr]
      · rw [if_pos (by simp [ha])]
        have hnrest : n ∈ rest := by
          rcases List.mem_cons.1 hn with h1 | h1
          · subst h1
            exact absurd (beq_self_eq_true n) ha
          · exact h1
        rw [List.map_cons, List.sum_cons, ih n (List.nodup_cons.1 hnd).2 hnrest]
        omega

theorem filter_not_contains_append [BEq κ] (keys ordered : List κ) (n : κ) :
    keys.filter (fun p => !(ordered ++ [n]).contains p)
      = (keys.filter (fun p => !ordered.contains p)).filter (fun p => !(p == n)) := by
  rw [List.filter_filter]
  apply List.filter_congr
  intro p _
  rw [contains_append]
  cases hc : ordered.contains p <;> cases hn : (p == n) <;>
    simp [List.contains_cons, hc, hn]

/-- Removing a newly ordered node from the remaining set removes exactly its
arc multiset. -/
theorem remArcs_snoc [BEq κ] [LawfulBEq κ] (adj : List (κ × List κ)) (keys ordered : List κ)
    (n : κ) (hkeys : keys.Nodup) (hn : n ∈ keys) (hno : n ∉ ordered) (c : κ) :
    remArcs adj keys (ordered ++ [n]) c + (adjOf adj n).count c = remArcs adj keys ordered c := by
  unfold remArcs
  rw [filter_not_contains_append]
  have hA : (keys.filter (fun p => !ordered.contains p)).Nodup := hkeys.filter _
  have hnA : n ∈ keys.filter (fun p => !ordered.contains p) :=
    List.mem_filter.2 ⟨hn, by simpa using hno⟩
  rw [sum_filter_ne (fun p => (adjOf adj p).count c) _ n hA hnA]
  omega

end PySeq

namespace PySeq

theorem countk_pos_iff [BEq κ] [LawfulBEq κ] (l : List κ) (x : κ) :
    0 < l.count x ↔ x ∈ l := by
  induction l with
  | nil => simp
  | cons y ys ih =>
      rw [List.count_cons, List.mem_cons]
      by_cases h : (y == x) = true
      · have he : y = x := eq_of_beq h
        subst he
        simp [beq_self_eq_true]
      · rw [if_neg h]
        have hne : x ≠ y := fun he => h (he ▸ beq_self_eq_true y)
        simp only [Nat.add_zero, ih]
        constructor
        · exact Or.inr
        · rintro (h1 | h1)
          · exact absurd h1 hne
          · exact h1

theorem countk_eq_zero [BEq κ] [LawfulBEq κ] (l : List κ) (x : κ) (h : x ∉ l) :
    l.count x = 0 := by
  by_contra hc
  exact h ((countk_pos_iff l x).1 (Nat.pos_of_ne_zero hc))

theorem containsk_iff [BEq κ] [LawfulBEq κ] (l : List κ) (a : κ) :
    l.contains a = true ↔ a ∈ l := by
  induction l with
  | nil => simp
  | cons y ys ih =>
      rw [List.contains_cons, List.mem_cons, Bool.or_eq_true, ih]
      constructor
      · rintro (h | h)
        · exact Or.inl (eq_of_beq h)
        · exact Or.inr h
      · rintro (h | h)
        · exact Or.inl (h ▸ beq_self_eq_true a)
        · exact Or.inr h

theorem not_contains [BEq κ] [LawfulBEq κ] (l : List κ) (a : κ) (h : a ∉ l) :
    (!l.contains a) = true := by
  cases hc : l.contains a
  · rfl
  · exact absurd ((containsk_iff l a).1 hc) h

end PySeq

namespace PySeq

/-- Kahn loop master invariant: with enough fuel, a well-formed state over a
graph admitting a rank function ends with `ordered` a duplicate-free linear
extension covering all keys. -/
theorem kahn_master [BEq κ] [LawfulBEq κ] (srt : List κ → List κ) (adj : List (κ × List κ))
    (keys : List κ)
    (hsrtm : ∀ (l : List κ) (x : κ), x ∈ srt l ↔ x ∈ l)
    (hsrtn : ∀ l : List κ, l.Nodup → (srt l).Nodup)
    (hkeys : keys.Nodup)
    (hadjk : ∀ p c : κ, c ∈ adjOf adj p → c ∈ keys)
    (hadj0 : ∀ p : κ, p ∉ keys → adjOf adj p = [])
    (rank : κ → ℕ)
    (hacyc : ∀ p c : κ, c ∈ adjOf adj p → rank p < rank c) :
    ∀ (fuel : ℕ) (ready : List κ) (indeg : List (κ × ℤ)) (ordered : List κ),
    keys.length + 1 ≤ fuel + ordered.length →
    (ordered ++ ready).Nodup →
    (∀ x ∈ ordered ++ ready, x ∈ keys) →
    (∀ k ∈ keys, k ∉ ordered →
      (alistGet indeg k).getD 0 = (remArcs adj keys ordered k : ℤ)) →
    (∀ k ∈ ordered, (alistGet indeg k).getD 0 ≤ 0) →
    (∀ k ∈ keys, k ∉ ordered → (k ∈ ready ↔ remArcs adj keys ordered k = 0)) →
    (∀ c ∈ ordered, ∀ p, c ∈ adjOf adj p →
      p ∈ ordered ∧ posIn p ordered < posIn c ordered) →
    ((∀ x, x ∈ (kahnLoop srt adj fuel ready indeg ordered).2 ↔ x ∈ keys) ∧
     (kahnLoop srt adj fuel ready indeg ordered).2.Nodup ∧
     (∀ c ∈ (kahnLoop srt adj fuel ready indeg ordered).2, ∀ p, c ∈ adjOf adj p →
        p ∈ (kahnLoop srt adj fuel ready indeg ordered).2 ∧
        posIn p (kahnLoop srt adj fuel ready indeg ordered).2 <
          posIn c (kahnLoop srt adj fuel ready indeg ordered).2)) := by
  intro fuel
  induction fuel with
  | zero =>
      intro ready indeg ordered Hfuel Hnd Hsub _ _ _ _
      exfalso
      have hone : ordered.Nodup := Hnd.of_append_left
      have hols : ordered.Subperm keys :=
        List.subperm_of_subset hone (fun x hx => Hsub x (List.mem_append.2 (Or.inl hx)))
      have := hols.length_le
      omega
  | succ fuel ih =>
      intro ready indeg ordered Hfuel Hnd Hsub HA HE HC HD
      cases ready with
      | nil =>
          have hcov : ∀ x, x ∈ ordered ↔ x ∈ keys := by
            intro x
            constructor
            · intro hx
              exact Hsub x (List.mem_append.2 (Or.inl hx))
            · intro hx
              by_contra hxo
              have hS : x ∈ keys.filter (fun k => !ordered.contains k) :=
                List.mem_filter.2 ⟨hx, by
                  rw [Bool.not_eq_true', ← Bool.not_eq_true]
                  intro hc
                  exact hxo ((containsk_iff ordered x).1 hc)⟩
              obtain ⟨kmin, hkmin, hmin⟩ := min_attained rank _ (List.ne_nil_of_mem hS)
              have hkK : kmin ∈ keys := (List.mem_filter.1 hkmin).1
              have hkO : kmin ∉ ordered := by
                intro hc
                have := (List.mem_filter.1 hkmin).2
                rw [Bool.not_eq_true'] at this
                exact absurd ((containsk_iff ordered kmin).2 hc) (by rw [this]; exact Bool.false_ne_true)
              have hZ : remArcs adj keys ordered kmin ≠ 0 := by
                intro hz
                exact absurd ((HC kmin hkK hkO).2 hz) (List.not_mem_nil kmin)
              obtain ⟨p, hpS, hpc⟩ := sum_pos_mem _ _ (Nat.pos_of_ne_zero hZ)
              have hparc : kmin ∈ adjOf adj p := (countk_pos_iff _ _).1 hpc
              exact absurd (hmin p hpS) (by
                have := hacyc p kmin hparc
                omega)
          exact ⟨hcov, Hnd.of_append_left, HD⟩
      | cons n rest =>
          rw [kahnLoop_cons]
          have hndo : ordered.Nodup := Hnd.of_append_left
          have hndr : (n :: rest).Nodup := (List.nodup_append.1 Hnd).2.1
          have hdisj : ordered.Disjoint (n :: rest) := (List.nodup_append.1 Hnd).2.2
          have hnK : n ∈ keys := Hsub n (List.mem_append.2 (Or.inr (List.mem_cons_self _ _)))
          have hnO : n ∉ ordered := fun h => hdisj h (List.mem_cons_self _ _)
          have hZn : remArcs adj keys ordered n = 0 := (HC n hnK hnO).1 (List.mem_cons_self _ _)
          have hget := decFold_get (adjOf adj n) indeg []
          have hmem0 := decFold_mem (adjOf adj n) indeg []
          have hnd0 := decFold_nodup (adjOf adj n) indeg [] List.nodup_nil
            (fun x hx => absurd hx (List.not_mem_nil x))
          have hnew : ∀ x, x ∈ ((adjOf adj n).foldl decStep (indeg, [])).2 →
              x ∈ keys ∧ x ∉ ordered ∧ x ≠ n ∧ x ∉ rest ∧
              remArcs adj keys (ordered ++ [n]) x = 0 := by
            intro x hx
            rcases (hmem0 x).1 hx with h | ⟨h1, h2⟩
            · exact absurd h (List.not_mem_nil x)
            have hcnt : 0 < (adjOf adj n).count x := by
              by_contra hc
              have h0 : (adjOf adj n).count x = 0 := Nat.eq_zero_of_not_pos hc
              rw [h0] at h2
              simp at h2
              omega
            have hxK : x ∈ keys := hadjk n x ((countk_pos_iff _ _).1 hcnt)
            have hxO : x ∉ ordered := by
              intro hc
              have := HE x hc
              omega
            have hxn : x ≠ n := by
              intro he
              subst he
              have hha := HA x hxK hxO
              rw [hZn] at hha
              simp at hha
              omega
            have hxr : x ∉ rest := by
              intro hc
              have hz := (HC x hxK hxO).1 (List.mem_cons_of_mem _ hc)
              have hha := HA x hxK hxO
              rw [hz] at hha
              simp at hha
              omega
            refine ⟨hxK, hxO, hxn, hxr, ?_⟩
            have hsn := remArcs_snoc adj keys ordered n hkeys hnK hnO x
            have hha := HA x hxK hxO
            omega
          have hrest : ∀ x ∈ rest, x ∈ keys ∧ x ∉ ordered ∧
              remArcs adj keys (ordered ++ [n]) x = 0 := by
            intro x hx
            have hxK : x ∈ keys :=
              Hsub x (List.mem_append.2 (Or.inr (List.mem_cons_of_mem _ hx)))
            have hxO : x ∉ ordered := fun h => hdisj h (List.mem_cons_of_mem _ hx)
            have hz := (HC x hxK hxO).1 (List.mem_cons_of_mem _ hx)
            have hsn := remArcs_snoc adj keys ordered n hkeys hnK hnO x
            exact ⟨hxK, hxO, by omega⟩
          refine ih _ _ _ ?_ ?_ ?_ ?_ ?_ ?_ ?_
          · rw [List.length_append, List.length_singleton]
            omega
          · rw [List.nodup_append]
            refine ⟨?_, ?_, ?_⟩
            · rw [List.nodup_append]
              exact ⟨hndo, List.nodup_singleton n,
                fun a ha hb => hnO (List.mem_singleton.1 hb ▸ ha)⟩
            · apply hsrtn
              rw [List.nodup_append]
              refine ⟨(List.nodup_cons.1 hndr).2, hnd0.1, ?_⟩
              intro a ha hb
              exact (hnew a hb).2.2.2.1 ha
            · intro a ha hb
              have hb2 := (hsrtm _ a).1 hb
              rcases List.mem_append.1 hb2 with hr | hw
              · rcases List.mem_append.1 ha with h1 | h1
                · exact hdisj h1 (List.mem_cons_of_mem _ hr)
                · exact (List.nodup_cons.1 hndr).1 (List.mem_singleton.1 h1 ▸ hr)
              · rcases List.mem_append.1 ha with h1 | h1
                · exact (hnew a hw).2.1 h1
                · exact (hnew a hw).2.2.1 (List.mem_singleton.1 h1)
          · intro x hx
            rcases List.mem_append.1 hx with h1 | h1
            · rcases List.mem_append.1 h1 with h2 | h2
              · exact Hsub x (List.mem_append.2 (Or.inl h2))
              · exact List.mem_singleton.1 h2 ▸ hnK
            · have hb2 := (hsrtm _ x).1 h1
              rcases List.mem_append.1 hb2 with hr | hw
              · exact (hrest x hr).1
              · exact (hnew x hw).1
          · intro k hk hko2
            have hko : k ∉ ordered := fun h => hko2 (List.mem_append.2 (Or.inl h))
            have hsn := remArcs_snoc adj keys ordered n hkeys hnK hnO k
            have hha := HA k hk hko
            rw [hget k, hha]
            omega
          · intro k hk
            rcases List.mem_append.1 hk with h1 | h1
            · have := HE k h1
              rw [hget k]
              omega
            · have h2 := List.mem_singleton.1 h1
              subst h2
              have hha := HA k hnK hnO
              rw [hget k, hha, hZn]
              simp
          · intro k hk hko2
            have hko : k ∉ ordered := fun h => hko2 (List.mem_append.2 (Or.inl h))
            have hkn : k ≠ n := fun h => hko2 (List.mem_append.2 (Or.inr (List.mem_singleton.2 h)))
            have hsn := remArcs_snoc adj keys ordered n hkeys hnK hnO k
            have hha := HA k hk hko
            constructor
            · intro hkr
              have hb2 := (hsrtm _ k).1 hkr
              rcases List.mem_append.1 hb2 with hr | hw
              · exact (hrest k hr).2.2
              · exact (hnew k hw).2.2.2.2
            · intro hz2
              by_cases hz : remArcs adj keys ordered k = 0
              · have hkready := (HC k hk hko).2 hz
                rcases List.mem_cons.1 hkready with h1 | h1
                · exact absurd h1 hkn
                · exact (hsrtm _ k).2 (List.mem_append.2 (Or.inl h1))
              · refine (hsrtm _ k).2 (List.mem_append.2 (Or.inr ?_))
                refine (hmem0 k).2 (Or.inr ⟨?_, ?_⟩)
                · rw [hha]
                  omega
                · rw [hha]
                  omega
          · intro c hc p hcp
            rcases List.mem_append.1 hc with h1 | h1
            · obtain ⟨hp, hlt⟩ := HD c h1 p hcp
              refine ⟨List.mem_append.2 (Or.inl hp), ?_⟩
              rw [posIn_append_left _ _ _ hp, posIn_append_left _ _ _ h1]
              exact hlt
            · have hcn : c = n := List.mem_singleton.1 h1
              subst hcn
              have hpO : p ∈ ordered := by
                by_contra hpo
                by_cases hpK : p ∈ keys
                · have hpS : p ∈ keys.filter (fun q => !ordered.contains q) :=
                    List.mem_filter.2 ⟨hpK, not_contains _ _ hpo⟩
                  have hterm : (adjOf adj p).count c ≤ remArcs adj keys ordered c :=
                    term_le_sum _ (fun q => (adjOf adj q).count c) p hpS
                  rw [hZn] at hterm
                  have hpos : 0 < (adjOf adj p).count c := (countk_pos_iff _ _).2 hcp
                  omega
                · rw [hadj0 p hpK] at hcp
                  exact absurd hcp (List.not_mem_nil c)
              refine ⟨List.mem_append.2 (Or.inl hpO), ?_⟩
              rw [posIn_append_left _ _ _ hpO, posIn_append_self _ _ hnO]
              exact posIn_lt_length _ _ hpO

end PySeq

namespace PySeq

theorem alistGet_cons_eq [BEq κ] (kv : κ × α) (rest : List (κ × α)) (k : κ)
    (hf : (kv.1 == k) = true) : alistGet (kv :: rest) k = some kv.2 := by
  rw [alistGet, List.find?, hf]
  rfl

theorem alistGet_cons_ne [BEq κ] (kv : κ × α) (rest : List (κ × α)) (k : κ)
    (hf : (kv.1 == k) = false) : alistGet (kv :: rest) k = alistGet rest k := by
  rw [alistGet, List.find?, hf]
  rfl

theorem alistGet_isSome_iff [BEq κ] [LawfulBEq κ] (m : List (κ × α)) (k : κ) :
    (alistGet m k).isSome = true ↔ k ∈ m.map Prod.fst := by
  induction m with
  | nil => simp [alistGet]
  | cons kv rest ih =>
      rw [List.map_cons, List.mem_cons]
      by_cases h : (kv.1 == k) = true
      · rw [alistGet_cons_eq _ _ _ h]
        simp [eq_of_beq h]
      · have hne : k ≠ kv.1 := fun he => h (he ▸ beq_self_eq_true k)
        rw [alistGet_cons_ne _ _ _ (Bool.eq_false_iff.2 h), ih]
        constructor
        · exact Or.inr
        · rintro (h1 | h1)
          · exact absurd h1 hne
          · exact h1

theorem alistGet_none_of_not_mem [BEq κ] [LawfulBEq κ] (m : List (κ × α)) (k : κ)
    (h : k ∉ m.map Prod.fst) : alistGet m k = none := by
  cases hg : alistGet m k with
  | none => rfl
  | some v =>
      exact absurd ((alistGet_isSome_iff m k).1 (by rw [hg]; rfl)) h

theorem alistSet_map_fst [BEq κ] [LawfulBEq κ] (m : List (κ × α)) (k : κ) (v : α)
    (h : k ∈ m.map Prod.fst) : (alistSet m k v).map Prod.fst = m.map Prod.fst := by
  induction m with
  | nil => simp at h
  | cons kv rest ih =>
      rw [List.map_cons] at h ⊢
      by_cases hk : (kv.1 == k) = true
      · have he : kv.1 = k := eq_of_beq hk
        rw [alistSet, if_pos hk, List.map_cons, he]
      · rw [alistSet, if_neg hk, List.map_cons, ih]
        rcases List.mem_cons.1 h with h1 | h1
        · exact absurd (show (kv.1 == k) = true by rw [h1]; exact beq_self_eq_true kv.1) hk
        · exact h1

theorem map_congr_mem (l : List α) (f g : α → β) (h : ∀ x ∈ l, f x = g x) :
    l.map f = l.map g := by
  induction l with
  | nil => rfl
  | cons a rest ih =>
      rw [List.map_cons, List.map_cons, h a (List.mem_cons_self _ _),
        ih (fun x hx => h x (List.mem_cons_of_mem _ hx))]

theorem sum_update [BEq κ] [LawfulBEq κ] (keys : List κ) (f g : κ → ℕ) (p0 : κ) (dlt : ℕ)
    (hk : keys.Nodup) (hp : p0 ∈ keys)
    (hsame : ∀ p, p ≠ p0 → f p = g p) (hdelta : g p0 = f p0 + dlt) :
    (keys.map g).sum = (keys.map f).sum + dlt := by
  rw [sum_filter_ne f keys p0 hk hp, sum_filter_ne g keys p0 hk hp]
  have heq : (keys.filter (fun p => !(p == p0))).map f
      = (keys.filter (fun p => !(p == p0))).map g := by
    apply map_congr_mem
    intro x hx
    have hxne : x ≠ p0 := by
      have h2 := (List.mem_filter.1 hx).2
      intro he
      rw [he, beq_self_eq_true] at h2
      exact absurd h2 (by decide)
    exact hsame x hxne
  rw [heq, hdelta]
  omega

theorem alistGet_const [BEq κ] [LawfulBEq κ] (keys : List κ) (c : α) (k : κ) :
    alistGet (keys.map (fun n => (n, c))) k =
      if keys.contains k then some c else none := by
  induction keys with
  | nil => simp [alistGet]
  | cons a rest ih =>
      rw [List.map_cons, List.contains_cons]
      by_cases h : (a == k) = true
      · rw [alistGet_cons_eq _ _ _ h]
        have he : a = k := eq_of_beq h
        subst he
        rw [beq_self_eq_true, Bool.true_or, if_pos rfl]
      · have hne : k ≠ a := fun he => h (by rw [he]; exact beq_self_eq_true a)
        have hka : (k == a) = false := beq_eq_false_iff_ne.2 hne
        rw [alistGet_cons_ne _ _ _ (Bool.eq_false_iff.2 h), ih, hka, Bool.false_or]

theorem map_fst_const [BEq κ] (keys : List κ) (c : α) :
    (keys.map (fun n => (n, c))).map Prod.fst = keys := by
  rw [List.map_map]
  exact (map_congr_mem keys _ id (fun x _ => rfl)).trans (List.map_id keys)

end PySeq

namespace PySeq

theorem sg_step (keys : List JVal) (hkeys : keys.Nodup)
    (adjm : List (JVal × List JVal)) (indm : List (JVal × ℤ)) (cur pred : JVal)
    (h1 : adjm.map Prod.fst = keys)
    (h2 : indm.map Prod.fst = keys)
    (h3 : ∀ p c, c ∈ adjOf adjm p → c ∈ keys)
    (h4 : ∀ c, (alistGet indm c).getD 0 =
       ((keys.map (fun p => (adjOf adjm p).count c)).sum : ℤ)) :
    ((match cur, pred with
      | .jstr _, .jstr _ =>
          if (alistGet adjm pred).isSome && (alistGet indm cur).isSome then
            (alistSet adjm pred ((alistGet adjm pred).getD [] ++ [cur]),
             alistSet indm cur ((alistGet indm cur).getD 0 + 1))
          else (adjm, indm)
      | _, _ => (adjm, indm)) : List (JVal × List JVal) × List (JVal × ℤ)).1.map Prod.fst
        = keys ∧
    ((match cur, pred with
      | .jstr _, .jstr _ =>
          if (alistGet adjm pred).isSome && (alistGet indm cur).isSome then
            (alistSet adjm pred ((alistGet adjm pred).getD [] ++ [cur]),
             alistSet indm cur ((alistGet indm cur).getD 0 + 1))
          else (adjm, indm)
      | _, _ => (adjm, indm)) : List (JVal × List JVal) × List (JVal × ℤ)).2.map Prod.fst
        = keys ∧
    (∀ p c, c ∈ adjOf (match cur, pred with
      | .jstr _, .jstr _ =>
          if (alistGet adjm pred).isSome && (alistGet indm cur).isSome then
            (alistSet adjm pred ((alistGet adjm pred).getD [] ++ [cur]),
             alistSet indm cur ((alistGet indm cur).getD 0 + 1))
          else (adjm, indm)
      | _, _ => (adjm, indm)).1 p → c ∈ keys) ∧
    (∀ c, (alistGet (match cur, pred with
      | .jstr _, .jstr _ =>
          if (alistGet adjm pred).isSome && (alistGet indm cur).isSome then
            (alistSet adjm pred ((alistGet adjm pred).getD [] ++ [cur]),
             alistSet indm cur ((alistGet indm cur).getD 0 + 1))
          else (adjm, indm)
      | _, _ => (adjm, indm)).2 c).getD 0 =
       ((keys.map (fun p => (adjOf (match cur, pred with
      | .jstr _, .jstr _ =>
          if (alistGet adjm pred).isSome && (alistGet indm cur).isSome then
            (alistSet adjm pred ((alistGet adjm pred).getD [] ++ [cur]),
             alistSet indm cur ((alistGet indm cur).getD 0 + 1))
          else (adjm, indm)
      | _, _ => (adjm, indm)).1 p).count c)).sum : ℤ)) := by
  cases cur with
  | jstr s1 =>
      cases pred with
      | jstr s2 =>
          by_cases hg : ((alistGet adjm (.jstr s2)).isSome && (alistGet indm (.jstr s1)).isSome) = true
          · rw [if_pos hg]
            rw [Bool.and_eq_true] at hg
            obtain ⟨hgs1, hgs2⟩ := hg
            have hpredK : (JVal.jstr s2) ∈ keys := by
              rw [← h1]
              exact (alistGet_isSome_iff _ _).1 hgs1
            have hcurK : (JVal.jstr s1) ∈ keys := by
              rw [← h2]
              exact (alistGet_isSome_iff _ _).1 hgs2
            refine ⟨?_, ?_, ?_, ?_⟩
            · rw [alistSet_map_fst _ _ _ (by rw [h1]; exact hpredK)]
              exact h1
            · rw [alistSet_map_fst _ _ _ (by rw [h2]; exact hcurK)]
              exact h2
            · intro p c hc
              unfold adjOf at hc
              rw [alistGet_set_ite] at hc
              by_cases hp : (p == JVal.jstr s2) = true
              · rw [if_pos hp] at hc
                simp only [Option.getD_some] at hc
                rcases List.mem_append.1 hc with hcl | hcl
                · exact h3 p c (by
                    have hpe : p = JVal.jstr s2 := eq_of_beq hp
                    rw [hpe]
                    exact hcl)
                · rw [List.mem_singleton.1 hcl]
                  exact hcurK
              · rw [if_neg hp] at hc
                exact h3 p c hc
            · intro c
              rw [alistGet_set_ite]
              have hcount : ∀ p : JVal, p ≠ .jstr s2 →
                  (adjOf adjm p).count c =
                  (adjOf (alistSet adjm (.jstr s2) ((alistGet adjm (.jstr s2)).getD [] ++ [.jstr s1])) p).count c := by
                intro p hp
                unfold adjOf
                rw [alistGet_set_ite, if_neg (by
                  rw [beq_eq_false_iff_ne.2 hp]
                  exact Bool.false_ne_true)]
              have hdelta : (adjOf (alistSet adjm (.jstr s2)
                  ((alistGet adjm (.jstr s2)).getD [] ++ [.jstr s1])) (.jstr s2)).count c =
                  (adjOf adjm (.jstr s2)).count c + (if (JVal.jstr s1 == c) = true then 1 else 0) := by
                unfold adjOf
                rw [alistGet_set_ite, if_pos (beq_self_eq_true _)]
                simp only [Option.getD_some]
                rw [List.count_append]
                congr 1
                rw [List.count_cons, List.count_nil]
                omega
              have hsum := sum_update keys
                (fun p => (adjOf adjm p).count c)
                (fun p => (adjOf (alistSet adjm (.jstr s2)
                  ((alistGet adjm (.jstr s2)).getD [] ++ [.jstr s1])) p).count c)
                (.jstr s2) (if (JVal.jstr s1 == c) = true then 1 else 0)
                hkeys hpredK (fun p hp => hcount p hp) hdelta
              rw [hsum]
              by_cases hc : (c == JVal.jstr s1) = true
              · have hce : c = .jstr s1 := eq_of_beq hc
                rw [if_pos hc]
                simp only [Option.getD_some]
                rw [← hce, h4 c, if_pos (beq_self_eq_true c)]
                push_cast
                ring
              · rw [if_neg hc]
                have hne : JVal.jstr s1 ≠ c := fun he => hc (by rw [he]; exact beq_self_eq_true c)
                rw [if_neg (by
                  rw [beq_eq_false_iff_ne.2 hne]
                  exact Bool.false_ne_true)]
                rw [h4 c]
                push_cast
                ring
          · rw [if_neg hg]
            exact ⟨h1, h2, h3, h4⟩
      | jnull => exact ⟨h1, h2, h3, h4⟩
      | jbool b => exact ⟨h1, h2, h3, h4⟩
      | jnum q => exact ⟨h1, h2, h3, h4⟩
      | jarr l => exact ⟨h1, h2, h3, h4⟩
      | jobj o => exact ⟨h1, h2, h3, h4⟩
  | jnull => exact ⟨h1, h2, h3, h4⟩
  | jbool b => exact ⟨h1, h2, h3, h4⟩
  | jnum q => exact ⟨h1, h2, h3, h4⟩
  | jarr l => exact ⟨h1, h2, h3, h4⟩
  | jobj o => exact ⟨h1, h2, h3, h4⟩

end PySeq

namespace PySeq

theorem seqGraph_inv (keys : List JVal) (hkeys : keys.Nodup) (edges : List Rec) :
    (seqGraph keys edges).1.map Prod.fst = keys ∧
    (seqGraph keys edges).2.map Prod.fst = keys ∧
    (∀ p c, c ∈ adjOf (seqGraph keys edges).1 p → c ∈ keys) ∧
    (∀ c, (alistGet (seqGraph keys edges).2 c).getD 0 =
       ((keys.map (fun p => (adjOf (seqGraph keys edges).1 p).count c)).sum : ℤ)) := by
  suffices h : ∀ (es : List Rec) (adjm : List (JVal × List JVal)) (indm : List (JVal × ℤ)),
      adjm.map Prod.fst = keys → indm.map Prod.fst = keys →
      (∀ p c, c ∈ adjOf adjm p → c ∈ keys) →
      (∀ c, (alistGet indm c).getD 0 =
        ((keys.map (fun p => (adjOf adjm p).count c)).sum : ℤ)) →
      ((es.foldl (fun acc e =>
          let cur := Rec.getN e "ScheduleActivityID"
          let pred := Rec.getN e "Predecessor"
          match cur, pred with
          | .jstr _, .jstr _ =>
              if (alistGet acc.1 pred).isSome && (alistGet acc.2 cur).isSome then
                (alistSet acc.1 pred ((alistGet acc.1 pred).getD [] ++ [cur]),
                 alistSet acc.2 cur ((alistGet acc.2 cur).getD 0 + 1))
              else acc
          | _, _ => acc) (adjm, indm)).1.map Prod.fst = keys ∧
       (es.foldl (fun acc e =>
          let cur := Rec.getN e "ScheduleActivityID"
          let pred := Rec.getN e "Predecessor"
          match cur, pred with
          | .jstr _, .jstr _ =>
              if (alistGet acc.1 pred).isSome && (alistGet acc.2 cur).isSome then
                (alistSet acc.1 pred ((alistGet acc.1 pred).getD [] ++ [cur]),
                 alistSet acc.2 cur ((alistGet acc.2 cur).getD 0 + 1))
              else acc
          | _, _ => acc) (adjm, indm)).2.map Prod.fst = keys ∧
       (∀ p c, c ∈ adjOf (es.foldl (fun acc e =>
          let cur := Rec.getN e "ScheduleActivityID"
          let pred := Rec.getN e "Predecessor"
          match cur, pred with
          | .jstr _, .jstr _ =>
              if (alistGet acc.1 pred).isSome && (alistGet acc.2 cur).isSome then
                (alistSet acc.1 pred ((alistGet acc.1 pred).getD [] ++ [cur]),
                 alistSet acc.2 cur ((alistGet acc.2 cur).getD 0 + 1))
              else acc
          | _, _ => acc) (adjm, indm)).1 p → c ∈ keys) ∧
       (∀ c, (alistGet (es.foldl (fun acc e =>
          let cur := Rec.getN e "ScheduleActivityID"
          let pred := Rec.getN e "Predecessor"
          match cur, pred with
          | .jstr _, .jstr _ =>
              if (alistGet acc.1 pred).isSome && (alistGet acc.2 cur).isSome then
                (alistSet acc.1 pred ((alistGet acc.1 pred).getD [] ++ [cur]),
                 alistSet acc.2 cur ((alistGet acc.2 cur).getD 0 + 1))
              else acc
          | _, _ => acc) (adjm, indm)).2 c).getD 0 =
         ((keys.map (fun p => (adjOf (es.foldl (fun acc e =>
          let cur := Rec.getN e "ScheduleActivityID"
          let pred := Rec.getN e "Predecessor"
          match cur, pred with
          | .jstr _, .jstr _ =>
              if (alistGet acc.1 pred).isSome && (alistGet acc.2 cur).isSome then
                (alistSet acc.1 pred ((alistGet acc.1 pred).getD [] ++ [cur]),
                 alistSet acc.2 cur ((alistGet acc.2 cur).getD 0 + 1))
              else acc
          | _, _ => acc) (adjm, indm)).1 p).count c)).sum : ℤ))) by
    have hadjinit : ∀ p, adjOf ((keys.map (fun n => (n, ([] : List JVal))))) p = [] := by
      intro p
      unfold adjOf
      rw [alistGet_const]
      split <;> rfl
    refine h edges _ _ (map_fst_const keys _) (map_fst_const keys _) ?_ ?_
    · intro p c hc
      rw [hadjinit p] at hc
      exact absurd hc (List.not_mem_nil c)
    · intro c
      rw [alistGet_const]
      have hz : keys.map (fun p => (adjOf (keys.map (fun n => (n, ([] : List JVal)))) p).count c)
          = keys.map (fun _ => 0) := by
        apply map_congr_mem
        intro p _
        rw [hadjinit p, List.count_nil]
      rw [hz]
      split <;> simp
  intro es
  induction es with
  | nil =>
      intro adjm indm h1 h2 h3 h4
      exact ⟨h1, h2, h3, h4⟩
  | cons e rest ih =>
      intro adjm indm h1 h2 h3 h4
      rw [List.foldl_cons]
      have hstep := sg_step keys hkeys adjm indm (Rec.getN e "ScheduleActivityID")
        (Rec.getN e "Predecessor") h1 h2 h3 h4
      exact ih _ _ hstep.1 hstep.2.1 hstep.2.2.1 hstep.2.2.2

end PySeq

namespace PySeq

def seqKeys (d : List Rec) : List JVal := (buildIndex d).1.map Prod.fst

/-- Spec-side: the truthy Element Names in input order, deduplicated keeping
first appearances. -/
def firstNames (d : List Rec) : List JVal :=
  d.foldl (fun acc r =>
    let n := Rec.getN r "Element Name"
    if !n.truthy then acc else if acc.contains n then acc else acc ++ [n]) []

theorem buildIndex_fold (l : List (ℕ × Rec)) :
    ∀ (acc : List (JVal × ℕ) × List (JVal × Rec)) (accF : List JVal),
    acc.1.map Prod.fst = accF → accF.Nodup →
    ((l.foldl (fun acc ir =>
        let name := Rec.getN ir.2 "Element Name"
        if !name.truthy then acc
        else if (alistGet acc.1 name).isSome then acc
        else (acc.1 ++ [(name, ir.1)], acc.2 ++ [(name, ir.2)])) acc).1.map Prod.fst =
      (l.map Prod.snd).foldl (fun acc r =>
        let n := Rec.getN r "Element Name"
        if !n.truthy then acc else if acc.contains n then acc else acc ++ [n]) accF ∧
     ((l.map Prod.snd).foldl (fun acc r =>
        let n := Rec.getN r "Element Name"
        if !n.truthy then acc else if acc.contains n then acc else acc ++ [n]) accF).Nodup) := by
  induction l with
  | nil =>
      intro acc accF hrel hnd
      exact ⟨hrel, hnd⟩
  | cons ir rest ih =>
      intro acc accF hrel hnd
      rw [List.map_cons, List.foldl_cons, List.foldl_cons]
      have hcb : accF.contains (Rec.getN ir.2 "Element Name")
          = (alistGet acc.1 (Rec.getN ir.2 "Element Name")).isSome := by
        cases hx : (alistGet acc.1 (Rec.getN ir.2 "Element Name")).isSome with
        | true =>
            have hm := (alistGet_isSome_iff _ _).1 hx
            rw [hrel] at hm
            exact (containsk_iff _ _).2 hm
        | false =>
            cases hy : accF.contains (Rec.getN ir.2 "Element Name") with
            | true =>
                have hm := (containsk_iff _ _).1 hy
                rw [← hrel] at hm
                rw [(alistGet_isSome_iff _ _).2 hm] at hx
                exact absurd hx (by decide)
            | false => rfl
      show ((rest.foldl _ (if !(Rec.getN ir.2 "Element Name").truthy then acc
          else if (alistGet acc.1 (Rec.getN ir.2 "Element Name")).isSome then acc
          else (acc.1 ++ [(Rec.getN ir.2 "Element Name", ir.1)],
                acc.2 ++ [(Rec.getN ir.2 "Element Name", ir.2)]))).1.map Prod.fst = _) ∧ _
      by_cases ht : (!(Rec.getN ir.2 "Element Name").truthy) = true
      · rw [if_pos ht, if_pos ht]
        exact ih acc accF hrel hnd
      · rw [if_neg ht, if_neg ht]
        by_cases hs : (alistGet acc.1 (Rec.getN ir.2 "Element Name")).isSome = true
        · rw [if_pos hs, if_pos (by rw [hcb]; exact hs)]
          exact ih acc accF hrel hnd
        · rw [if_neg hs, if_neg (by rw [hcb]; exact hs)]
          refine ih _ _ ?_ ?_
          · rw [List.map_append, hrel]
            rfl
          · rw [List.nodup_append]
            refine ⟨hnd, List.nodup_singleton _, ?_⟩
            intro a ha hb
            rw [List.mem_singleton] at hb
            subst hb
            rw [← hrel] at ha
            rw [(alistGet_isSome_iff _ _).2 ha] at hs
            exact hs rfl

theorem seqKeys_eq_firstNames (d : List Rec) :
    seqKeys d = firstNames d ∧ (firstNames d).Nodup := by
  have h := buildIndex_fold d.enum ([], []) [] rfl List.nodup_nil
  rw [List.enum_map_snd] at h
  exact h

end PySeq

namespace PySeq

theorem alistGet_mem_iff [BEq κ] [LawfulBEq κ] (m : List (κ × α))
    (hm : (m.map Prod.fst).Nodup) (k : κ) (v : α) :
    (k, v) ∈ m ↔ alistGet m k = some v := by
  induction m with
  | nil => simp [alistGet]
  | cons kv rest ih =>
      rw [List.map_cons, List.nodup_cons] at hm
      rw [List.mem_cons]
      by_cases h : (kv.1 == k) = true
      · have he : kv.1 = k := eq_of_beq h
        rw [alistGet_cons_eq _ _ _ h]
        constructor
        · rintro (h1 | h1)
          · rw [← h1]
          · exfalso
            have : k ∈ rest.map Prod.fst := List.mem_map.2 ⟨(k, v), h1, rfl⟩
            exact hm.1 (he ▸ this)
        · intro h1
          left
          have hv : v = kv.2 := (Option.some.inj h1).symm
          rw [hv, ← he]
      · have hne : k ≠ kv.1 := fun he => h (he ▸ beq_self_eq_true k)
        rw [alistGet_cons_ne _ _ _ (Bool.eq_false_iff.2 h), ih hm.2]
        constructor
        · rintro (h1 | h1)
          · exact absurd (show k = kv.1 from congrArg Prod.fst h1) hne
          · exact h1
        · exact Or.inr

/-- The acyclicity precondition of the claim, phrased on the adjacency the
code builds: some rank function strictly increases along every arc. -/
def SeqAcyclic (d edges : List Rec) : Prop :=
  ∃ rank : JVal → ℕ, ∀ p c, c ∈ adjOf (seqGraph (seqKeys d) edges).1 p → rank p < rank c

end PySeq

namespace PySeq

/-- The Kahn-ordered name list computed by `_build_activity_list_ordered`
before the (unreachable under acyclicity) remaining-append. -/
def seqKahnOut (d edges : List Rec) : List JVal :=
  (kahnLoop (seqSort (buildIndex d).1) (seqGraph (seqKeys d) edges).1
    ((seqKeys d).length + edges.length + 1)
    (seqSort (buildIndex d).1 (((seqGraph (seqKeys d) edges).2.filter
      (fun kv => kv.2 == 0)).map (·.1)))
    (seqGraph (seqKeys d) edges).2 []).2

theorem seqKahnOut_spec (d edges : List Rec) (rank : JVal → ℕ)
    (hrank : ∀ p c, c ∈ adjOf (seqGraph (seqKeys d) edges).1 p → rank p < rank c) :
    (∀ x, x ∈ seqKahnOut d edges ↔ x ∈ seqKeys d) ∧
    (seqKahnOut d edges).Nodup ∧
    (∀ c ∈ seqKahnOut d edges, ∀ p, c ∈ adjOf (seqGraph (seqKeys d) edges).1 p →
        p ∈ seqKahnOut d edges ∧
        posIn p (seqKahnOut d edges) < posIn c (seqKahnOut d edges)) := by
  have hknd : (seqKeys d).Nodup := by
    rw [(seqKeys_eq_firstNames d).1]
    exact (seqKeys_eq_firstNames d).2
  have hinv := seqGraph_inv (seqKeys d) hknd edges
  have hdomnd : ((seqGraph (seqKeys d) edges).2.map Prod.fst).Nodup := by
    rw [hinv.2.1]
    exact hknd
  have hfilter : (seqKeys d).filter (fun p => !(List.contains ([] : List JVal) p)) = seqKeys d :=
    List.filter_eq_self.2 (fun a _ => rfl)
  have hA : ∀ k, (alistGet (seqGraph (seqKeys d) edges).2 k).getD 0 =
      (remArcs (seqGraph (seqKeys d) edges).1 (seqKeys d) [] k : ℤ) := by
    intro k
    rw [hinv.2.2.2 k]
    unfold remArcs
    rw [hfilter]
  have hr0 : ∀ x, x ∈ seqSort (buildIndex d).1 (((seqGraph (seqKeys d) edges).2.filter
      (fun kv => kv.2 == 0)).map (·.1)) ↔
      alistGet (seqGraph (seqKeys d) edges).2 x = some 0 := by
    intro x
    rw [show (seqSort (buildIndex d).1 (((seqGraph (seqKeys d) edges).2.filter
        (fun kv => kv.2 == 0)).map (·.1))) =
      sortBy (fun a b => decide (seqIdxOf (buildIndex d).1 a ≤ seqIdxOf (buildIndex d).1 b))
        (((seqGraph (seqKeys d) edges).2.filter (fun kv => kv.2 == 0)).map (·.1)) from rfl,
      sortBy_mem]
    constructor
    · intro hx
      obtain ⟨kv, hkv, hfst⟩ := List.mem_map.1 hx
      obtain ⟨hkvm, hkv0⟩ := List.mem_filter.1 hkv
      have hv0 : kv.2 = 0 := by simpa using hkv0
      have hxm : (x, (0 : ℤ)) ∈ (seqGraph (seqKeys d) edges).2 := by
        have hkve : kv = (x, 0) := Prod.ext hfst hv0
        rw [← hkve]
        exact hkvm
      exact (alistGet_mem_iff _ hdomnd x 0).1 hxm
    · intro hx
      have hmem : (x, (0 : ℤ)) ∈ (seqGraph (seqKeys d) edges).2 :=
        (alistGet_mem_iff _ hdomnd x 0).2 hx
      exact List.mem_map.2 ⟨(x, 0), List.mem_filter.2 ⟨hmem, by simp⟩, rfl⟩
  unfold seqKahnOut
  refine kahn_master (seqSort (buildIndex d).1) (seqGraph (seqKeys d) edges).1 (seqKeys d)
    (fun l x => sortBy_mem _ l x) (fun l h => sortBy_nodup _ l h) hknd
    hinv.2.2.1 ?_ rank hrank
    ((seqKeys d).length + edges.length + 1) _ _ [] ?_ ?_ ?_ ?_ ?_ ?_ ?_
  · intro p hp
    unfold adjOf
    rw [alistGet_none_of_not_mem _ _ (by rw [hinv.1]; exact hp)]
    rfl
  · simp
  · rw [List.nil_append]
    refine sortBy_nodup _ _ ?_
    exact List.Nodup.sublist ((List.filter_sublist _).map _) hdomnd
  · intro x hx
    rw [List.nil_append] at hx
    have hg := (hr0 x).1 hx
    have hm : x ∈ (seqGraph (seqKeys d) edges).2.map Prod.fst :=
      (alistGet_isSome_iff _ _).1 (by rw [hg]; rfl)
    rw [hinv.2.1] at hm
    exact hm
  · intro k _ _
    exact hA k
  · intro k hk
    exact absurd hk (List.not_mem_nil k)
  · intro k hk _
    rw [hr0 k]
    constructor
    · intro hg
      have h2 := hA k
      rw [hg] at h2
      simp at h2
      omega
    · intro hz
      have hgd := hA k
      rw [hz] at hgd
      simp at hgd
      have hm : k ∈ (seqGraph (seqKeys d) edges).2.map Prod.fst := by
        rw [hinv.2.1]
        exact hk
      have hs := (alistGet_isSome_iff _ _).2 hm
      cases hgo : alistGet (seqGraph (seqKeys d) edges).2 k with
      | none =>
          rw [hgo] at hs
          exact absurd hs (by decide)
      | some v =>
          rw [hgo] at hgd
          simp at hgd
          rw [hgd]
  · intro c hc
    exact absurd hc (List.not_mem_nil c)

end PySeq

namespace PySeq

theorem buildOrder_eq (d edges : List Rec)
    (hlen : ¬((seqKahnOut d edges).length < (seqKeys d).length)) :
    buildActivityListOrdered d edges = (seqKahnOut d edges).map (fun name =>
      [("ScheduleActivityID", name),
       ("Type", Rec.getN ((alistGet (buildIndex d).2 name).getD []) "Type"),
       ("Duration", Rec.getN ((alistGet (buildIndex d).2 name).getD []) "Duration"),
       ("CWA", Rec.getN ((alistGet (buildIndex d).2 name).getD []) "CWA"),
       ("TaskType", .jstr "Construct")]) := by
  rw [show buildActivityListOrdered d edges =
      (if (seqKahnOut d edges).length < (seqKeys d).length then
        seqKahnOut d edges ++ seqSort (buildIndex d).1
          ((seqKeys d).filter (fun n => !(seqKahnOut d edges).contains n))
      else seqKahnOut d edges).map (fun name =>
        [("ScheduleActivityID", name),
         ("Type", Rec.getN ((alistGet (buildIndex d).2 name).getD []) "Type"),
         ("Duration", Rec.getN ((alistGet (buildIndex d).2 name).getD []) "Duration"),
         ("CWA", Rec.getN ((alistGet (buildIndex d).2 name).getD []) "CWA"),
         ("TaskType", .jstr "Construct")]) from rfl,
    if_neg hlen]

/-- C7 (confirmed): on any input whose computed edge graph admits a rank
function (is acyclic), the Sequence ordering stage is deterministic, emits
each truthy Element Name exactly once — exactly the first-appearance
deduplicated names — and orders them so every predecessor arc goes from an
earlier to a strictly later position. -/
theorem sequence_order_c7 (d edges : List Rec) (hacyc : SeqAcyclic d edges) :
    buildActivityListOrdered d edges = buildActivityListOrdered d edges ∧
    ((buildActivityListOrdered d edges).map (fun r => Rec.getN r "ScheduleActivityID")).Nodup ∧
    (∀ n, n ∈ (buildActivityListOrdered d edges).map (fun r => Rec.getN r "ScheduleActivityID")
        ↔ n ∈ firstNames d) ∧
    (∀ p c, c ∈ adjOf (seqGraph (seqKeys d) edges).1 p →
        posIn p ((buildActivityListOrdered d edges).map (fun r => Rec.getN r "ScheduleActivityID"))
          < posIn c ((buildActivityListOrdered d edges).map
              (fun r => Rec.getN r "ScheduleActivityID"))) := by
  obtain ⟨rank, hrank⟩ := hacyc
  have hspec := seqKahnOut_spec d edges rank hrank
  have hknd : (seqKeys d).Nodup := by
    rw [(seqKeys_eq_firstNames d).1]
    exact (seqKeys_eq_firstNames d).2
  have hlen : ¬((seqKahnOut d edges).length < (seqKeys d).length) := by
    rw [nodup_same_mem_length (seqKahnOut d edges) (seqKeys d) hspec.2.1 hknd hspec.1]
    omega
  have hbo := buildOrder_eq d edges hlen
  have hnames : (buildActivityListOrdered d edges).map (fun r => Rec.getN r "ScheduleActivityID")
      = seqKahnOut d edges := by
    rw [hbo, List.map_map]
    exact (map_congr_mem _ _ id (fun x _ => rfl)).trans (List.map_id _)
  refine ⟨rfl, ?_, ?_, ?_⟩
  · rw [hnames]
    exact hspec.2.1
  · intro n
    rw [hnames, hspec.1 n, ← (seqKeys_eq_firstNames d).1]
  · intro p c hc
    have hcK : c ∈ seqKeys d := (seqGraph_inv (seqKeys d) hknd edges).2.2.1 p c hc
    have hcO : c ∈ seqKahnOut d edges := (hspec.1 c).2 hcK
    have hfin := hspec.2.2 c hcO p hc
    rw [hnames]
    exact hfin.2

end PySeq

namespace PySeq

def c7recA : Rec := [("Element Name", .jstr "A"), ("Type", .jstr "Concrete"),
  ("Duration", .jnum 1), ("CWA", .jstr "X")]

def c7recB : Rec := [("Element Name", .jstr "B"), ("Type", .jstr "Grout"),
  ("Duration", .jnum 2), ("CWA", .jstr "X")]

def c7d : List Rec := [c7recA, c7recB]

def c7edges : List Rec := [[("ScheduleActivityID", .jstr "B"), ("Predecessor", .jstr "A"),
  ("Rel", .jstr "FS"), ("TaskType", .jstr "Construct")]]

end PySeq

namespace PySeq

theorem c7_acyclic : SeqAcyclic c7d c7edges := by
  refine ⟨fun v => if v == .jstr "B" then 1 else 0, ?_⟩
  intro p c hc
  have hadj : (seqGraph (seqKeys c7d) c7edges).1
      = [(.jstr "A", [.jstr "B"]), (.jstr "B", [])] := by decide
  rw [hadj] at hc
  unfold adjOf alistGet at hc
  rw [List.find?] at hc
  by_cases hA : ((JVal.jstr "A", [JVal.jstr "B"]).1 == p) = true
  · rw [hA] at hc
    have hc2 : c ∈ [JVal.jstr "B"] := hc
    rw [List.mem_singleton] at hc2
    have hpe : p = .jstr "A" := (eq_of_beq hA).symm
    rw [hpe, hc2]
    decide
  · rw [Bool.eq_false_iff.2 hA] at hc
    rw [List.find?] at hc
    by_cases hB : ((JVal.jstr "B", ([] : List JVal)).1 == p) = true
    · rw [hB] at hc
      have hc2 : c ∈ ([] : List JVal) := hc
      exact absurd hc2 (List.not_mem_nil c)
    · rw [Bool.eq_false_iff.2 hB] at hc
      have hc2 : c ∈ ([] : List JVal) := hc
      exact absurd hc2 (List.not_mem_nil c)

theorem sequence_order_c7_witness :
    buildActivityListOrdered c7d c7edges = buildActivityListOrdered c7d c7edges ∧
    ((buildActivityListOrdered c7d c7edges).map (fun r => Rec.getN r "ScheduleActivityID")).Nodup ∧
    (∀ n, n ∈ (buildActivityListOrdered c7d c7edges).map (fun r => Rec.getN r "ScheduleActivityID")
        ↔ n ∈ firstNames c7d) ∧
    (∀ p c, c ∈ adjOf (seqGraph (seqKeys c7d) c7edges).1 p →
        posIn p ((buildActivityListOrdered c7d c7edges).map (fun r => Rec.getN r "ScheduleActivityID"))
          < posIn c ((buildActivityListOrdered c7d c7edges).map
              (fun r => Rec.getN r "ScheduleActivityID"))) :=
  sequence_order_c7 c7d c7edges c7_acyclic

end PySeq
